import Mathlib

/-!
# Verification of the phydata observation-matrix and NEXUS codec

A shallow embedding, in Lean, of the `matrix` package of the phydata
repository (character observation matrices for phylogenetic data), of the
`dna` sequence collection, of the NEXUS tokenizer/reader/writer, and of
the DNA-sequence selection step of the matrix export engine; together with
theorems settling the specification claims about them.

Go maps are embedded as association lists (every accessor of the source
sorts before returning, so iteration order is irrelevant); Go's mutating
methods become state-passing functions; fallible code returns `Option` or
`Except`.  Byte-string operations work on `List Char` (Go iterates strings
rune by rune; UTF-8 byte order and code-point order agree, so Go's
byte-wise `slices.Sort` on strings is code-point lexicographic order,
which is Lean's `String` order).
-/

namespace Phydata

/-! ## Normalizer (Go `strings`/`unicode` helpers used by the source) -/

/-- The characters accepted by Go's `unicode.IsSpace` (the Unicode
`White_Space` property, as listed in the Go `unicode` tables). -/
def goIsSpace (c : Char) : Bool :=
  c = '\t' || c = '\n' || c = '\x0b' || c = '\x0c' || c = '\r' || c = ' ' ||
  c = '\x85' || c = '\xa0' || c = ' ' ||
  (' ' ≤ c && c ≤ ' ') || c = ' ' || c = ' ' ||
  c = ' ' || c = ' ' || c = '　'

/-- Splitting into whitespace-separated fields, as Go's `strings.Fields`:
maximal runs of non-space characters, in order. -/
def fieldsAux : List Char → List Char → List (List Char)
  | [], [] => []
  | [], w => [w.reverse]
  | c :: rest, w =>
    if goIsSpace c then
      if w = [] then fieldsAux rest []
      else w.reverse :: fieldsAux rest []
    else fieldsAux rest (c :: w)

/-- Go `strings.Fields`. -/
def goFields (s : String) : List String :=
  (fieldsAux s.data []).map String.mk

/-- Go `strings.Join(strings.Fields(s), " ")`: collapse whitespace runs to
single spaces and trim both ends.  Every name the matrix stores passes
through this. -/
def collapse (s : String) : String :=
  String.intercalate " " (goFields s)

/-- Lowercase mapping on one character.  Go's `strings.ToLower` uses the
full Unicode table; this embedding maps the ASCII range (on which the two
agree) and leaves other characters unchanged.  All concrete inputs used in
this development are ASCII. -/
def goToLowerChar (c : Char) : Char :=
  if 'A' ≤ c && c ≤ 'Z' then Char.ofNat (c.toNat + 32) else c

/-- Go `strings.ToLower` (ASCII fragment of the Unicode table). -/
def goToLower (s : String) : String := String.mk (s.data.map goToLowerChar)

/-- Uppercase mapping on one character (ASCII fragment, see
`goToLowerChar`). -/
def goToUpperChar (c : Char) : Char :=
  if 'a' ≤ c && c ≤ 'z' then Char.ofNat (c.toNat - 32) else c

/-- Go `strings.TrimSpace`: drop leading and trailing whitespace. -/
def goTrimSpace (s : String) : String :=
  String.mk (((s.data.dropWhile goIsSpace).reverse.dropWhile goIsSpace).reverse)

/-- `canon` of `matrix.go` (and, identically, of `dna.go`): collapse
whitespace, lowercase, then uppercase the first rune. -/
def canon (name : String) : String :=
  let name := collapse name
  if name = "" then ""
  else
    let name := goToLower name
    match name.data with
    | [] => ""
    | c :: rest => String.mk (goToUpperChar c :: rest)

/-- `specID` of `dna.go`: join the whitespace-separated fields with `_`
and lowercase.  The `matrix` package's NEXUS reader derives specimen ids
with the same rule (the spec calls it "the DNA-style specimen-id rule"). -/
def specID (spec : String) : String :=
  let spec := String.intercalate "_" (goFields spec)
  if spec = "" then "" else goToLower spec

/-- `formatSequence` of `dna.go`: remove all whitespace, lowercase. -/
def formatSequence (seq : String) : String :=
  goToLower (String.intercalate "" (goFields seq))

/-! ## Association lists (Go maps) and sorted accessors -/

/-- Lookup in an association list (a Go map access `m[k]`). -/
def alookup (k : String) : List (String × α) → Option α
  | [] => none
  | (k', v) :: rest => if k' = k then some v else alookup k rest

/-- Update/insert in an association list (a Go map store `m[k] = v`). -/
def aset (k : String) (v : α) : List (String × α) → List (String × α)
  | [] => [(k, v)]
  | (k', v') :: rest => if k' = k then (k, v) :: rest else (k', v') :: aset k v rest

/-- Remove a key from an association list (Go `delete(m, k)`). -/
def aremove (k : String) : List (String × α) → List (String × α)
  | [] => []
  | (k', v') :: rest => if k' = k then aremove k rest else (k', v') :: aremove k rest

/-- Insert into a string set (a Go `map[string]bool` store `m[k] = true`). -/
def insertState (s : String) (states : List String) : List String :=
  if s ∈ states then states else states ++ [s]

/-- Byte-wise lexicographic comparison of character lists.  UTF-8 byte
order and code-point order agree, so this is exactly Go's `<=` on
strings. -/
def charsLe : List Char → List Char → Bool
  | [], _ => true
  | _ :: _, [] => false
  | a :: as, b :: bs => if a < b then true else if b < a then false else charsLe as bs

/-- Go's byte-wise `<=` on strings. -/
def strLe (a b : String) : Bool := charsLe a.data b.data

/-- Insertion of a string into a sorted list.  Go's `slices.Sort` on
strings is ascending byte-wise order. -/
def insortStr (s : String) : List String → List String
  | [] => [s]
  | t :: rest => if strLe s t then s :: t :: rest else t :: insortStr s rest

/-- Ascending sort of a string list (Go `slices.Sort`). -/
def sortStrs (l : List String) : List String := l.foldr insortStr []

/-- Collect a list into a set (Go's pattern of filling a
`map[string]bool` and listing its keys). -/
def listToSet (l : List String) : List String := l.foldl (fun acc t => insertState t acc) []

/-! ## The observation matrix (`matrix/matrix.go`) -/

/-- The two sentinel states of `matrix.go`. -/
def NotApplicable : String := "<na>"

/-- See `NotApplicable`. -/
def Unknown : String := "<unknown>"

/-- An `observation` of `matrix.go`: a state name plus three annotation
fields. -/
structure Observation where
  name : String
  ref : String := ""
  img : String := ""
  comment : String := ""
deriving DecidableEq

/-- A `character` of `matrix.go`: its name and the set of every state
name ever added for it. -/
structure Character where
  name : String
  states : List String
deriving DecidableEq

/-- A `specimen` of `matrix.go`: its taxon (fixed at first creation), its
name, and its observations, a map from character name to a map from state
name to observation. -/
structure Specimen where
  taxon : String
  name : String
  obs : List (String × List (String × Observation))
deriving DecidableEq

/-- A `Matrix` of `matrix.go`. -/
structure Matrix where
  chars : List (String × Character)
  specs : List (String × Specimen)
deriving DecidableEq

/-- `New` of `matrix.go`. -/
def Matrix.New : Matrix := { chars := [], specs := [] }

/-- `isNoObservation` of `matrix.go`: the observation map contains
`<na>` or `<unknown>`. -/
def isNoObservation (obs : List (String × Observation)) : Bool :=
  (alookup NotApplicable obs).isSome || (alookup Unknown obs).isSome

/-- `Add` of `matrix.go`.  Mirrors the source step by step: normalize the
four components with silent early return on any empty result; record the
state in the character's state set; create the specimen on first use
(first-write-wins on its taxon, a mismatching later taxon aborts after
the character update); then the special-state merge: `<na>` replaces the
set, `<unknown>` deletes the character's entry, a concrete state wipes a
no-observation set and is keyed into the map. -/
def Matrix.Add (m : Matrix) (taxon spec char state : String) : Matrix :=
  let taxon := canon taxon
  if taxon = "" then m else
  let spec := collapse spec
  if spec = "" then m else
  let spec := goToLower spec
  let char := collapse char
  if char = "" then m else
  let char := goToLower char
  let state := collapse state
  if state = "" then m else
  let state := goToLower state
  let c : Character :=
    match alookup char m.chars with
    | some c => c
    | none => { name := char, states := [] }
  let chars := aset char { c with states := insertState state c.states } m.chars
  let (sp, isNew) :=
    match alookup spec m.specs with
    | some sp => (sp, false)
    | none => (({ taxon := taxon, name := spec, obs := [] } : Specimen), true)
  if sp.taxon ≠ taxon then { m with chars := chars } else
  let obs := (alookup char sp.obs).getD []
  if state = Unknown then
    { m with chars := chars,
             specs := aset spec { sp with obs := aremove char sp.obs } m.specs }
  else
    let obs := if state = NotApplicable then []
               else if isNoObservation obs then []
               else obs
    let obs := aset state { name := state } obs
    let _ := isNew
    { m with chars := chars,
             specs := aset spec { sp with obs := aset char obs sp.obs } m.specs }

/-- `Chars` of `matrix.go`: sorted character names. -/
def Matrix.Chars (m : Matrix) : List String :=
  sortStrs (m.chars.map (fun p => p.2.name))

/-- `Obs` of `matrix.go`: the sorted states recorded for a character in a
specimen; `nil` on an empty specimen name, `[<unknown>]` on an unknown
specimen, empty character name, or unrecorded character. -/
def Matrix.Obs (m : Matrix) (spec char : String) : List String :=
  let spec := collapse spec
  if spec = "" then [] else
  let spec := goToLower spec
  match alookup spec m.specs with
  | none => [Unknown]
  | some sp =>
    let char := collapse char
    if char = "" then [Unknown] else
    let char := goToLower char
    match alookup char sp.obs with
    | none => [Unknown]
    | some obs => sortStrs (obs.map (fun p => p.2.name))

/-- `States` of `matrix.go`: the sorted states of a character, excluding
`<na>`. -/
def Matrix.States (m : Matrix) (char : String) : List String :=
  let char := collapse char
  if char = "" then [] else
  let char := goToLower char
  match alookup char m.chars with
  | none => []
  | some c => sortStrs (c.states.filter (fun s => s ≠ NotApplicable))

/-- `Specimens` of `matrix.go`: sorted specimen names. -/
def Matrix.Specimens (m : Matrix) : List String :=
  sortStrs (m.specs.map (fun p => p.2.name))

/-- The `Field` selector of `matrix.go` (a string type with three
recognized constants). -/
def FieldReference : String := "reference"

/-- See `FieldReference`. -/
def FieldImageLink : String := "image"

/-- See `FieldReference`. -/
def FieldComments : String := "comments"

/-- Update one annotation field of an observation, as the `switch` of
`Set` in `matrix.go` (unrecognized selectors change nothing). -/
def Observation.setField (o : Observation) (field val : String) : Observation :=
  if field = FieldReference then { o with ref := val }
  else if field = FieldImageLink then { o with img := val }
  else if field = FieldComments then { o with comment := val }
  else o

/-- `Set` of `matrix.go`: navigate specimen → character → state and set
one annotation field; silent no-op whenever a step is missing. -/
def Matrix.Set (m : Matrix) (spec char state val field : String) : Matrix :=
  let spec := collapse spec
  if spec = "" then m else
  let spec := goToLower spec
  match alookup spec m.specs with
  | none => m
  | some sp =>
    let char := collapse char
    if char = "" then m else
    let char := goToLower char
    match alookup char sp.obs with
    | none => m
    | some obsMap =>
      let state := collapse state
      if state = "" then m else
      let state := goToLower state
      match alookup state obsMap with
      | none => m
      | some o =>
        let val := collapse val
        let sp := { sp with obs := aset char (aset state (o.setField field val) obsMap) sp.obs }
        { m with specs := aset spec sp m.specs }

/-- `Val` of `matrix.go`. -/
def Matrix.Val (m : Matrix) (spec char state field : String) : String :=
  let spec := collapse spec
  if spec = "" then "" else
  let spec := goToLower spec
  match alookup spec m.specs with
  | none => ""
  | some sp =>
    let char := collapse char
    if char = "" then "" else
    let char := goToLower char
    match alookup char sp.obs with
    | none => ""
    | some obsMap =>
      let state := collapse state
      if state = "" then "" else
      let state := goToLower state
      match alookup state obsMap with
      | none => ""
      | some o =>
        if field = FieldReference then o.ref
        else if field = FieldImageLink then o.img
        else if field = FieldComments then o.comment
        else ""

/-- Modelled from the spec: `Taxa()` ("Specimens()/Taxa() -> sorted
list", §4.2) — the source file defining `Matrix.Taxa` is not under
`src/`; only its callers (the NEXUS writer, the tests) are.  The sorted
set of taxa of the matrix's specimens, mirroring `Taxa` of `dna.go`. -/
def Matrix.Taxa (m : Matrix) : List String :=
  sortStrs (listToSet (m.specs.map (fun p => p.2.taxon)))

/-- Modelled from the spec: `TaxSpec(taxon) -> sorted list<specimen>`
(§4.2) — the source file defining `Matrix.TaxSpec` is not under `src/`.
The sorted names of the specimens of a taxon, mirroring `TaxSpec` of
`dna.go` (the name is canonicalized before comparison). -/
def Matrix.TaxSpec (m : Matrix) (name : String) : List String :=
  let name := canon name
  sortStrs ((m.specs.filter (fun p => p.2.taxon = name)).map (fun p => p.2.name))

/-! ## Association-list and sorting lemmas -/

theorem alookup_aset_self (k : String) (v : α) (l : List (String × α)) :
    alookup k (aset k v l) = some v := by
  induction l with
  | nil => simp [alookup, aset]
  | cons p rest ih =>
    obtain ⟨k', v'⟩ := p
    by_cases h : k' = k
    · subst h; simp [alookup, aset]
    · simp [alookup, aset, h, ih]

theorem alookup_aset_ne (k k' : String) (v : α) (l : List (String × α)) (h : k' ≠ k) :
    alookup k' (aset k v l) = alookup k' l := by
  induction l with
  | nil => simp [alookup, aset, Ne.symm h]
  | cons p rest ih =>
    obtain ⟨k₀, v₀⟩ := p
    by_cases h₀ : k₀ = k
    · subst h₀
      simp [alookup, aset, Ne.symm h]
    · simp only [aset, if_neg h₀, alookup]
      by_cases h₁ : k₀ = k'
      · simp [h₁]
      · simp [h₁, ih]

theorem alookup_aremove_self (k : String) (l : List (String × α)) :
    alookup k (aremove k l) = none := by
  induction l with
  | nil => simp [alookup, aremove]
  | cons p rest ih =>
    obtain ⟨k₀, v₀⟩ := p
    by_cases h : k₀ = k
    · simp [aremove, h, ih]
    · simp [aremove, h, alookup, ih]

theorem mem_insortStr (a s : String) (l : List String) :
    a ∈ insortStr s l ↔ a = s ∨ a ∈ l := by
  induction l with
  | nil => simp [insortStr]
  | cons t rest ih =>
    cases h : strLe s t with
    | true => simp [insortStr, h]
    | false => simp [insortStr, h, ih]; tauto

theorem mem_sortStrs (a : String) (l : List String) :
    a ∈ sortStrs l ↔ a ∈ l := by
  induction l with
  | nil => simp [sortStrs]
  | cons t rest ih =>
    simp only [sortStrs, List.foldr] at *
    rw [mem_insortStr]
    simp [ih]

theorem sortStrs_singleton (s : String) : sortStrs [s] = [s] := rfl

/-! ## Normalization facts -/

theorem goToLower_eq_empty_iff (s : String) : goToLower s = "" ↔ s = "" := by
  cases s with
  | mk d =>
    cases d with
    | nil => simp [goToLower]
    | cons c rest =>
      constructor
      · intro h
        have := congrArg String.data h
        simp [goToLower] at this
      · intro h
        exact absurd (congrArg String.data h) (by simp)

/-- The normalized key under which `Add`/`Obs`/`Set` file a specimen,
character, or state name: whitespace-collapsed then lowercased. -/
def nkey (s : String) : String := goToLower (collapse s)

theorem nkey_ne_empty {s : String} (h : collapse s ≠ "") : nkey s ≠ "" := by
  simpa [nkey, goToLower_eq_empty_iff] using h

/-- A specimen name is compatible with a taxon in a matrix when it is
not yet present, or is filed under exactly that (canonicalized) taxon —
the condition under which `Add` is not silently dropped by the
first-write-wins rule of the specimen/taxon association. -/
def taxonCompatible (m : Matrix) (taxon spec : String) : Bool :=
  match alookup (nkey spec) m.specs with
  | none => true
  | some sp => sp.taxon == canon taxon

theorem taxonCompatible_lookup {m : Matrix} {taxon spec : String}
    (h : taxonCompatible m taxon spec = true) :
    ∀ sp, alookup (nkey spec) m.specs = some sp → sp.taxon = canon taxon := by
  intro sp hlk
  simp only [taxonCompatible, hlk] at h
  exact eq_of_beq h

/-! ## Claim C2: `<unknown>` clears the pair's observations -/

/-- C2 (amended): for every matrix and every taxon, specimen, and
character whose normalized forms are non-empty, provided the specimen is
either not yet present or filed under the given taxon (first-write-wins
on the specimen/taxon association), `Add(taxon, spec, char, "<unknown>")`
followed by `Obs(spec, char)` returns exactly `["<unknown>"]`: every
previously recorded state for that (specimen, character) pair is
cleared. -/
theorem add_unknown_then_obs (m : Matrix) (taxon spec char : String)
    (ht : canon taxon ≠ "") (hs : collapse spec ≠ "") (hc : collapse char ≠ "")
    (hcompatB : taxonCompatible m taxon spec = true) :
    (m.Add taxon spec char Unknown).Obs spec char = [Unknown] := by
  have hcompat := taxonCompatible_lookup hcompatB
  have hsl := nkey_ne_empty hs
  have hcl := nkey_ne_empty hc
  simp only [nkey] at hsl hcl hcompat
  have hU : collapse Unknown = Unknown := by decide
  have hUl : goToLower Unknown = Unknown := by decide
  have hUne : Unknown ≠ "" := by decide
  simp only [Matrix.Add, hU, hUl]
  cases hlk : alookup (goToLower (collapse spec)) m.specs with
  | none =>
    simp [hlk, hs, hc, ht, hUne, Matrix.Obs, alookup_aset_self, aremove, alookup]
  | some sp =>
    have htx := hcompat sp hlk
    simp [hlk, hs, hc, ht, hUne, htx, Matrix.Obs, alookup_aset_self, alookup_aremove_self]

/-- C2 counterexample: with the specimen `s1` first created under taxon
`A`, the call `Add("B", "s1", "c1", "<unknown>")` — all components with
non-empty normalized forms — is silently dropped by the taxon mismatch,
and `Obs("s1", "c1")` still returns `["present"]`, not `["<unknown>"]`. -/
theorem add_unknown_cex :
    canon "B" ≠ "" ∧ collapse "s1" ≠ "" ∧ collapse "c1" ≠ "" ∧
    ((Matrix.New.Add "A" "s1" "c1" "present").Add "B" "s1" "c1" "<unknown>").Obs "s1" "c1"
      = ["present"] ∧ ("present" : String) ≠ Unknown := by
  refine ⟨by decide, by decide, by decide, by decide, by decide⟩

/-- Witness for C2 (amended): a prior concrete state (and even
polymorphism) is cleared. -/
theorem add_unknown_witness :
    (((Matrix.New.Add "A" "s1" "c1" "present").Add "A" "s1" "c1" "absent").Add
        "A" "s1" "c1" Unknown).Obs "s1" "c1" = [Unknown] :=
  add_unknown_then_obs ((Matrix.New.Add "A" "s1" "c1" "present").Add "A" "s1" "c1" "absent")
    "A" "s1" "c1" (by decide) (by decide) (by decide) (by decide)

/-! ## Claim C3: `<na>` replaces the pair's observations -/

/-- C3 (amended): for every matrix and every taxon, specimen, and
character whose normalized forms are non-empty, provided the specimen is
either not yet present or filed under the given taxon, after
`Add(taxon, spec, char, "<na>")` the call `Obs(spec, char)` returns
exactly `["<na>"]`, whatever observations existed before; and a
subsequent `Add` of a concrete state (neither `<na>` nor `<unknown>`)
makes `Obs` return exactly that one normalized state, not a union
containing `<na>`. -/
theorem add_na_then_obs (m : Matrix) (taxon spec char state : String)
    (ht : canon taxon ≠ "") (hs : collapse spec ≠ "") (hc : collapse char ≠ "")
    (hcompatB : taxonCompatible m taxon spec = true)
    (hst : collapse state ≠ "")
    (hstna : nkey state ≠ NotApplicable) (hstunk : nkey state ≠ Unknown) :
    (m.Add taxon spec char NotApplicable).Obs spec char = [NotApplicable] ∧
    ((m.Add taxon spec char NotApplicable).Add taxon spec char state).Obs spec char
      = [nkey state] := by
  have hcompat := taxonCompatible_lookup hcompatB
  have hsl := nkey_ne_empty hs
  have hcl := nkey_ne_empty hc
  simp only [nkey] at hsl hcl hcompat hstna hstunk
  have hN : collapse NotApplicable = NotApplicable := by decide
  have hNl : goToLower NotApplicable = NotApplicable := by decide
  have hNne : NotApplicable ≠ "" := by decide
  have hNU : NotApplicable ≠ Unknown := by decide
  simp only [Matrix.Add, hN, hNl]
  cases hlk : alookup (goToLower (collapse spec)) m.specs with
  | none =>
    constructor
    · simp [hlk, hs, hc, ht, hNne, hNU, Matrix.Obs, alookup_aset_self, Matrix.Add, aset,
        alookup, sortStrs_singleton]
    · simp [Matrix.Add, hlk, hs, hc, ht, hNne, hNU, hst, hstna, hstunk,
        Matrix.Obs, alookup_aset_self, isNoObservation, alookup, aset, sortStrs_singleton, nkey]
  | some sp =>
    have htx := hcompat sp hlk
    constructor
    · simp [hlk, hs, hc, ht, hNne, hNU, htx, Matrix.Obs, alookup_aset_self, sortStrs_singleton,
        aset, alookup]
    · simp [Matrix.Add, hlk, hs, hc, ht, hNne, hNU, hst, hstna, hstunk, htx,
        Matrix.Obs, alookup_aset_self, isNoObservation, alookup, aset, sortStrs_singleton, nkey]

/-- C3 counterexample: with the specimen `s1` first created under taxon
`A`, `Add("B", "s1", "c1", "<na>")` — all components with non-empty
normalized forms — is silently dropped by the taxon mismatch, and
`Obs("s1", "c1")` still returns `["present"]`, not `["<na>"]`. -/
theorem add_na_cex :
    canon "B" ≠ "" ∧ collapse "s1" ≠ "" ∧ collapse "c1" ≠ "" ∧
    ((Matrix.New.Add "A" "s1" "c1" "present").Add "B" "s1" "c1" "<na>").Obs "s1" "c1"
      = ["present"] ∧ ("present" : String) ≠ NotApplicable := by
  refine ⟨by decide, by decide, by decide, by decide, by decide⟩

/-- Witness for C3 (amended), on a pair that already carries a
polymorphic observation. -/
theorem add_na_witness :
    (((Matrix.New.Add "A" "s1" "c1" "present").Add "A" "s1" "c1" "absent").Add
        "A" "s1" "c1" NotApplicable).Obs "s1" "c1" = [NotApplicable] ∧
    ((((Matrix.New.Add "A" "s1" "c1" "present").Add "A" "s1" "c1" "absent").Add
        "A" "s1" "c1" NotApplicable).Add "A" "s1" "c1" "Free").Obs "s1" "c1" = [nkey "Free"] :=
  add_na_then_obs ((Matrix.New.Add "A" "s1" "c1" "present").Add "A" "s1" "c1" "absent")
    "A" "s1" "c1" "Free" (by decide) (by decide) (by decide) (by decide) (by decide)
    (by decide) (by decide)

/-! ## Claim C4: two concrete states accumulate, sorted -/

/-- Whether a (specimen, character) pair carries no concrete
observation: the specimen or the pair's entry is missing, or the entry is
a no-observation set (`<na>`). -/
def pairCleared (m : Matrix) (spec char : String) : Bool :=
  match alookup (nkey spec) m.specs with
  | none => true
  | some sp =>
    match alookup (nkey char) sp.obs with
    | none => true
    | some obs => isNoObservation obs

/-- C4 (amended): for every matrix and every two concrete states whose
normalized forms are non-empty and distinct, added to a (specimen,
character) pair that carries no prior concrete observation, under a
compatible taxon, `Obs` returns exactly the two normalized states in
ascending byte-wise (code-point) order of the normalized strings. -/
theorem add_two_states_obs (m : Matrix) (taxon spec char s1 s2 : String)
    (ht : canon taxon ≠ "") (hs : collapse spec ≠ "") (hc : collapse char ≠ "")
    (hcompatB : taxonCompatible m taxon spec = true)
    (hcl : pairCleared m spec char = true)
    (h1 : collapse s1 ≠ "") (h2 : collapse s2 ≠ "")
    (hne : nkey s1 ≠ nkey s2)
    (h1na : nkey s1 ≠ NotApplicable) (h1unk : nkey s1 ≠ Unknown)
    (h2na : nkey s2 ≠ NotApplicable) (h2unk : nkey s2 ≠ Unknown) :
    ((m.Add taxon spec char s1).Add taxon spec char s2).Obs spec char
      = if strLe (nkey s1) (nkey s2) then [nkey s1, nkey s2] else [nkey s2, nkey s1] := by
  have hcompat := taxonCompatible_lookup hcompatB
  simp only [nkey] at hcompat h1na h1unk h2na h2unk hne ⊢
  simp only [pairCleared, nkey] at hcl
  simp only [Matrix.Add]
  cases hlk : alookup (goToLower (collapse spec)) m.specs with
  | none =>
    simp only [hlk] at hcl ⊢
    simp [hs, hc, ht, h1, h2, h1na, h1unk, h2na, h2unk, hne, Ne.symm hne,
      Matrix.Obs, alookup_aset_self, isNoObservation, alookup, aset,
      sortStrs, insortStr]
  | some sp =>
    have htx := hcompat sp hlk
    simp only [hlk] at hcl ⊢
    cases hob : alookup (goToLower (collapse char)) sp.obs with
    | none =>
      simp only [hob] at hcl ⊢
      simp [hs, hc, ht, h1, h2, h1na, h1unk, h2na, h2unk, hne, Ne.symm hne, htx,
        Matrix.Obs, alookup_aset_self, isNoObservation, alookup, aset,
        sortStrs, insortStr]
    | some obs =>
      simp only [hob] at hcl ⊢
      simp only [isNoObservation, Bool.or_eq_true] at hcl
      simp [hs, hc, ht, h1, h2, h1na, h1unk, h2na, h2unk, hne, Ne.symm hne, htx, hcl,
        Matrix.Obs, alookup_aset_self, isNoObservation, alookup, aset,
        sortStrs, insortStr]

/-- C4 counterexample: the same two concrete states added to a pair that
already carries a third state make `Obs` return three states, not
exactly the two. -/
theorem add_two_states_cex :
    (((Matrix.New.Add "A" "s1" "c1" "fused").Add "A" "s1" "c1" "absent").Add
        "A" "s1" "c1" "present").Obs "s1" "c1" = ["absent", "fused", "present"] ∧
    (["absent", "fused", "present"] : List String) ≠ ["absent", "present"] := by
  refine ⟨by decide, by decide⟩

/-- Witness for C4 (amended). -/
theorem add_two_states_witness :
    ((Matrix.New.Add "A" "s1" "c1" "present").Add "A" "s1" "c1" "absent").Obs "s1" "c1"
      = if strLe (nkey "present") (nkey "absent") then [nkey "present", nkey "absent"]
        else [nkey "absent", nkey "present"] :=
  add_two_states_obs Matrix.New "A" "s1" "c1" "present" "absent" (by decide) (by decide)
    (by decide) (by decide) (by decide) (by decide) (by decide) (by decide) (by decide)
    (by decide) (by decide) (by decide)

/-! ## Claim C9: a mismatching taxon never touches the specimen -/

/-- `Obs` reads only the specimen table. -/
theorem obs_congr (m m' : Matrix) (h : m'.specs = m.specs) (spec char : String) :
    m'.Obs spec char = m.Obs spec char := by
  simp [Matrix.Obs, h]

/-- The specimen table is untouched by an `Add` under a taxon other than
the one the specimen was created with. -/
theorem add_specs_of_taxon_mismatch (m : Matrix) (t2 spec char state : String) (sp : Specimen)
    (hsp : alookup (nkey spec) m.specs = some sp)
    (hne : canon t2 ≠ sp.taxon) :
    (m.Add t2 spec char state).specs = m.specs := by
  simp only [nkey] at hsp
  simp only [Matrix.Add]
  by_cases h1 : canon t2 = ""
  · simp [h1]
  by_cases h2 : collapse spec = ""
  · simp [h1, h2]
  by_cases h3 : collapse char = ""
  · simp [h1, h2, h3]
  by_cases h4 : collapse state = ""
  · simp [h1, h2, h3, h4]
  simp [h1, h2, h3, h4, hsp, Ne.symm hne]

/-- C9 (confirmed): once a specimen id is created under taxon `t1`, a
later `Add` for the same specimen id under a different taxon is silently
ignored: the specimen record (hence its taxon association) is unchanged,
and `Obs(spec, char)` is unchanged for every character. -/
theorem add_other_taxon_ignored (m : Matrix) (t2 spec char state : String) (sp : Specimen)
    (hsp : alookup (nkey spec) m.specs = some sp)
    (hne : canon t2 ≠ sp.taxon) :
    alookup (nkey spec) (m.Add t2 spec char state).specs = some sp ∧
    ∀ ch, (m.Add t2 spec char state).Obs spec ch = m.Obs spec ch := by
  have h := add_specs_of_taxon_mismatch m t2 spec char state sp hsp hne
  exact ⟨h ▸ hsp, fun ch => obs_congr m _ h spec ch⟩

/-- Witness for C9. -/
theorem add_other_taxon_ignored_witness :
    alookup (nkey "s1") ((Matrix.New.Add "A" "s1" "c1" "present").Add "B" "s1" "c2" "free").specs
      = some { taxon := "A", name := "s1",
               obs := [("c1", [("present", { name := "present" })])] } ∧
    ∀ ch, ((Matrix.New.Add "A" "s1" "c1" "present").Add "B" "s1" "c2" "free").Obs "s1" ch
      = (Matrix.New.Add "A" "s1" "c1" "present").Obs "s1" ch :=
  add_other_taxon_ignored (Matrix.New.Add "A" "s1" "c1" "present") "B" "s1" "c2" "free"
    { taxon := "A", name := "s1", obs := [("c1", [("present", { name := "present" })])] }
    (by decide) (by decide)

/-! ## Reachability invariant on stored observation sets (claims C10, C5) -/

theorem alookup_eq_none_iff (k : String) (l : List (String × α)) :
    alookup k l = none ↔ k ∉ l.map Prod.fst := by
  induction l with
  | nil => simp [alookup]
  | cons p rest ih =>
    obtain ⟨k₀, v₀⟩ := p
    by_cases h : k₀ = k
    · subst h; simp [alookup]
    · simp [alookup, h, ih, Ne.symm h]

theorem mem_aset {p : String × α} (k : String) (v : α) (l : List (String × α)) :
    p ∈ aset k v l → p = (k, v) ∨ p ∈ l := by
  induction l with
  | nil => simp [aset]
  | cons q rest ih =>
    obtain ⟨k₀, v₀⟩ := q
    by_cases h : k₀ = k
    · subst h; simp [aset]; tauto
    · simp only [aset, if_neg h, List.mem_cons]
      rintro (rfl | hp)
      · tauto
      · rcases ih hp with h' | h' <;> tauto

theorem aset_ne_nil (k : String) (v : α) (l : List (String × α)) : aset k v l ≠ [] := by
  cases l with
  | nil => simp [aset]
  | cons q rest =>
    obtain ⟨k₀, v₀⟩ := q
    by_cases h : k₀ = k <;> simp [aset, h]

theorem alookup_aremove (k c : String) (l : List (String × α)) :
    alookup c (aremove k l) = if c = k then none else alookup c l := by
  by_cases hc : c = k
  · subst hc; simp [alookup_aremove_self]
  · simp only [if_neg hc]
    induction l with
    | nil => rfl
    | cons p rest ih =>
      obtain ⟨k₀, v₀⟩ := p
      by_cases h : k₀ = k
      · subst h
        simp [aremove, alookup, Ne.symm hc, ih]
      · simp [aremove, alookup, h, ih]

/-- The invariant a single stored observation map satisfies: non-empty,
no `<unknown>` entry, every value's name is its key, and a `<na>` entry
makes it exactly the `<na>` singleton. -/
def ObsMapOK (obs : List (String × Observation)) : Prop :=
  obs ≠ [] ∧ (∀ p ∈ obs, p.1 ≠ Unknown ∧ p.2.name = p.1) ∧
  (NotApplicable ∈ obs.map Prod.fst → ∃ o, obs = [(NotApplicable, o)])

/-- The invariant over a specimen table: every stored observation map of
every specimen satisfies `ObsMapOK`. -/
def SpecsOK (specs : List (String × Specimen)) : Prop :=
  ∀ k sp, alookup k specs = some sp → ∀ c obs, alookup c sp.obs = some obs → ObsMapOK obs

/-- The invariant of claim C10 over the whole matrix. -/
def ObsSetsOK (m : Matrix) : Prop := SpecsOK m.specs

/-- The matrices reachable from `New` by `Add` and `Set` calls — the
values the Go API can actually construct. -/
inductive Reachable : Matrix → Prop
  | new : Reachable Matrix.New
  | add (m : Matrix) (taxon spec char state : String) :
      Reachable m → Reachable (m.Add taxon spec char state)
  | set (m : Matrix) (spec char state val field : String) :
      Reachable m → Reachable (m.Set spec char state val field)

theorem obsMapOK_na : ObsMapOK [(NotApplicable, { name := NotApplicable })] := by
  refine ⟨by simp, ?_, ?_⟩
  · rintro p hp
    simp at hp
    subst hp
    exact ⟨by decide, rfl⟩
  · intro _
    exact ⟨_, rfl⟩

theorem obsMapOK_concrete (state : String) (obs₀ : List (String × Observation))
    (h1 : state ≠ Unknown) (h2 : state ≠ NotApplicable)
    (h3 : alookup NotApplicable obs₀ = none)
    (h4 : ∀ p ∈ obs₀, p.1 ≠ Unknown ∧ p.2.name = p.1) :
    ObsMapOK (aset state { name := state } obs₀) := by
  refine ⟨aset_ne_nil _ _ _, ?_, ?_⟩
  · intro p hp
    rcases mem_aset _ _ _ hp with rfl | hp'
    · exact ⟨h1, rfl⟩
    · exact h4 p hp'
  · intro hna
    rcases List.mem_map.1 hna with ⟨p, hp, hfst⟩
    rcases mem_aset _ _ _ hp with rfl | hp'
    · exact absurd hfst h2
    · exfalso
      have := (alookup_eq_none_iff _ _).1 h3
      exact this (hfst ▸ List.mem_map_of_mem Prod.fst hp')

theorem alookup_mem {k : String} {v : α} {l : List (String × α)}
    (h : alookup k l = some v) : (k, v) ∈ l := by
  induction l with
  | nil => simp [alookup] at h
  | cons p rest ih =>
    obtain ⟨k₀, v₀⟩ := p
    by_cases hk : k₀ = k
    · subst hk
      simp [alookup] at h
      subst h
      exact List.mem_cons_self _ _
    · simp only [alookup, if_neg hk] at h
      exact List.mem_cons_of_mem _ (ih h)

theorem setField_name (o : Observation) (field val : String) :
    (o.setField field val).name = o.name := by
  simp only [Observation.setField]
  split_ifs <;> rfl

/-- A specimen-table update whose new specimen has only good observation
maps preserves the table invariant. -/
theorem specsOK_aset {specs : List (String × Specimen)} (hm : SpecsOK specs)
    (key : String) (sp' : Specimen)
    (hsp' : ∀ c obs, alookup c sp'.obs = some obs → ObsMapOK obs) :
    SpecsOK (aset key sp' specs) := by
  intro k sp hk c obs hc
  by_cases hkk : k = key
  · subst hkk
    rw [alookup_aset_self] at hk
    cases hk
    exact hsp' c obs hc
  · rw [alookup_aset_ne _ _ _ _ hkk] at hk
    exact hm k sp hk c obs hc

/-- `ObsSetsOK` reads only the specimen table. -/
theorem obsSetsOK_of_specs_eq {m' : Matrix} {X : List (String × Specimen)}
    (h : m'.specs = X) (hX : SpecsOK X) : ObsSetsOK m' := by
  rw [ObsSetsOK, h]
  exact hX

theorem obsSetsOK_add (m : Matrix) (taxon spec char state : String) (hm : ObsSetsOK m) :
    ObsSetsOK (m.Add taxon spec char state) := by
  have hmS : SpecsOK m.specs := hm
  by_cases h1 : canon taxon = ""
  · exact obsSetsOK_of_specs_eq (by simp [Matrix.Add, h1]) hmS
  by_cases h2 : collapse spec = ""
  · exact obsSetsOK_of_specs_eq (by simp [Matrix.Add, h1, h2]) hmS
  by_cases h3 : collapse char = ""
  · exact obsSetsOK_of_specs_eq (by simp [Matrix.Add, h1, h2, h3]) hmS
  by_cases h4 : collapse state = ""
  · exact obsSetsOK_of_specs_eq (by simp [Matrix.Add, h1, h2, h3, h4]) hmS
  cases hlk : alookup (goToLower (collapse spec)) m.specs with
  | none =>
    by_cases hu : goToLower (collapse state) = Unknown
    · refine obsSetsOK_of_specs_eq (X := aset (goToLower (collapse spec))
          { taxon := canon taxon, name := goToLower (collapse spec), obs := [] } m.specs)
        (by simp [Matrix.Add, h1, h2, h3, h4, hlk, (show goToLower (collapse state) = "<unknown>" from hu), hu, aremove, NotApplicable, Unknown]) ?_
      refine specsOK_aset hmS _ _ ?_
      intro c obs hc
      simp [alookup] at hc
    · by_cases hna : goToLower (collapse state) = NotApplicable
      · refine obsSetsOK_of_specs_eq (X := aset (goToLower (collapse spec))
            { taxon := canon taxon, name := goToLower (collapse spec), obs := [(goToLower (collapse char), [(NotApplicable, { name := NotApplicable })])] } m.specs)
          (by simp [Matrix.Add, h1, h2, h3, h4, hlk, (show ¬ goToLower (collapse state) = "<unknown>" from hu), hu, (show goToLower (collapse state) = "<na>" from hna), hna, aset, alookup, isNoObservation, NotApplicable, Unknown]) ?_
        refine specsOK_aset hmS _ _ ?_
        intro c obs hc
        by_cases hcc : goToLower (collapse char) = c
        · simp only [alookup, if_pos hcc, Option.some.injEq] at hc
          subst hc
          exact obsMapOK_na
        · simp [alookup, hcc] at hc
      · refine obsSetsOK_of_specs_eq (X := aset (goToLower (collapse spec))
            { taxon := canon taxon, name := goToLower (collapse spec), obs := [(goToLower (collapse char), [(goToLower (collapse state), { name := goToLower (collapse state) })])] } m.specs)
          (by simp [Matrix.Add, h1, h2, h3, h4, hlk, (show ¬ goToLower (collapse state) = "<unknown>" from hu), hu, (show ¬ goToLower (collapse state) = "<na>" from hna), hna, aset, alookup, isNoObservation, NotApplicable, Unknown]) ?_
        refine specsOK_aset hmS _ _ ?_
        intro c obs hc
        by_cases hcc : goToLower (collapse char) = c
        · simp only [alookup, if_pos hcc, Option.some.injEq] at hc
          subst hc
          exact obsMapOK_concrete _ [] hu hna (by simp [alookup]) (by simp)
        · simp [alookup, hcc] at hc
  | some sp =>
    have hOld : ∀ c obs, alookup c sp.obs = some obs → ObsMapOK obs :=
      fun c obs hc => hmS _ sp hlk c obs hc
    by_cases hmis : sp.taxon = canon taxon
    case neg =>
      exact obsSetsOK_of_specs_eq (by simp [Matrix.Add, h1, h2, h3, h4, hlk, hmis]) hmS
    by_cases hu : goToLower (collapse state) = Unknown
    · refine obsSetsOK_of_specs_eq (X := aset (goToLower (collapse spec))
          { sp with obs := aremove (goToLower (collapse char)) sp.obs } m.specs)
        (by simp [Matrix.Add, h1, h2, h3, h4, hlk, hmis, (show goToLower (collapse state) = "<unknown>" from hu), hu, NotApplicable, Unknown]) ?_
      refine specsOK_aset hmS _ _ ?_
      intro c obs hc
      simp only [alookup_aremove] at hc
      by_cases hcc : c = goToLower (collapse char)
      · simp [hcc] at hc
      · rw [if_neg hcc] at hc
        exact hOld c obs hc
    · by_cases hna : goToLower (collapse state) = NotApplicable
      · refine obsSetsOK_of_specs_eq (X := aset (goToLower (collapse spec))
            { sp with obs := aset (goToLower (collapse char)) [(NotApplicable, { name := NotApplicable })] sp.obs } m.specs)
          (by simp [Matrix.Add, h1, h2, h3, h4, hlk, hmis, (show ¬ goToLower (collapse state) = "<unknown>" from hu), hu, (show goToLower (collapse state) = "<na>" from hna), hna, aset, NotApplicable, Unknown]) ?_
        refine specsOK_aset hmS _ _ ?_
        intro c obs hc
        by_cases hcc : goToLower (collapse char) = c
        · rw [← hcc, alookup_aset_self] at hc
          cases hc
          exact obsMapOK_na
        · rw [alookup_aset_ne _ _ _ _ (fun hh => hcc hh.symm)] at hc
          exact hOld c obs hc
      · cases hob : alookup (goToLower (collapse char)) sp.obs with
        | none =>
          refine obsSetsOK_of_specs_eq (X := aset (goToLower (collapse spec))
              { sp with obs := aset (goToLower (collapse char)) [(goToLower (collapse state), { name := goToLower (collapse state) })] sp.obs } m.specs)
            (by simp [Matrix.Add, h1, h2, h3, h4, hlk, hmis, (show ¬ goToLower (collapse state) = "<unknown>" from hu), hu, (show ¬ goToLower (collapse state) = "<na>" from hna), hna, hob, aset, alookup,
              isNoObservation, NotApplicable, Unknown]) ?_
          refine specsOK_aset hmS _ _ ?_
          intro c obs hc
          by_cases hcc : goToLower (collapse char) = c
          · rw [← hcc, alookup_aset_self] at hc
            cases hc
            exact obsMapOK_concrete _ [] hu hna (by simp [alookup]) (by simp)
          · rw [alookup_aset_ne _ _ _ _ (fun hh => hcc hh.symm)] at hc
            exact hOld c obs hc
        | some obs₀ =>
          by_cases hno : isNoObservation obs₀ = true
          · refine obsSetsOK_of_specs_eq (X := aset (goToLower (collapse spec))
                { sp with obs := aset (goToLower (collapse char)) [(goToLower (collapse state), { name := goToLower (collapse state) })] sp.obs } m.specs)
              (by simp [Matrix.Add, h1, h2, h3, h4, hlk, hmis, (show ¬ goToLower (collapse state) = "<unknown>" from hu), hu, (show ¬ goToLower (collapse state) = "<na>" from hna), hna, hob, hno, aset, NotApplicable, Unknown]) ?_
            refine specsOK_aset hmS _ _ ?_
            intro c obs hc
            by_cases hcc : goToLower (collapse char) = c
            · rw [← hcc, alookup_aset_self] at hc
              cases hc
              exact obsMapOK_concrete _ [] hu hna (by simp [alookup]) (by simp)
            · rw [alookup_aset_ne _ _ _ _ (fun hh => hcc hh.symm)] at hc
              exact hOld c obs hc
          · refine obsSetsOK_of_specs_eq (X := aset (goToLower (collapse spec))
                { sp with obs := aset (goToLower (collapse char)) (aset (goToLower (collapse state)) { name := goToLower (collapse state) } obs₀) sp.obs } m.specs)
              (by simp [Matrix.Add, h1, h2, h3, h4, hlk, hmis, (show ¬ goToLower (collapse state) = "<unknown>" from hu), hu, (show ¬ goToLower (collapse state) = "<na>" from hna), hna, hob, hno, NotApplicable, Unknown]) ?_
            refine specsOK_aset hmS _ _ ?_
            intro c obs hc
            by_cases hcc : goToLower (collapse char) = c
            · rw [← hcc, alookup_aset_self] at hc
              cases hc
              simp only [isNoObservation, Bool.or_eq_true, not_or,
                Option.isSome_iff_exists, not_exists] at hno
              have hnaNone : alookup NotApplicable obs₀ = none := by
                cases h : alookup NotApplicable obs₀ with
                | none => rfl
                | some o => exact absurd h (hno.1 o)
              exact obsMapOK_concrete _ obs₀ hu hna hnaNone
                (fun p hp => (hOld _ obs₀ hob).2.1 p hp)
            · rw [alookup_aset_ne _ _ _ _ (fun hh => hcc hh.symm)] at hc
              exact hOld c obs hc

/-- Replacing the value of an existing key with one of the same `name`
preserves the observation-map invariant. -/
theorem obsMapOK_replace (obsMap : List (String × Observation)) (st : String)
    (o oNew : Observation) (host : alookup st obsMap = some o)
    (hname : oNew.name = o.name) (hOM : ObsMapOK obsMap) :
    ObsMapOK (aset st oNew obsMap) := by
  obtain ⟨hne0, hmem, hna⟩ := hOM
  have hmemS : (st, o) ∈ obsMap := alookup_mem host
  refine ⟨aset_ne_nil _ _ _, ?_, ?_⟩
  · intro p hp
    rcases mem_aset _ _ _ hp with rfl | hp'
    · refine ⟨(hmem _ hmemS).1, ?_⟩
      rw [hname]
      exact (hmem _ hmemS).2
    · exact hmem p hp'
  · intro hinna
    rcases List.mem_map.1 hinna with ⟨p, hp, hfst⟩
    have hkeyna : NotApplicable ∈ obsMap.map Prod.fst := by
      rcases mem_aset _ _ _ hp with rfl | hp'
      · have hfst' : st = NotApplicable := hfst
        rw [← hfst']
        exact List.mem_map_of_mem Prod.fst hmemS
      · rw [← hfst]
        exact List.mem_map_of_mem Prod.fst hp'
    rcases hna hkeyna with ⟨o₀, ho₀⟩
    have hst : st = NotApplicable := by
      rw [ho₀] at host
      by_cases h : NotApplicable = st
      · exact h.symm
      · simp [alookup, h] at host
    refine ⟨oNew, ?_⟩
    rw [ho₀, hst]
    simp [aset]

theorem obsSetsOK_set (m : Matrix) (spec char state val field : String) (hm : ObsSetsOK m) :
    ObsSetsOK (m.Set spec char state val field) := by
  have hmS : SpecsOK m.specs := hm
  by_cases h1 : collapse spec = ""
  · exact obsSetsOK_of_specs_eq (by simp [Matrix.Set, h1]) hmS
  cases hlk : alookup (goToLower (collapse spec)) m.specs with
  | none => exact obsSetsOK_of_specs_eq (by simp [Matrix.Set, h1, hlk]) hmS
  | some sp =>
    by_cases h2 : collapse char = ""
    · exact obsSetsOK_of_specs_eq (by simp [Matrix.Set, h1, h2, hlk]) hmS
    cases hob : alookup (goToLower (collapse char)) sp.obs with
    | none => exact obsSetsOK_of_specs_eq (by simp [Matrix.Set, h1, h2, hlk, hob]) hmS
    | some obsMap =>
      by_cases h3 : collapse state = ""
      · exact obsSetsOK_of_specs_eq (by simp [Matrix.Set, h1, h2, h3, hlk, hob]) hmS
      cases host : alookup (goToLower (collapse state)) obsMap with
      | none =>
        exact obsSetsOK_of_specs_eq (by simp [Matrix.Set, h1, h2, h3, hlk, hob, host]) hmS
      | some o =>
        have hOld : ∀ c obs, alookup c sp.obs = some obs → ObsMapOK obs :=
          fun c obs hc => hmS _ sp hlk c obs hc
        refine obsSetsOK_of_specs_eq (X := aset (goToLower (collapse spec)) { sp with obs := aset (goToLower (collapse char)) (aset (goToLower (collapse state)) (o.setField field (collapse val)) obsMap) sp.obs } m.specs)
          (by simp [Matrix.Set, h1, h2, h3, hlk, hob, host]) ?_
        refine specsOK_aset hmS _ _ ?_
        intro c obs hc
        by_cases hcc : goToLower (collapse char) = c
        · rw [← hcc, alookup_aset_self] at hc
          cases hc
          exact obsMapOK_replace obsMap _ o _ host (setField_name o field (collapse val))
            (hOld _ obsMap hob)
        · rw [alookup_aset_ne _ _ _ _ (fun hh => hcc hh.symm)] at hc
          exact hOld c obs hc

theorem obsSetsOK_new : ObsSetsOK Matrix.New := by
  intro k sp hk
  simp [Matrix.New, alookup] at hk

theorem reachable_obsSetsOK {m : Matrix} (h : Reachable m) : ObsSetsOK m := by
  induction h with
  | new => exact obsSetsOK_new
  | add m taxon spec char state _ ih => exact obsSetsOK_add m taxon spec char state ih
  | set m spec char state val field _ ih => exact obsSetsOK_set m spec char state val field ih

theorem sortStrs_ne_nil {l : List String} (h : l ≠ []) : sortStrs l ≠ [] := by
  cases l with
  | nil => exact absurd rfl h
  | cons x xs =>
    intro hnil
    have hx : x ∈ sortStrs (x :: xs) := (mem_sortStrs _ _).2 (List.mem_cons_self _ _)
    rw [hnil] at hx
    simp at hx

/-! ## Claim C10: the stored-observation invariant -/

/-- C10 (confirmed): on every matrix reachable from `New` by `Add` and
`Set`, every stored observation set is non-empty, never contains
`<unknown>`, and contains `<na>` only as the exact singleton; hence `Obs`
never returns `<na>` together with a concrete state. -/
theorem reachable_invariant (m : Matrix) (h : Reachable m) :
    ObsSetsOK m ∧
    ∀ spec char, NotApplicable ∈ m.Obs spec char → m.Obs spec char = [NotApplicable] := by
  have hOK := reachable_obsSetsOK h
  refine ⟨hOK, ?_⟩
  intro spec char hna
  simp only [Matrix.Obs] at hna ⊢
  by_cases h1 : collapse spec = ""
  · simp [h1] at hna
  rw [if_neg h1] at hna ⊢
  cases hlk : alookup (goToLower (collapse spec)) m.specs with
  | none =>
    simp only [hlk] at hna
    simp [NotApplicable, Unknown] at hna
  | some sp =>
    simp only [hlk] at hna ⊢
    by_cases h2 : collapse char = ""
    · simp only [h2, ite_true, reduceIte] at hna
      simp [NotApplicable, Unknown] at hna
    rw [if_neg h2] at hna ⊢
    cases hob : alookup (goToLower (collapse char)) sp.obs with
    | none =>
      simp only [hob] at hna
      simp [NotApplicable, Unknown] at hna
    | some obs =>
      simp only [hob] at hna ⊢
      have hOM := hOK _ sp hlk _ obs hob
      rw [mem_sortStrs] at hna
      rcases List.mem_map.1 hna with ⟨p, hp, hpname⟩
      have hkey : p.1 = NotApplicable := by
        rw [← (hOM.2.1 p hp).2, hpname]
      have hkeys : NotApplicable ∈ obs.map Prod.fst := by
        rw [← hkey]
        exact List.mem_map_of_mem Prod.fst hp
      rcases hOM.2.2 hkeys with ⟨o, rfl⟩
      have hname : o.name = NotApplicable := by
        simpa using (hOM.2.1 (NotApplicable, o) (by simp)).2
      simp [hname, sortStrs_singleton]

/-- Witness for C10 on a concretely built matrix. -/
theorem reachable_invariant_witness :
    ObsSetsOK ((Matrix.New.Add "A" "s1" "c1" "present").Add "A" "s1" "c2" "<na>") ∧
    ∀ spec char,
      NotApplicable ∈ ((Matrix.New.Add "A" "s1" "c1" "present").Add "A" "s1" "c2" "<na>").Obs spec char →
      ((Matrix.New.Add "A" "s1" "c1" "present").Add "A" "s1" "c2" "<na>").Obs spec char
        = [NotApplicable] :=
  reachable_invariant _ (Reachable.add _ _ _ _ _ (Reachable.add _ _ _ _ _ Reachable.new))

/-! ## Claim C5: `Obs` defaults for missing specimens and characters -/

/-- C5 (amended): for every reachable matrix and every specimen string
whose normalized form is non-empty, `Obs` returns exactly `[<unknown>]`
for an unknown specimen, for an empty character name, or for a character
with no recorded observations — and never the empty list.  (A specimen
string that normalizes to empty makes `Obs` return the empty list, which
is why the non-emptiness hypothesis is needed.) -/
theorem obs_defaults (m : Matrix) (spec char : String) (hreach : Reachable m)
    (hs : collapse spec ≠ "") :
    (alookup (nkey spec) m.specs = none → m.Obs spec char = [Unknown]) ∧
    (∀ sp, alookup (nkey spec) m.specs = some sp →
      collapse char = "" ∨ alookup (nkey char) sp.obs = none → m.Obs spec char = [Unknown]) ∧
    m.Obs spec char ≠ [] := by
  have hOK := reachable_obsSetsOK hreach
  refine ⟨?_, ?_, ?_⟩
  · intro hlk
    simp only [nkey] at hlk
    simp [Matrix.Obs, hs, hlk]
  · intro sp hlk hmiss
    simp only [nkey] at hlk hmiss
    rcases hmiss with h2 | hob
    · simp [Matrix.Obs, hs, hlk, h2]
    · by_cases h2 : collapse char = ""
      · simp [Matrix.Obs, hs, hlk, h2]
      · simp [Matrix.Obs, hs, hlk, h2, hob]
  · simp only [Matrix.Obs, if_neg hs]
    cases hlk : alookup (goToLower (collapse spec)) m.specs with
    | none => simp [Unknown]
    | some sp =>
      by_cases h2 : collapse char = ""
      · simp [h2, Unknown]
      simp only [if_neg h2]
      cases hob : alookup (goToLower (collapse char)) sp.obs with
      | none => simp [Unknown]
      | some obs =>
        have hOM := hOK _ sp hlk _ obs hob
        exact sortStrs_ne_nil (by simpa using hOM.1)

/-- C5 counterexample: an all-whitespace (here empty) specimen string is
not present in any matrix, yet `Obs` returns the empty list, not
`["<unknown>"]`. -/
theorem obs_empty_spec_cex :
    Matrix.New.Obs "" "c1" = [] ∧ ([] : List String) ≠ [Unknown] := by
  refine ⟨by decide, by decide⟩

/-- Witness for C5 (amended). -/
theorem obs_defaults_witness :
    (alookup (nkey "s9") (Matrix.New.Add "A" "s1" "c1" "present").specs = none →
      (Matrix.New.Add "A" "s1" "c1" "present").Obs "s9" "c1" = [Unknown]) ∧
    (∀ sp, alookup (nkey "s9") (Matrix.New.Add "A" "s1" "c1" "present").specs = some sp →
      collapse "c1" = "" ∨ alookup (nkey "c1") sp.obs = none →
      (Matrix.New.Add "A" "s1" "c1" "present").Obs "s9" "c1" = [Unknown]) ∧
    (Matrix.New.Add "A" "s1" "c1" "present").Obs "s9" "c1" ≠ [] :=
  obs_defaults (Matrix.New.Add "A" "s1" "c1" "present") "s9" "c1"
    (Reachable.add _ _ _ _ _ Reachable.new) (by decide)

/-! ## The DNA collection (`matrix/dna/dna.go`) -/

/-- A `genBankSequence` of `dna.go`: normalized bases plus metadata. -/
structure GenBankSequence where
  seq : String
  aligned : Bool := false
  protein : Bool := false
  organelle : String := ""
  ref : String := ""
  comment : String := ""
deriving DecidableEq

/-- A `specimen` of `dna.go`: taxon, name, and a map gene → accession →
sequence. -/
structure DnaSpecimen where
  taxon : String
  name : String
  genes : List (String × List (String × GenBankSequence))
deriving DecidableEq

/-- A `Collection` of `dna.go`. -/
structure Collection where
  specs : List (String × DnaSpecimen)
deriving DecidableEq

/-- `New` of `dna.go`. -/
def Collection.NewC : Collection := { specs := [] }

/-- `Add` of `dna.go`: skip silently on an empty taxon; error when both
the specimen id and the GenBank accession are missing; synthesize the
specimen id `genbank:<accession>` or the accession key `no-gb:<specimen>`
when only one is given; error on a missing gene; then store the
normalized sequence under (specimen, gene, accession). -/
def Collection.Add (c : Collection) (taxon spec gene genBank seq : String) :
    Except String Collection :=
  let taxon := canon taxon
  if taxon = "" then .ok c else
  let genBank := goTrimSpace genBank
  let spec := specID spec
  if spec = "" ∧ genBank = "" then .error "sequence without identifier" else
  let spec := if spec = "" then specID ("genbank:" ++ genBank) else spec
  let genBank := if genBank = "" then "no-gb:" ++ spec else genBank
  let seq := formatSequence seq
  let gene := goTrimSpace gene
  if gene = "" then
    .error ("sequence " ++ genBank ++ " without a defined gene-molecule identifier")
  else
    let gene := goToLower gene
    let sp : DnaSpecimen :=
      match alookup spec c.specs with
      | some sp => sp
      | none => { taxon := taxon, name := spec, genes := [] }
    let gb := (alookup gene sp.genes).getD []
    let gb := aset genBank { seq := seq } gb
    .ok { specs := aset spec { sp with genes := aset gene gb sp.genes } c.specs }

/-- `sequence` of `dna.go` (the internal lookup helper). -/
def Collection.sequence (c : Collection) (specimen gene genBank : String) :
    Option GenBankSequence :=
  let specimen := specID specimen
  if specimen = "" then none else
  match alookup specimen c.specs with
  | none => none
  | some sp =>
    let gene := goTrimSpace (goToLower gene)
    match alookup gene sp.genes with
    | none => none
    | some gb => alookup genBank gb

/-- `Sequence` of `dna.go`. -/
def Collection.Sequence (c : Collection) (specimen gene genBank : String) : String :=
  match c.sequence specimen gene genBank with
  | none => ""
  | some s => s.seq

/-! ## Claim C7: when DNA `Add` errors, and the synthesized ids -/

/-- C7 counterexample: a record with an empty taxon, no specimen id and
no accession is silently skipped with no error — the claim says exactly
this input must be an error. -/
theorem dna_add_cex :
    specID "" = "" ∧ goTrimSpace "" = "" ∧
    Collection.Add { specs := [] } "" "" "cox1" "" "acgt" = .ok { specs := [] } := by
  refine ⟨rfl, rfl, rfl⟩

/-- C7 (amended): for every record whose taxon canonicalizes to a
non-empty name, `Add` errors exactly when both the specimen id and the
accession normalize to empty, or the gene is empty after trimming; on
the other inputs it succeeds, storing the sequence under the specimen id
`genbank:<accession>` when only the accession is given, and under the
accession key `no-gb:<specimen>` when only the specimen is given.
(Records with an empty canonicalized taxon are silently skipped with no
error, so the claim's "exactly when" fails for them.) -/
theorem dna_add_spec (c : Collection) (taxon spec gene genBank seq : String)
    (ht : canon taxon ≠ "") :
    ((∃ e, c.Add taxon spec gene genBank seq = .error e) ↔
      ((specID spec = "" ∧ goTrimSpace genBank = "") ∨ goTrimSpace gene = "")) ∧
    (specID spec = "" → goTrimSpace genBank ≠ "" → goTrimSpace gene ≠ "" →
      ∃ c' sp gb s, c.Add taxon spec gene genBank seq = .ok c' ∧
        alookup (specID ("genbank:" ++ goTrimSpace genBank)) c'.specs = some sp ∧
        alookup (goToLower (goTrimSpace gene)) sp.genes = some gb ∧
        alookup (goTrimSpace genBank) gb = some s ∧ s.seq = formatSequence seq) ∧
    (goTrimSpace genBank = "" → specID spec ≠ "" → goTrimSpace gene ≠ "" →
      ∃ c' sp gb s, c.Add taxon spec gene genBank seq = .ok c' ∧
        alookup (specID spec) c'.specs = some sp ∧
        alookup (goToLower (goTrimSpace gene)) sp.genes = some gb ∧
        alookup ("no-gb:" ++ specID spec) gb = some s ∧ s.seq = formatSequence seq) := by
  by_cases hsp : specID spec = ""
  · by_cases hgb : goTrimSpace genBank = ""
    · refine ⟨by simp [Collection.Add, ht, hsp, hgb], ?_, ?_⟩
      · intro h1 h2 h3
        exact absurd hgb h2
      · intro h1 h2 h3
        exact absurd hsp h2
    · by_cases hg : goTrimSpace gene = ""
      · refine ⟨by simp [Collection.Add, ht, hsp, hgb, hg], ?_, ?_⟩
        · intro h1 h2 h3
          exact absurd hg h3
        · intro h1 h2 h3
          exact absurd h1 hgb
      · refine ⟨by simp [Collection.Add, ht, hsp, hgb, hg], ?_, ?_⟩
        · intro h1 h2 h3
          simp only [Collection.Add, if_neg ht, hsp, hgb, hg, and_true, true_and, and_false,
            false_and, ite_true, ite_false, reduceIte, not_false_eq_true]
          exact ⟨_, _, _, _, rfl, alookup_aset_self _ _ _, alookup_aset_self _ _ _,
            alookup_aset_self _ _ _, rfl⟩
        · intro h1 h2 h3
          exact absurd h1 hgb
  · by_cases hgb : goTrimSpace genBank = ""
    · by_cases hg : goTrimSpace gene = ""
      · refine ⟨by simp [Collection.Add, ht, hsp, hgb, hg], ?_, ?_⟩
        · intro h1 h2 h3
          exact absurd h1 hsp
        · intro h1 h2 h3
          exact absurd hg h3
      · refine ⟨by simp [Collection.Add, ht, hsp, hgb, hg], ?_, ?_⟩
        · intro h1 h2 h3
          exact absurd h1 hsp
        · intro h1 h2 h3
          simp only [Collection.Add, if_neg ht, hsp, hgb, hg, and_true, true_and, and_false,
            false_and, ite_true, ite_false, reduceIte, not_false_eq_true]
          exact ⟨_, _, _, _, rfl, alookup_aset_self _ _ _, alookup_aset_self _ _ _,
            alookup_aset_self _ _ _, rfl⟩
    · by_cases hg : goTrimSpace gene = ""
      · refine ⟨by simp [Collection.Add, ht, hsp, hgb, hg], ?_, ?_⟩
        · intro h1 h2 h3
          exact absurd h1 hsp
        · intro h1 h2 h3
          exact absurd h1 hgb
      · refine ⟨by simp [Collection.Add, ht, hsp, hgb, hg], ?_, ?_⟩
        · intro h1 h2 h3
          exact absurd h1 hsp
        · intro h1 h2 h3
          exact absurd h1 hgb

/-- Witness for C7 (amended), with only an accession (specimen id
synthesized) — and, in the same breath, checking the error equivalence
at that input. -/
theorem dna_add_spec_witness :
    ((∃ e, Collection.Add { specs := [] } "Homo sapiens" "" "cox1" " KX123 " "AC GT"
        = .error e) ↔
      ((specID "" = "" ∧ goTrimSpace " KX123 " = "") ∨ goTrimSpace "cox1" = "")) ∧
    (specID "" = "" → goTrimSpace " KX123 " ≠ "" → goTrimSpace "cox1" ≠ "" →
      ∃ c' sp gb s,
        Collection.Add { specs := [] } "Homo sapiens" "" "cox1" " KX123 " "AC GT" = .ok c' ∧
        alookup (specID ("genbank:" ++ goTrimSpace " KX123 ")) c'.specs = some sp ∧
        alookup (goToLower (goTrimSpace "cox1")) sp.genes = some gb ∧
        alookup (goTrimSpace " KX123 ") gb = some s ∧ s.seq = formatSequence "AC GT") ∧
    (goTrimSpace " KX123 " = "" → specID "" ≠ "" → goTrimSpace "cox1" ≠ "" →
      ∃ c' sp gb s,
        Collection.Add { specs := [] } "Homo sapiens" "" "cox1" " KX123 " "AC GT" = .ok c' ∧
        alookup (specID "") c'.specs = some sp ∧
        alookup (goToLower (goTrimSpace "cox1")) sp.genes = some gb ∧
        alookup ("no-gb:" ++ specID "") gb = some s ∧ s.seq = formatSequence "AC GT") :=
  dna_add_spec { specs := [] } "Homo sapiens" "" "cox1" " KX123 " "AC GT" (by decide)

/-! ## Claim C8: the export engine emits the heaviest sequence
(`cmd/phydata/matrix/matrix.go`) -/

/-- The nucleotide-equivalent weight of one base, scaled by 4:
`countNucleotides` of `cmd/phydata/matrix/matrix.go` sums `float64`
weights 1, 0.5, 0.25, 0; every partial sum is a multiple of 1/4 and is
exactly representable in double precision for any sequence that fits in
memory, so comparisons of the float weights agree with comparisons of
these integer quarter-weights. -/
def nucWeight4 (p : Char) : Nat :=
  if p = 'a' ∨ p = 'c' ∨ p = 'g' ∨ p = 't' ∨ p = 'u' then 4
  else if p = 'm' ∨ p = 'r' ∨ p = 'w' ∨ p = 's' ∨ p = 'y' ∨ p = 'k' then 2
  else if p = 'v' ∨ p = 'h' ∨ p = 'd' ∨ p = 'b' then 1
  else 0

/-- `countNucleotides` of `cmd/phydata/matrix/matrix.go` (scaled by 4,
see `nucWeight4`). -/
def countNucleotides (seq : String) : Nat :=
  seq.data.foldl (fun num p => num + nucWeight4 p) 0

/-- The per-(taxon, gene) selection loop of `printTNTMatrix`: starting
from the empty string, fold over the taxon's sequences in enumeration
order (specimens sorted, then accessions sorted), replacing the current
pick exactly when the candidate's weight is strictly greater. -/
def selectSeq (seqs : List String) : String :=
  seqs.foldl (fun best s => if countNucleotides best < countNucleotides s then s else best) ""

/-- The row emitted for the taxon: skipped when the selected sequence is
empty (`if len(seq) == 0 { continue }` in the source). -/
def emittedSeq (seqs : List String) : Option String :=
  if (selectSeq seqs).length = 0 then none else some (selectSeq seqs)

/-- Modelled from the claim's words, for comparison with the code: the
greatest nucleotide-equivalent weight among the sequences. -/
def maxWeight (seqs : List String) : Nat :=
  (seqs.map countNucleotides).foldr max 0

/-- Modelled from the claim's words, for comparison with the code: the
first-seen sequence attaining the greatest weight. -/
def firstMaxSeq (seqs : List String) : Option String :=
  seqs.find? (fun s => countNucleotides s == maxWeight seqs)

theorem maxWeight_cons (s : String) (rest : List String) :
    maxWeight (s :: rest) = max (countNucleotides s) (maxWeight rest) := rfl

theorem fold_stays (rest : List String) (best : String)
    (h : ∀ x ∈ rest, countNucleotides x ≤ countNucleotides best) :
    rest.foldl (fun best s => if countNucleotides best < countNucleotides s then s else best) best
      = best := by
  induction rest with
  | nil => rfl
  | cons x xs ih =>
    have hx : ¬ countNucleotides best < countNucleotides x :=
      not_lt.2 (h x (List.mem_cons_self _ _))
    simp only [List.foldl_cons, if_neg hx]
    exact ih (fun y hy => h y (List.mem_cons_of_mem _ hy))

theorem le_maxWeight {x : String} {rest : List String} (hx : x ∈ rest) :
    countNucleotides x ≤ maxWeight rest := by
  induction rest with
  | nil => simp at hx
  | cons y ys ih =>
    rw [maxWeight_cons]
    rcases List.mem_cons.1 hx with rfl | h
    · exact le_max_left _ _
    · exact le_trans (ih h) (le_max_right _ _)

theorem fold_firstmax (seqs : List String) : ∀ (best : String) (M : Nat),
    M = maxWeight seqs → countNucleotides best < M →
    seqs.find? (fun s => countNucleotides s == M) = some
      (seqs.foldl (fun best s => if countNucleotides best < countNucleotides s then s else best)
        best) := by
  induction seqs with
  | nil =>
    intro best M hM hlt
    simp [maxWeight] at hM
    omega
  | cons s rest ih =>
    intro best M hM hlt
    rw [maxWeight_cons] at hM
    have hsM : countNucleotides s ≤ M := by
      rw [hM]; exact le_max_left _ _
    have hrM : maxWeight rest ≤ M := by
      rw [hM]; exact le_max_right _ _
    have hMor : M = countNucleotides s ∨ M = maxWeight rest := by
      rcases max_choice (countNucleotides s) (maxWeight rest) with h | h
      · exact Or.inl (hM.trans h)
      · exact Or.inr (hM.trans h)
    by_cases hbs : countNucleotides best < countNucleotides s
    · simp only [List.foldl_cons, if_pos hbs]
      by_cases hsEq : countNucleotides s = M
      · have hfind : List.find? (fun s => countNucleotides s == M) (s :: rest)
            = some s := by
          simp [List.find?, beq_iff_eq, hsEq]
        rw [hfind]
        have : rest.foldl
            (fun best s => if countNucleotides best < countNucleotides s then s else best) s
            = s := by
          refine fold_stays rest s ?_
          intro x hx
          calc countNucleotides x ≤ maxWeight rest := le_maxWeight hx
            _ ≤ M := hrM
            _ = countNucleotides s := hsEq.symm
        rw [this]
      · have hMrest : M = maxWeight rest := by
          rcases hMor with h | h
          · exact absurd h.symm hsEq
          · exact h
        have hsLt : countNucleotides s < M := lt_of_le_of_ne hsM hsEq
        have hb : (countNucleotides s == M) = false := beq_eq_false_iff_ne.2 hsEq
        have hfind : List.find? (fun s => countNucleotides s == M) (s :: rest)
            = List.find? (fun s => countNucleotides s == M) rest := by
          simp [List.find?, hb]
        rw [hfind]
        exact ih s M hMrest hsLt
    · simp only [List.foldl_cons, if_neg hbs]
      have hsLe : countNucleotides s ≤ countNucleotides best := not_lt.1 hbs
      have hsEq : countNucleotides s ≠ M := by
        intro h
        rw [h] at hsLe
        omega
      have hMrest : M = maxWeight rest := by
        rcases hMor with h | h
        · exact absurd h.symm hsEq
        · exact h
      have hb : (countNucleotides s == M) = false := beq_eq_false_iff_ne.2 hsEq
      have hfind : List.find? (fun s => countNucleotides s == M) (s :: rest)
          = List.find? (fun s => countNucleotides s == M) rest := by
        simp [List.find?, hb]
      rw [hfind]
      exact ih best M hMrest hlt

/-- C8 counterexample: for a taxon whose only sequence is `"n"` (weight
0), the claim says the engine emits that sequence (it is the greatest,
first-seen); the code never replaces the empty initial pick on a
non-strict improvement and then skips the empty selection, emitting
nothing. -/
theorem dna_select_cex :
    emittedSeq ["n"] = none ∧ firstMaxSeq ["n"] = some "n" ∧
    (none : Option String) ≠ some "n" := by
  refine ⟨rfl, rfl, by simp⟩

/-- C8 (amended): per taxon and gene the engine emits the first-seen
sequence of greatest nucleotide-equivalent weight (bases weigh 1,
two-fold ambiguity codes 0.5, three-fold 0.25, the rest 0), provided
that greatest weight is positive; when every sequence of the taxon has
weight zero, the taxon is skipped and nothing is emitted. -/
theorem dna_select_spec (seqs : List String) :
    (0 < maxWeight seqs → emittedSeq seqs = firstMaxSeq seqs) ∧
    (maxWeight seqs = 0 → emittedSeq seqs = none) := by
  constructor
  · intro hpos
    have hzero : countNucleotides "" = 0 := rfl
    have hsel : seqs.find? (fun s => countNucleotides s == maxWeight seqs)
        = some (selectSeq seqs) :=
      fold_firstmax seqs "" (maxWeight seqs) rfl (by rw [hzero]; exact hpos)
    have hp := @List.find?_some String (fun s => countNucleotides s == maxWeight seqs)
      (selectSeq seqs) seqs hsel
    have hw : countNucleotides (selectSeq seqs) = maxWeight seqs := by simpa using hp
    have hne : ¬ (selectSeq seqs).length = 0 := by
      intro hlen
      have hempty : selectSeq seqs = "" := by
        cases hsl : selectSeq seqs with
        | mk d =>
          rw [hsl] at hlen
          simp [String.length] at hlen
          simp [hlen]
      rw [hempty, hzero] at hw
      omega
    simp only [emittedSeq, if_neg hne, firstMaxSeq, hsel]
  · intro hzero
    have hstay : selectSeq seqs = "" := by
      refine fold_stays seqs "" ?_
      intro x hx
      have hle := le_maxWeight hx
      rw [hzero] at hle
      simpa [countNucleotides] using hle
    simp [emittedSeq, hstay]

/-- Witness for C8 (amended): the heavier of two sequences is emitted. -/
theorem dna_select_witness :
    0 < maxWeight ["ac", "acgtt"] ∧
    emittedSeq ["ac", "acgtt"] = firstMaxSeq ["ac", "acgtt"] :=
  ⟨by decide, (dna_select_spec ["ac", "acgtt"]).1 (by decide)⟩

/-! ## The NEXUS tokenizer (`matrix/nexus.go`) -/

/-- `skipComment` of `nexus.go`: consume up to and including the closing
`]`; `none` on end of input (a read error in the source). -/
def skipComment : List Char → Option (List Char)
  | [] => none
  | c :: rest => if c = ']' then some rest else skipComment rest

/-- `skipSpaces` of `nexus.go`: skip whitespace and `[...]` comments,
leaving the next character in the input (the source unreads it); `none`
on end of input.  `fuel` bounds the loop; every source run is reproduced
by any `fuel` larger than the input length, since each iteration
consumes at least one character. -/
def skipSpaces : Nat → List Char → Option (List Char)
  | 0, _ => none
  | _ + 1, [] => none
  | fuel + 1, c :: rest =>
    if c = '[' then
      match skipComment rest with
      | none => none
      | some rest' => skipSpaces fuel rest'
    else if goIsSpace c then skipSpaces fuel rest
    else some (c :: rest)

/-- The quoted-run loop of `readToken` in `nexus.go`, after an opening
quote `stop`.  A doubled `stop` inside is an escape: the source's
`if stop == '\''` `continue` skips the write for single quotes (the pair
yields nothing) and falls through to the write for double quotes (the
pair yields one literal `"`).  The token ends at a `stop` followed by
anything else; that following character stays in the input (the source
unreads it).  The token accumulated so far is returned even when the
input ends early (`none` remainder), since the source's callers can
observe the partially filled token buffer on error. -/
def readQuoted (stop : Char) : List Char → List Char × Option (List Char)
  | [] => ([], none)
  | r1 :: rest =>
    if r1 = stop then
      match rest with
      | [] => ([], none)
      | nx :: rest2 =>
        if nx = stop then
          if stop = '\'' then readQuoted stop rest2
          else
            match readQuoted stop rest2 with
            | (tok, rem) => (r1 :: tok, rem)
        else ([], some (nx :: rest2))
    else
      match readQuoted stop rest with
      | (tok, rem) => (r1 :: tok, rem)

/-- The unquoted-run loop of `readToken` in `nexus.go`: consume up to
whitespace (delimiter `' '`) or one of `;`, `,`, `/`, `=` (the delimiter
itself).  On end of input the partial token is returned with a `none`
remainder (the source's zero delimiter is modelled as `'\x00'`). -/
def readUnquoted : List Char → List Char × Char × Option (List Char)
  | [] => ([], '\x00', none)
  | r1 :: rest =>
    if goIsSpace r1 then ([], ' ', some rest)
    else if r1 = ';' ∨ r1 = ',' ∨ r1 = '/' ∨ r1 = '=' then ([], r1, some rest)
    else
      match readUnquoted rest with
      | (tok, d, rem) => (r1 :: tok, d, rem)

/-- The delimiter lookahead at the end of `readToken`: after a token
ended at whitespace, skip spaces and comments and take a following `;`,
`,`, `/` or `=` as the delimiter, unreading anything else; end of input
is an error (the source returns the zero delimiter and the error, with
the token buffer full). -/
def finishDelim (fuel : Nat) (tok : List Char) (delim : Char) (rem : List Char) :
    String × Char × Option (List Char) :=
  if goIsSpace delim then
    match skipSpaces fuel rem with
    | none => (String.mk tok, '\x00', none)
    | some [] => (String.mk tok, '\x00', none)
    | some (r1 :: rest) =>
      if r1 = ';' ∨ r1 = ',' ∨ r1 = '/' ∨ r1 = '=' then (String.mk tok, r1, some rest)
      else (String.mk tok, delim, some (r1 :: rest))
  else (String.mk tok, delim, some rem)

/-- `readToken` of `nexus.go`: skip spaces and comments, then read a
quoted or unquoted run, then the delimiter lookahead.  The first
component is the token buffer (observable by `skipBlock` even on a read
error), the second the delimiter (`'\x00'` for the source's zero value
on error), the third the remaining input, or `none` on a read error. -/
def readToken (fuel : Nat) (input : List Char) : String × Char × Option (List Char) :=
  match skipSpaces fuel input with
  | none => ("", '\x00', none)
  | some [] => ("", '\x00', none)
  | some (r1 :: rest) =>
    if r1 = '\'' ∨ r1 = '"' then
      match readQuoted r1 rest with
      | (tok, none) => (String.mk tok, '\x00', none)
      | (tok, some rem) => finishDelim fuel tok ' ' rem
    else
      match readUnquoted (r1 :: rest) with
      | (tok, _, none) => (String.mk tok, '\x00', none)
      | (tok, d, some rem) => finishDelim fuel tok d rem

/-! ## Claim C6: doubled quotes inside quoted tokens -/

/-- C6 counterexample: the single-quoted input `'it''s'` tokenizes to
`its` — the doubled `''` is consumed without emitting a literal `'`. -/
theorem readToken_doubled_cex :
    readToken 100 "'it''s' ;".data = ("its", ';', some []) ∧ ("its" : String) ≠ "it's" := by
  refine ⟨rfl, by decide⟩

theorem readQuoted_squote_escape (ys : List Char) :
    ∀ xs, '\'' ∉ xs → readQuoted '\'' (xs ++ '\'' :: '\'' :: ys)
      = ((xs ++ (readQuoted '\'' ys).1, (readQuoted '\'' ys).2)) := by
  intro xs
  induction xs with
  | nil =>
    intro _
    simp only [List.nil_append, readQuoted, if_pos rfl, ite_true, reduceIte]
  | cons c xs ih =>
    intro hq
    have hc : c ≠ '\'' := fun hh => hq (hh ▸ List.mem_cons_self _ _)
    have hq' : '\'' ∉ xs := fun hh => hq (List.mem_cons_of_mem _ hh)
    rw [List.cons_append, readQuoted.eq_def]
    simp only [if_neg hc]
    rw [ih hq']
    simp

theorem readQuoted_dquote_escape (ys : List Char) :
    ∀ xs, '"' ∉ xs → readQuoted '"' (xs ++ '"' :: '"' :: ys)
      = ((xs ++ '"' :: (readQuoted '"' ys).1, (readQuoted '"' ys).2)) := by
  intro xs
  induction xs with
  | nil =>
    intro _
    have hne : ('"' : Char) ≠ '\'' := by decide
    simp only [List.nil_append, readQuoted, if_pos rfl, if_neg hne, ite_true, reduceIte]
  | cons c xs ih =>
    intro hd
    have hc : c ≠ '"' := fun hh => hd (hh ▸ List.mem_cons_self _ _)
    have hd' : '"' ∉ xs := fun hh => hd (List.mem_cons_of_mem _ hh)
    rw [List.cons_append, readQuoted.eq_def]
    simp only [if_neg hc]
    rw [ih hd']
    simp

/-- C6 (amended): inside a single-quoted token a doubled `''` is
consumed as an escape that yields no character at all (so `'it''s'`
tokenizes to `its`), while inside a double-quoted token a doubled `""`
yields one literal `"`. -/
theorem readQuoted_doubled (xs ys : List Char) (hq : '\'' ∉ xs) (hd : '"' ∉ xs) :
    (readQuoted '\'' (xs ++ '\'' :: '\'' :: ys)
      = ((xs ++ (readQuoted '\'' ys).1, (readQuoted '\'' ys).2))) ∧
    (readQuoted '"' (xs ++ '"' :: '"' :: ys)
      = ((xs ++ '"' :: (readQuoted '"' ys).1, (readQuoted '"' ys).2))) ∧
    readToken 100 "'it''s' ;".data = ("its", ';', some []) :=
  ⟨readQuoted_squote_escape ys xs hq, readQuoted_dquote_escape ys xs hd, rfl⟩

/-- Witness for C6 (amended): concrete escapes in both quote styles. -/
theorem readQuoted_doubled_witness :
    (readQuoted '\'' ("it".data ++ '\'' :: '\'' :: "s' ;".data)
      = (("it".data ++ (readQuoted '\'' "s' ;".data).1, (readQuoted '\'' "s' ;".data).2))) ∧
    (readQuoted '"' ("it".data ++ '"' :: '"' :: "s' ;".data)
      = (("it".data ++ '"' :: (readQuoted '"' "s' ;".data).1,
          (readQuoted '"' "s' ;".data).2))) ∧
    readToken 100 "'it''s' ;".data = ("its", ';', some []) :=
  readQuoted_doubled "it".data "s' ;".data (by decide) (by decide)

/-! ## The NEXUS reader (`matrix/nexus.go`) -/

/-- `nexusChar` of `nexus.go`: a character name and its state labels. -/
structure NexusChar where
  name : String
  states : List String := []
deriving DecidableEq

/-- Go `strings.ReplaceAll(s, "_", " ")`. -/
def replaceUnderscore (s : String) : String :=
  String.mk (s.data.map (fun c => if c = '_' then ' ' else c))

/-- Decimal digit-run value for `goAtoi`. -/
def digitsVal (ds : List Char) : Option Int :=
  if ds = [] then none
  else ds.foldl (fun acc c =>
    match acc with
    | none => none
    | some v => if '0' ≤ c ∧ c ≤ '9' then some (v * 10 + ((c.toNat : Int) - 48)) else none)
    (some 0)

/-- Go `strconv.Atoi`: optional sign then decimal digits.  (The source
also errors on 64-bit overflow; the values parsed here are compared to
character positions, which the round-trip class bounds far below 2^63,
where the two agree.) -/
def goAtoi (s : String) : Option Int :=
  match s.data with
  | [] => none
  | c :: ds =>
    if c = '+' then digitsVal ds
    else if c = '-' then (digitsVal ds).map Int.neg
    else digitsVal (c :: ds)

/-- The state-name loop shared by `readNexusCharStateLabels` and
`readNexusStateLabels`: read tokens (underscores to spaces, whitespace
collapsed) until a `,` or `;` delimiter. -/
def readNCSLStates : Nat → List Char → Option (List String × Char × List Char)
  | 0, _ => none
  | fuel + 1, input =>
    match readToken (fuel + 1) input with
    | (_, _, none) => none
    | (tok, delim, some rest) =>
      let sName := collapse (replaceUnderscore tok)
      if delim = ',' ∨ delim = ';' then some ([sName], delim, rest)
      else
        match readNCSLStates fuel rest with
        | none => none
        | some (states, d, rem) => some (sName :: states, d, rem)

/-- `readNexusCharStateLabels` of `nexus.go`: entries
`<index> <name> / <state> ... ,` with 1-based position-checked indices,
ended by `;`. -/
def readNexusCharStateLabels : Nat → Nat → List Char → Option (List NexusChar × List Char)
  | 0, _, _ => none
  | fuel + 1, i, input =>
    match readToken (fuel + 1) input with
    | (_, _, none) => none
    | (tok, _, some rest) =>
      match goAtoi tok with
      | none => none
      | some id =>
        if id ≠ (i : Int) + 1 then none
        else
          match readToken (fuel + 1) rest with
          | (_, _, none) => none
          | (ntok, delim, some rest2) =>
            let cName := collapse (replaceUnderscore ntok)
            if delim = ',' ∨ delim = ';' then
              if delim = ';' then some ([{ name := cName }], rest2)
              else
                match readNexusCharStateLabels fuel (i + 1) rest2 with
                | none => none
                | some (chars, rem) => some ({ name := cName } :: chars, rem)
            else if delim ≠ '/' then none
            else
              match readNCSLStates (fuel + 1) rest2 with
              | none => none
              | some (states, d, rest3) =>
                if d = ';' then some ([{ name := cName, states := states }], rest3)
                else
                  match readNexusCharStateLabels fuel (i + 1) rest3 with
                  | none => none
                  | some (chars, rem) => some ({ name := cName, states := states } :: chars, rem)

/-- `readNexusCharLabels` of `nexus.go`: names only, ended by `;`. -/
def readNexusCharLabels : Nat → List Char → Option (List NexusChar × List Char)
  | 0, _ => none
  | fuel + 1, input =>
    match readToken (fuel + 1) input with
    | (_, _, none) => none
    | (tok, delim, some rest) =>
      let cName := collapse (replaceUnderscore tok)
      if delim = ';' then some ([{ name := cName }], rest)
      else
        match readNexusCharLabels fuel rest with
        | none => none
        | some (chars, rem) => some ({ name := cName } :: chars, rem)

/-- In-place state update of the `i`-th character
(`chars[i].states = states` of the source). -/
def setStatesAt : List NexusChar → Nat → List String → List NexusChar
  | [], _, _ => []
  | c :: rest, 0, states => { c with states := states } :: rest
  | c :: rest, i + 1, states => c :: setStatesAt rest i states

/-- `readNexusStateLabels` of `nexus.go`: `<index> <state> ... ,`
entries applied to an already-known character list; indices past its
end are read and dropped. -/
def readNexusStateLabels : Nat → Nat → List NexusChar → List Char →
    Option (List NexusChar × List Char)
  | 0, _, _, _ => none
  | fuel + 1, i, chars, input =>
    match readToken (fuel + 1) input with
    | (_, _, none) => none
    | (tok, delim, some rest) =>
      if tok = "" ∧ delim = ';' then some (chars, rest)
      else
        match goAtoi tok with
        | none => none
        | some id =>
          if id ≠ (i : Int) + 1 then none
          else
            match readNCSLStates (fuel + 1) rest with
            | none => none
            | some (states, d, rest2) =>
              let chars := if i < chars.length then setStatesAt chars i states else chars
              if d = ';' then some (chars, rest2)
              else readNexusStateLabels fuel (i + 1) chars rest2

/-- Go `strconv.ParseInt(string(r1), 16, 0)` on a single rune: a hex
digit value. -/
def goParseHexDigit (c : Char) : Option Nat :=
  if '0' ≤ c ∧ c ≤ '9' then some (c.toNat - 48)
  else if 'a' ≤ c ∧ c ≤ 'f' then some (c.toNat - 87)
  else if 'A' ≤ c ∧ c ≤ 'F' then some (c.toNat - 55)
  else none

/-- The polymorphic-cell loop of `readNexusMatrix`: hex digits up to the
closing `}` or `)`, each decoded through the state labels and added with
its reference annotation; tracks whether the bracket was empty. -/
def readPolyCells (m : Matrix) (tax spec ref : String) (c : NexusChar) (cName : String)
    (empty : Bool) : List Char → Option (Matrix × Bool × List Char)
  | [] => none
  | r1 :: rest =>
    if r1 = '}' ∨ r1 = ')' then some (m, empty, rest)
    else if goIsSpace r1 then readPolyCells m tax spec ref c cName empty rest
    else
      match goParseHexDigit r1 with
      | none => none
      | some s =>
        let sName := c.states.getD s ("state " ++ toString s)
        let m := m.Add tax spec cName sName
        let m := m.Set spec cName sName ref FieldReference
        readPolyCells m tax spec ref c cName false rest

/-- The per-row cell loop of `readNexusMatrix`: runes up to the end of
the line; `-` adds `<na>` (with the reference annotation), `?` adds
`<unknown>`, a hex digit adds the decoded state, `(`/`{` starts a
polymorphic cell (empty brackets are an error). -/
def readRowCells : Nat → Matrix → String → String → String → List NexusChar → Nat →
    List Char → Option (Matrix × List Char)
  | 0, _, _, _, _, _, _, _ => none
  | fuel + 1, m, tax, spec, ref, chars, char, input =>
    match input with
    | [] => none
    | r1 :: rest =>
      let c : NexusChar := chars.getD char { name := "" }
      let cName := if char < chars.length then c.name else "char " ++ toString (char + 1)
      if r1 = '\n' ∨ r1 = '\r' then some (m, rest)
      else if goIsSpace r1 then readRowCells fuel m tax spec ref chars char rest
      else if r1 = '-' then
        let m := m.Add tax spec cName NotApplicable
        let m := m.Set spec cName NotApplicable ref FieldReference
        readRowCells fuel m tax spec ref chars (char + 1) rest
      else if r1 = '?' then
        let m := m.Add tax spec cName Unknown
        readRowCells fuel m tax spec ref chars (char + 1) rest
      else if r1 = '(' ∨ r1 = '{' then
        match readPolyCells m tax spec ref c cName true rest with
        | none => none
        | some (m, empty, rest2) =>
          if empty then none
          else readRowCells fuel m tax spec ref chars (char + 1) rest2
      else
        match goParseHexDigit r1 with
        | none => none
        | some s =>
          let sName := c.states.getD s ("state " ++ toString s)
          let m := m.Add tax spec cName sName
          let m := m.Set spec cName sName ref FieldReference
          readRowCells fuel m tax spec ref chars (char + 1) rest

/-- The row loop of `readNexusMatrix`: a taxon token (underscores to
spaces, canonicalized; its specimen id is `specID(ref:taxon)`), the
row's cells, then either `;` (end of the matrix) or the next row. -/
def readNexusMatrixRows : Nat → Matrix → String → List NexusChar → List Char →
    Option (Matrix × List Char)
  | 0, _, _, _, _ => none
  | fuel + 1, m, ref, chars, input =>
    match readToken (fuel + 1) input with
    | (_, _, none) => none
    | (tok, _, some rest) =>
      let tax := canon (collapse (replaceUnderscore tok))
      let spec := specID (ref ++ ":" ++ tax)
      match readRowCells (fuel + 1) m tax spec ref chars 0 rest with
      | none => none
      | some (m, rest2) =>
        match skipSpaces (fuel + 1) rest2 with
        | none => none
        | some [] => none
        | some (r1 :: rest3) =>
          if r1 = ';' then some (m, rest3)
          else readNexusMatrixRows fuel m ref chars (r1 :: rest3)

/-- `skipBlock` of `nexus.go`: read tokens up to `end`/`endblock`.  The
source checks the token before the read error, so a block whose final
`end` is cut short by the end of input still succeeds (with the reader
exhausted, modelled as the empty remainder). -/
def skipBlock : Nat → List Char → Option (List Char)
  | 0, _ => none
  | fuel + 1, input =>
    match readToken (fuel + 1) input with
    | (tok, _, orest) =>
      let t := goToLower tok
      if t = "end" ∨ t = "endblock" then some (orest.getD [])
      else
        match orest with
        | none => none
        | some rest => skipBlock fuel rest

/-- `skipDefinition` of `nexus.go`: read tokens up to a `;` delimiter
(checked before the read error, as in the source). -/
def skipDefinition : Nat → List Char → Option (List Char)
  | 0, _ => none
  | fuel + 1, input =>
    match readToken (fuel + 1) input with
    | (_, delim, orest) =>
      if delim = ';' then some (orest.getD [])
      else
        match orest with
        | none => none
        | some rest => skipDefinition fuel rest

/-- The directive loop inside the CHARACTERS block of `ReadNexus`:
`charstatelabels`, `charlabels`, `statelabels` and `matrix` are
interpreted, `end`/`endblock` finishes, anything else is skipped up to
its `;`. -/
def readNexusDirectiveLoop : Nat → Matrix → String → List NexusChar → List Char →
    Option Matrix
  | 0, _, _, _, _ => none
  | fuel + 1, m, ref, chars, input =>
    match readToken (fuel + 1) input with
    | (_, _, none) => none
    | (tok, _, some rest) =>
      let t := goToLower tok
      if t = "end" ∨ t = "endblock" then some m
      else if t = "charstatelabels" then
        match readNexusCharStateLabels (fuel + 1) 0 rest with
        | none => none
        | some (chars, rest2) => readNexusDirectiveLoop fuel m ref chars rest2
      else if t = "charlabels" then
        match readNexusCharLabels (fuel + 1) rest with
        | none => none
        | some (chars, rest2) => readNexusDirectiveLoop fuel m ref chars rest2
      else if t = "statelabels" then
        match readNexusStateLabels (fuel + 1) 0 chars rest with
        | none => none
        | some (chars, rest2) => readNexusDirectiveLoop fuel m ref chars rest2
      else if t = "matrix" then
        match readNexusMatrixRows (fuel + 1) m ref chars rest with
        | none => none
        | some (m, rest2) => readNexusDirectiveLoop fuel m ref chars rest2
      else
        match skipDefinition (fuel + 1) rest with
        | none => none
        | some rest2 => readNexusDirectiveLoop fuel m ref chars rest2

/-- The block loop of `ReadNexus`: skip every `BEGIN <name> ... END;`
block until the `characters` block, then run the directive loop. -/
def readNexusBlockLoop : Nat → Matrix → String → List Char → Option Matrix
  | 0, _, _, _ => none
  | fuel + 1, m, ref, input =>
    match readToken (fuel + 1) input with
    | (_, _, none) => none
    | (tok, _, some rest) =>
      if goToLower tok ≠ "begin" then none
      else
        match readToken (fuel + 1) rest with
        | (_, _, none) => none
        | (btok, _, some rest2) =>
          if goToLower btok = "characters" then
            readNexusDirectiveLoop (fuel + 1) m ref [] rest2
          else
            match skipBlock (fuel + 1) rest2 with
            | none => none
            | some rest3 => readNexusBlockLoop fuel m ref rest3

/-- `ReadNexus` of `nexus.go`: the `#NEXUS` header, then the block loop.
Reading adds the parsed observations into `m` (a method on the matrix in
the source); `none` is any of the source's fatal read errors. -/
def Matrix.ReadNexus (m : Matrix) (ref : String) (fuel : Nat) (input : List Char) :
    Option Matrix :=
  match readToken fuel input with
  | (_, _, none) => none
  | (tok, _, some rest) =>
    if goToLower tok ≠ "#nexus" then none
    else readNexusBlockLoop fuel m ref rest

/-! ## The NEXUS writer (`Nexus` of `matrix/nexus.go`) -/

/-- Go `strings.Join(strings.Fields(s), "_")`: the writer's taxon- and
character-name sanitizer. -/
def underscoreName (s : String) : String :=
  String.intercalate "_" (goFields s)

/-- The decimal digit characters, for Go's `%d` formatting. -/
def decDigitChar (n : Nat) : Char :=
  match n with
  | 0 => '0' | 1 => '1' | 2 => '2' | 3 => '3' | 4 => '4'
  | 5 => '5' | 6 => '6' | 7 => '7' | 8 => '8' | 9 => '9'
  | _ => '0'

/-- Most-significant-first decimal digits (fuelled; any `fuel > n`
reproduces the run). -/
def natDecimalAux : Nat → Nat → List Char
  | 0, _ => []
  | fuel + 1, n =>
    if n < 10 then [decDigitChar n]
    else natDecimalAux fuel (n / 10) ++ [decDigitChar (n % 10)]

/-- Go's `%d` / `strconv.Itoa` on a non-negative value. -/
def natDecimal (n : Nat) : String := String.mk (natDecimalAux (n + 1) n)

/-- The lowercase hexadecimal digit characters, for Go's
`strconv.FormatInt(i, 16)`. -/
def hexDigitChar (n : Nat) : Char :=
  match n with
  | 0 => '0' | 1 => '1' | 2 => '2' | 3 => '3' | 4 => '4'
  | 5 => '5' | 6 => '6' | 7 => '7' | 8 => '8' | 9 => '9'
  | 10 => 'a' | 11 => 'b' | 12 => 'c' | 13 => 'd' | 14 => 'e' | 15 => 'f'
  | _ => '0'

/-- See `natDecimalAux`. -/
def goFormatHexAux : Nat → Nat → List Char
  | 0, _ => []
  | fuel + 1, n =>
    if n < 16 then [hexDigitChar n]
    else goFormatHexAux fuel (n / 16) ++ [hexDigitChar (n % 16)]

/-- Go `strconv.FormatInt(int64 i, 16)` for `0 ≤ i`: lowercase hex. -/
def goFormatHex (n : Nat) : String :=
  String.mk (goFormatHexAux (n + 1) n)

/-- One CHARSTATELABELS entry of the writer: position, quoted
underscored name, `/`, the quoted states, and `,` between entries or
`;` after the last. -/
def charStateLabelEntry (i total : Nat) (c : String) (sts : List String) : String :=
  "\t\t" ++ natDecimal (i + 1) ++ " '" ++ underscoreName c ++ "' /" ++
  String.join (sts.map (fun s => " '" ++ s ++ "'")) ++
  (if i + 1 < total then ",\n" else " ;\n")

/-- The CHARSTATELABELS section of the writer. -/
def charStateLabelsText (m : Matrix) : List String → Nat → Nat → String
  | [], _, _ => ""
  | c :: rest, total, i =>
    charStateLabelEntry i total c (m.States c) ++ charStateLabelsText m rest total (i + 1)

/-- The concrete states observed for character `c` among the specimens
`sp` (the writer's `chSt` set; only membership is ever queried). -/
def cellStates (m : Matrix) (sp : List String) (c : String) : List String :=
  sp.foldl (fun acc spec =>
    (m.Obs spec c).foldl (fun acc o =>
      if o = NotApplicable then acc
      else if o = Unknown then acc
      else insertState o acc) acc) []

/-- Whether any specimen of the taxon reports `<na>` for `c` (the
writer's `val = "-"` assignment). -/
def cellHasNA (m : Matrix) (sp : List String) (c : String) : Bool :=
  sp.any (fun spec => (m.Obs spec c).any (fun o => o = NotApplicable))

/-- The hex digits of the observed states, in sorted-state order (the
writer's symbol loop over `states[c]`). -/
def statesDigits : List String → List String → Nat → String
  | [], _, _ => ""
  | s :: rest, chSt, i =>
    (if s ∈ chSt then goFormatHex i else "") ++ statesDigits rest chSt (i + 1)

/-- One taxon/character cell of the writer's MATRIX section: `-` for an
empty union with `<na>` seen, `?` for an empty union otherwise, the
digit for a singleton, `{digits}` for a polymorphic cell. -/
def cellText (m : Matrix) (states_c : List String) (sp : List String) (c : String) : String :=
  let chSt := cellStates m sp c
  if chSt = [] then (if cellHasNA m sp c then "-" else "?")
  else
    let val := statesDigits states_c chSt 0
    if 1 < val.length then "\x7b" ++ val ++ "\x7d" else val

/-- One taxon row of the writer's MATRIX section. -/
def matrixRowText (m : Matrix) (taxon : String) (chars : List String) : String :=
  "\t" ++ underscoreName taxon ++ "\t" ++
  String.join (chars.map (fun c => cellText m (m.States c) (m.TaxSpec taxon) c)) ++ "\n"

/-- The `#NEXUS` header and the `[written ...]` comment of the writer,
with the timestamp as a parameter. -/
def headerText (ts : String) : String := "#NEXUS\n[written " ++ ts ++ "]\n\n"

/-- One TAXLABELS line of the writer. -/
def taxaLine (t : String) : String := "\t\t" ++ underscoreName t ++ "\n"

/-- The TAXA block of the writer. -/
def taxaBlockText (taxa : List String) : String :=
  "BEGIN TAXA;\n\tTITLE Taxa;\n\tDIMENSIONS NTAX=" ++ natDecimal taxa.length ++
  ";\n\tTAXLABELS\n" ++ String.join (taxa.map taxaLine) ++ "\t;\nEND;\n\n"

/-- The head of the CHARACTERS block of the writer, up to the line
before the first CHARSTATELABELS entry. -/
def charsBlockHead (n : Nat) : String :=
  "BEGIN CHARACTERS;\n\tTITLE 'Phylogenetic data matrix';\n\tDIMENSIONS NCHAR=" ++
  natDecimal n ++
  ";\n\tFORMAT DATATYPE = STANDARD RESPECTCASE GAP = - MISSING = ? SYMBOLS = \"0 1 2 3 4 5 6 7 8 9 A B C D E F\";\n\tCHARSTATELABELS\n"

/-- `Nexus` of `nexus.go`: the full NEXUS text written for a matrix,
with the timestamp of the `[written ...]` comment as a parameter. -/
def nexusText (ts : String) (m : Matrix) : String :=
  headerText ts ++ taxaBlockText m.Taxa ++ charsBlockHead m.Chars.length ++
  charStateLabelsText m m.Chars m.Chars.length 0 ++
  "\tMATRIX\n" ++
  String.join (m.Taxa.map (fun n => matrixRowText m n m.Chars)) ++
  "\t;\nEND;\n\n"

/-! ## Tokenizer stepping lemmas

Symbolic execution of the tokenizer over the shapes of text the writer
produces: a run of whitespace, a word, a delimiter; or a quoted name. -/

/-- A character that can appear in an unquoted token written by the
writer: not whitespace, not a delimiter, and (so that the lemmas also
cover the first character of the token) not a quote or comment
bracket. -/
def isWordChar (c : Char) : Bool :=
  !goIsSpace c && !(c = ';' || c = ',' || c = '/' || c = '=' || c = '\'' || c = '"' || c = '[')

/-- A delimiter character of `readToken`. -/
def isDelimChar (c : Char) : Bool :=
  c = ';' || c = ',' || c = '/' || c = '='

theorem skipComment_no_rb (xs rest : List Char) (h : ']' ∉ xs) :
    skipComment (xs ++ ']' :: rest) = some rest := by
  induction xs with
  | nil => simp [skipComment]
  | cons c cs ih =>
    have hc : c ≠ ']' := fun hh => h (hh ▸ List.mem_cons_self _ _)
    simp only [List.cons_append, skipComment, if_neg hc]
    exact ih (fun hh => h (List.mem_cons_of_mem _ hh))

theorem skipSpaces_ws (ws : List Char) : ∀ (fuel : Nat) (c : Char) (rest : List Char),
    (∀ x ∈ ws, goIsSpace x) → ws.length < fuel → goIsSpace c = false → c ≠ '[' →
    skipSpaces fuel (ws ++ c :: rest) = some (c :: rest) := by
  induction ws with
  | nil =>
    intro fuel c rest _ hf hc hcb
    cases fuel with
    | zero => omega
    | succ n => simp [skipSpaces, hc, hcb]
  | cons w ws ih =>
    intro fuel c rest hws hf hc hcb
    cases fuel with
    | zero => omega
    | succ n =>
      have hw : goIsSpace w := hws w (List.mem_cons_self _ _)
      have hwb : w ≠ '[' := by
        intro hh
        rw [hh] at hw
        simp [goIsSpace] at hw
      simp only [List.cons_append, skipSpaces, if_neg hwb, hw, ite_true, reduceIte]
      exact ih n c rest (fun x hx => hws x (List.mem_cons_of_mem _ hx)) (by simpa using hf) hc hcb

theorem wordChar_props {a : Char} (ha : isWordChar a = true) :
    goIsSpace a = false ∧ a ≠ ';' ∧ a ≠ ',' ∧ a ≠ '/' ∧ a ≠ '=' ∧ a ≠ '\'' ∧ a ≠ '"' ∧
    a ≠ '[' := by
  simp only [isWordChar, Bool.and_eq_true, Bool.not_eq_true', Bool.or_eq_true,
    decide_eq_true_eq, Bool.not_eq_true] at ha
  obtain ⟨h1, h2⟩ := ha
  refine ⟨h1, ?_, ?_, ?_, ?_, ?_, ?_, ?_⟩ <;>
    (intro hh; rw [hh] at h2; simp at h2)

theorem delimChar_space {c : Char} (hc : isDelimChar c = true) : goIsSpace c = false := by
  simp only [isDelimChar, Bool.or_eq_true, decide_eq_true_eq] at hc
  rcases hc with ((h | h) | h) | h <;> (subst h; decide)

theorem readUnquoted_space (w : List Char) : ∀ (c : Char) (rest : List Char),
    (∀ x ∈ w, isWordChar x) → goIsSpace c →
    readUnquoted (w ++ c :: rest) = (w, ' ', some rest) := by
  induction w with
  | nil =>
    intro c rest _ hc
    simp [readUnquoted, hc]
  | cons a w ih =>
    intro c rest hw hc
    obtain ⟨h1, h2, h3, h4, h5, _⟩ := wordChar_props (hw a (List.mem_cons_self _ _))
    rw [List.cons_append, readUnquoted.eq_def]
    simp only [h1, Bool.false_eq_true, if_false]
    rw [if_neg (by push_neg; exact ⟨h2, h3, h4, h5⟩)]
    rw [ih c rest (fun x hx => hw x (List.mem_cons_of_mem _ hx)) hc]

theorem readUnquoted_delim (w : List Char) : ∀ (c : Char) (rest : List Char),
    (∀ x ∈ w, isWordChar x) → isDelimChar c →
    readUnquoted (w ++ c :: rest) = (w, c, some rest) := by
  induction w with
  | nil =>
    intro c rest _ hc
    have hcs := delimChar_space hc
    simp only [isDelimChar, Bool.or_eq_true, decide_eq_true_eq] at hc
    simp only [List.nil_append, readUnquoted, hcs, Bool.false_eq_true, if_false]
    rw [if_pos (by tauto)]
  | cons a w ih =>
    intro c rest hw hc
    obtain ⟨h1, h2, h3, h4, h5, _⟩ := wordChar_props (hw a (List.mem_cons_self _ _))
    rw [List.cons_append, readUnquoted.eq_def]
    simp only [h1, Bool.false_eq_true, if_false]
    rw [if_neg (by push_neg; exact ⟨h2, h3, h4, h5⟩)]
    rw [ih c rest (fun x hx => hw x (List.mem_cons_of_mem _ hx)) hc]

theorem readQuoted_content (stop : Char) (content : List Char) :
    ∀ (nx : Char) (rest2 : List Char), (∀ x ∈ content, x ≠ stop) → nx ≠ stop →
    readQuoted stop (content ++ stop :: nx :: rest2) = (content, some (nx :: rest2)) := by
  induction content with
  | nil =>
    intro nx rest2 _ hnx
    simp [readQuoted, hnx]
  | cons a w ih =>
    intro nx rest2 hw hnx
    have ha : a ≠ stop := hw a (List.mem_cons_self _ _)
    rw [List.cons_append, readQuoted.eq_def]
    simp only [if_neg ha]
    rw [ih nx rest2 (fun x hx => hw x (List.mem_cons_of_mem _ hx)) hnx]

theorem finishDelim_delim (fuel : Nat) (tok ws : List Char) (d : Char) (rest : List Char)
    (hws : ∀ x ∈ ws, goIsSpace x) (hf : ws.length < fuel) (hd : isDelimChar d) :
    finishDelim fuel tok ' ' (ws ++ d :: rest) = (String.mk tok, d, some rest) := by
  have hds := delimChar_space hd
  have hdb : d ≠ '[' := by
    simp only [isDelimChar, Bool.or_eq_true, decide_eq_true_eq] at hd
    rcases hd with ((h | h) | h) | h <;> (subst h; decide)
  simp only [finishDelim, show goIsSpace ' ' = true from rfl, ite_true, reduceIte,
    skipSpaces_ws ws fuel d rest hws hf hds hdb]
  simp only [isDelimChar, Bool.or_eq_true, decide_eq_true_eq] at hd
  rw [if_pos (by tauto)]

theorem finishDelim_word (fuel : Nat) (tok ws : List Char) (d : Char) (rest : List Char)
    (hws : ∀ x ∈ ws, goIsSpace x) (hf : ws.length < fuel)
    (hd : goIsSpace d = false) (hdb : d ≠ '[') (hdd : isDelimChar d = false) :
    finishDelim fuel tok ' ' (ws ++ d :: rest) = (String.mk tok, ' ', some (d :: rest)) := by
  simp only [finishDelim, show goIsSpace ' ' = true from rfl, ite_true, reduceIte,
    skipSpaces_ws ws fuel d rest hws hf hd hdb]
  simp only [isDelimChar, Bool.or_eq_true, decide_eq_true_eq] at hdd
  rw [if_neg (by simp at hdd ⊢; tauto)]

theorem finishDelim_nonspace (fuel : Nat) (tok : List Char) (d : Char) (rem : List Char)
    (hd : goIsSpace d = false) :
    finishDelim fuel tok d rem = (String.mk tok, d, some rem) := by
  simp [finishDelim, hd]

/-- `readToken` on a word followed directly by a delimiter. -/
theorem readToken_word_delim (fuel : Nat) (ws w : List Char) (d : Char) (rest : List Char)
    (hws : ∀ x ∈ ws, goIsSpace x) (hf : ws.length < fuel)
    (hw : ∀ x ∈ w, isWordChar x) (hwne : w ≠ []) (hd : isDelimChar d) :
    readToken fuel (ws ++ w ++ d :: rest) = (String.mk w, d, some rest) := by
  obtain ⟨a, w', rfl⟩ := List.exists_cons_of_ne_nil hwne
  obtain ⟨h1, _, _, _, _, h6, h7, h8⟩ := wordChar_props (hw a (List.mem_cons_self _ _))
  rw [List.append_assoc, List.cons_append]
  simp only [readToken, skipSpaces_ws ws fuel a (w' ++ d :: rest) hws hf h1 h8]
  rw [if_neg (by push_neg; exact ⟨h6, h7⟩)]
  rw [show a :: (w' ++ d :: rest) = (a :: w') ++ d :: rest from rfl]
  rw [readUnquoted_delim _ _ _ hw hd]
  exact finishDelim_nonspace _ _ _ _ (delimChar_space hd)

/-- `readToken` on a word, whitespace, then a delimiter found by the
lookahead. -/
theorem readToken_word_ws_delim (fuel : Nat) (ws w : List Char) (c : Char)
    (ws2 : List Char) (d : Char) (rest : List Char)
    (hws : ∀ x ∈ ws, goIsSpace x) (hf : ws.length < fuel)
    (hw : ∀ x ∈ w, isWordChar x) (hwne : w ≠ []) (hc : goIsSpace c)
    (hws2 : ∀ x ∈ ws2, goIsSpace x) (hf2 : ws2.length < fuel) (hd : isDelimChar d) :
    readToken fuel (ws ++ w ++ (c :: (ws2 ++ d :: rest))) = (String.mk w, d, some rest) := by
  obtain ⟨a, w', rfl⟩ := List.exists_cons_of_ne_nil hwne
  obtain ⟨h1, _, _, _, _, h6, h7, h8⟩ := wordChar_props (hw a (List.mem_cons_self _ _))
  rw [List.append_assoc, List.cons_append]
  simp only [readToken, skipSpaces_ws ws fuel a (w' ++ (c :: (ws2 ++ d :: rest))) hws hf h1 h8]
  rw [if_neg (by push_neg; exact ⟨h6, h7⟩)]
  rw [show a :: (w' ++ (c :: (ws2 ++ d :: rest))) = (a :: w') ++ c :: (ws2 ++ d :: rest)
    from rfl]
  rw [readUnquoted_space _ _ _ hw hc]
  exact finishDelim_delim fuel _ ws2 d rest hws2 hf2 hd

/-- `readToken` on a word, whitespace, then a non-delimiter (which the
lookahead unreads). -/
theorem readToken_word_ws_word (fuel : Nat) (ws w : List Char) (c : Char)
    (ws2 : List Char) (d : Char) (rest : List Char)
    (hws : ∀ x ∈ ws, goIsSpace x) (hf : ws.length < fuel)
    (hw : ∀ x ∈ w, isWordChar x) (hwne : w ≠ []) (hc : goIsSpace c)
    (hws2 : ∀ x ∈ ws2, goIsSpace x) (hf2 : ws2.length < fuel)
    (hd : goIsSpace d = false) (hdb : d ≠ '[') (hdd : isDelimChar d = false) :
    readToken fuel (ws ++ w ++ (c :: (ws2 ++ d :: rest)))
      = (String.mk w, ' ', some (d :: rest)) := by
  obtain ⟨a, w', rfl⟩ := List.exists_cons_of_ne_nil hwne
  obtain ⟨h1, _, _, _, _, h6, h7, h8⟩ := wordChar_props (hw a (List.mem_cons_self _ _))
  rw [List.append_assoc, List.cons_append]
  simp only [readToken, skipSpaces_ws ws fuel a (w' ++ (c :: (ws2 ++ d :: rest))) hws hf h1 h8]
  rw [if_neg (by push_neg; exact ⟨h6, h7⟩)]
  rw [show a :: (w' ++ (c :: (ws2 ++ d :: rest))) = (a :: w') ++ c :: (ws2 ++ d :: rest)
    from rfl]
  rw [readUnquoted_space _ _ _ hw hc]
  exact finishDelim_word fuel _ ws2 d rest hws2 hf2 hd hdb hdd

/-- `readToken` on a quoted run followed directly by a delimiter. -/
theorem readToken_quoted_delim (fuel : Nat) (ws : List Char) (stop : Char)
    (content : List Char) (d : Char) (rest : List Char)
    (hws : ∀ x ∈ ws, goIsSpace x) (hf : ws.length < fuel)
    (hstop : stop = '\'' ∨ stop = '"') (hcontent : ∀ x ∈ content, x ≠ stop)
    (hd : isDelimChar d) (hdstop : d ≠ stop) :
    readToken fuel (ws ++ stop :: (content ++ stop :: d :: rest))
      = (String.mk content, d, some rest) := by
  have hstops : goIsSpace stop = false := by rcases hstop with h | h <;> (subst h; decide)
  have hstopb : stop ≠ '[' := by rcases hstop with h | h <;> (subst h; decide)
  simp only [readToken,
    skipSpaces_ws ws fuel stop (content ++ stop :: d :: rest) hws hf hstops hstopb]
  rw [if_pos hstop]
  rw [readQuoted_content stop content d rest hcontent hdstop]
  exact finishDelim_delim fuel content [] d rest (by simp)
    (by simp only [List.length_nil]; omega) hd

/-- `readToken` on a quoted run, whitespace, then a delimiter. -/
theorem readToken_quoted_ws_delim (fuel : Nat) (ws : List Char) (stop : Char)
    (content : List Char) (c : Char) (ws2 : List Char) (d : Char) (rest : List Char)
    (hws : ∀ x ∈ ws, goIsSpace x) (hf : ws.length < fuel)
    (hstop : stop = '\'' ∨ stop = '"') (hcontent : ∀ x ∈ content, x ≠ stop)
    (hc : goIsSpace c) (hcstop : c ≠ stop)
    (hws2 : ∀ x ∈ ws2, goIsSpace x) (hf2 : ws2.length + 1 < fuel) (hd : isDelimChar d) :
    readToken fuel (ws ++ stop :: (content ++ stop :: c :: (ws2 ++ d :: rest)))
      = (String.mk content, d, some rest) := by
  have hstops : goIsSpace stop = false := by rcases hstop with h | h <;> (subst h; decide)
  have hstopb : stop ≠ '[' := by rcases hstop with h | h <;> (subst h; decide)
  simp only [readToken,
    skipSpaces_ws ws fuel stop (content ++ stop :: c :: (ws2 ++ d :: rest)) hws hf hstops
    hstopb]
  rw [if_pos hstop]
  rw [readQuoted_content stop content c (ws2 ++ d :: rest) hcontent hcstop]
  exact finishDelim_delim fuel content (c :: ws2) d rest
    (by intro x hx; rcases List.mem_cons.1 hx with rfl | hx; exact hc; exact hws2 x hx)
    (by simpa using hf2) hd

/-- `readToken` on a quoted run, whitespace, then a non-delimiter. -/
theorem readToken_quoted_ws_word (fuel : Nat) (ws : List Char) (stop : Char)
    (content : List Char) (c : Char) (ws2 : List Char) (d : Char) (rest : List Char)
    (hws : ∀ x ∈ ws, goIsSpace x) (hf : ws.length < fuel)
    (hstop : stop = '\'' ∨ stop = '"') (hcontent : ∀ x ∈ content, x ≠ stop)
    (hc : goIsSpace c) (hcstop : c ≠ stop)
    (hws2 : ∀ x ∈ ws2, goIsSpace x) (hf2 : ws2.length + 1 < fuel)
    (hd : goIsSpace d = false) (hdb : d ≠ '[') (hdd : isDelimChar d = false) :
    readToken fuel (ws ++ stop :: (content ++ stop :: c :: (ws2 ++ d :: rest)))
      = (String.mk content, ' ', some (d :: rest)) := by
  have hstops : goIsSpace stop = false := by rcases hstop with h | h <;> (subst h; decide)
  have hstopb : stop ≠ '[' := by rcases hstop with h | h <;> (subst h; decide)
  simp only [readToken,
    skipSpaces_ws ws fuel stop (content ++ stop :: c :: (ws2 ++ d :: rest)) hws hf hstops
    hstopb]
  rw [if_pos hstop]
  rw [readQuoted_content stop content c (ws2 ++ d :: rest) hcontent hcstop]
  exact finishDelim_word fuel content (c :: ws2) d rest
    (by intro x hx; rcases List.mem_cons.1 hx with rfl | hx; exact hc; exact hws2 x hx)
    (by simpa using hf2) hd hdb hdd

/-! ## The byte-wise string order is a linear order

`sortStrs` is insertion sort for it, so sorting is invariant under
permutation and fixes sorted lists. -/

theorem string_ext {s t : String} (h : s.data = t.data) : s = t := by
  cases s; cases t; exact congrArg String.mk h

theorem charsLe_total : ∀ as bs : List Char, charsLe as bs ∨ charsLe bs as := by
  intro as
  induction as with
  | nil => intro bs; left; rfl
  | cons a as ih =>
    intro bs
    cases bs with
    | nil => right; rfl
    | cons b bs =>
      rcases lt_trichotomy a b with h | h | h
      · left; simp [charsLe, h]
      · subst h
        rcases ih bs with h2 | h2
        · left; simp [charsLe, h2, lt_irrefl]
        · right; simp [charsLe, h2, lt_irrefl]
      · right; simp [charsLe, h]

theorem charsLe_antisymm : ∀ as bs : List Char,
    charsLe as bs → charsLe bs as → as = bs := by
  intro as
  induction as with
  | nil =>
    intro bs _ h2
    cases bs with
    | nil => rfl
    | cons b bs => simp [charsLe] at h2
  | cons a as ih =>
    intro bs h1 h2
    cases bs with
    | nil => simp [charsLe] at h1
    | cons b bs =>
      rcases lt_trichotomy a b with h | h | h
      · simp [charsLe, h, asymm h] at h2
      · subst h
        simp only [charsLe, lt_irrefl, if_false, reduceIte] at h1 h2
        rw [ih bs h1 h2]
      · simp [charsLe, h, asymm h] at h1

theorem charsLe_trans : ∀ as bs cs : List Char,
    charsLe as bs → charsLe bs cs → charsLe as cs := by
  intro as
  induction as with
  | nil => intro bs cs _ _; rfl
  | cons a as ih =>
    intro bs cs h1 h2
    cases bs with
    | nil => simp [charsLe] at h1
    | cons b bs =>
      cases cs with
      | nil => simp [charsLe] at h2
      | cons c cs =>
        rcases lt_trichotomy a b with hab | hab | hab <;>
          rcases lt_trichotomy b c with hbc | hbc | hbc
        · simp [charsLe, lt_trans hab hbc]
        · subst hbc; simp [charsLe, hab]
        · simp [charsLe, hbc, asymm hbc] at h2
        · subst hab; simp [charsLe, hbc]
        · subst hab; subst hbc
          simp only [charsLe, lt_irrefl, if_false, reduceIte] at h1 h2 ⊢
          exact ih bs cs h1 h2
        · simp [charsLe, hbc, asymm hbc] at h2
        · simp [charsLe, hab, asymm hab] at h1
        · simp [charsLe, hab, asymm hab] at h1
        · simp [charsLe, hab, asymm hab] at h1

/-- The byte-wise order as a proposition (`DecidableRel` by `Bool`
equality). -/
def strLeProp (a b : String) : Prop := strLe a b = true

instance : DecidableRel strLeProp := fun a b => instDecidableEqBool (strLe a b) true

instance : IsTotal String strLeProp :=
  ⟨fun a b => by
    rcases charsLe_total a.data b.data with h | h
    · exact Or.inl h
    · exact Or.inr h⟩

instance : IsTrans String strLeProp :=
  ⟨fun a b c h1 h2 => charsLe_trans a.data b.data c.data h1 h2⟩

instance : IsAntisymm String strLeProp :=
  ⟨fun a b h1 h2 => string_ext (charsLe_antisymm a.data b.data h1 h2)⟩

theorem insortStr_eq_orderedInsert (s : String) (l : List String) :
    insortStr s l = List.orderedInsert strLeProp s l := by
  induction l with
  | nil => rfl
  | cons t ts ih =>
    simp only [insortStr, List.orderedInsert]
    by_cases h : strLe s t = true
    · rw [if_pos h, if_pos (show strLeProp s t from h)]
    · rw [if_neg h, if_neg (show ¬ strLeProp s t from h), ih]

theorem sortStrs_eq_insertionSort (l : List String) :
    sortStrs l = List.insertionSort strLeProp l := by
  induction l with
  | nil => rfl
  | cons t ts ih =>
    simp only [sortStrs, List.foldr, List.insertionSort] at ih ⊢
    rw [ih, insortStr_eq_orderedInsert]

theorem sortStrs_perm (l : List String) : (sortStrs l).Perm l := by
  rw [sortStrs_eq_insertionSort]; exact List.perm_insertionSort _ l

theorem sortStrs_sorted (l : List String) : List.Sorted strLeProp (sortStrs l) := by
  rw [sortStrs_eq_insertionSort]; exact List.sorted_insertionSort _ l

theorem sortStrs_eq_of_perm {l l' : List String} (h : l.Perm l') :
    sortStrs l = sortStrs l' :=
  List.eq_of_perm_of_sorted ((sortStrs_perm l).trans (h.trans (sortStrs_perm l').symm))
    (sortStrs_sorted l) (sortStrs_sorted l')

theorem sortStrs_eq_self_of_sorted {l : List String} (h : List.Sorted strLeProp l) :
    sortStrs l = l :=
  List.eq_of_perm_of_sorted (sortStrs_perm l) (sortStrs_sorted l) h

theorem sortStrs_idem (l : List String) : sortStrs (sortStrs l) = sortStrs l :=
  sortStrs_eq_self_of_sorted (sortStrs_sorted l)

theorem sortStrs_nodup {l : List String} (h : l.Nodup) : (sortStrs l).Nodup :=
  ((sortStrs_perm l).nodup_iff).2 h

theorem sortStrs_eq_of_mem_iff {l l' : List String} (h : l.Nodup) (h' : l'.Nodup)
    (hm : ∀ a, a ∈ l ↔ a ∈ l') : sortStrs l = sortStrs l' :=
  sortStrs_eq_of_perm ((List.perm_ext_iff_of_nodup h h').2 hm)

/-! ## Decimal and hexadecimal formatting round-trips -/

theorem decDigit_facts : ∀ n, n < 10 →
    ('0' ≤ decDigitChar n ∧ decDigitChar n ≤ '9') ∧ (decDigitChar n).toNat = 48 + n ∧
    isWordChar (decDigitChar n) := by decide

theorem natDecimalAux_fuel : ∀ n fuel, n < fuel →
    natDecimalAux fuel n = natDecimalAux (n + 1) n := by
  intro n
  induction n using Nat.strong_induction_on with
  | _ n ih =>
    intro fuel hf
    cases fuel with
    | zero => omega
    | succ f =>
      by_cases h10 : n < 10
      · simp [natDecimalAux, h10]
      · have hdiv : n / 10 < n := Nat.div_lt_self (by omega) (by omega)
        simp only [natDecimalAux, h10, if_false, reduceIte]
        rw [ih (n / 10) hdiv f (by omega), ih (n / 10) hdiv n (by omega)]

theorem natDecimalAux_ne_nil : ∀ n fuel, n < fuel → natDecimalAux fuel n ≠ [] := by
  intro n fuel hf
  cases fuel with
  | zero => omega
  | succ f =>
    by_cases h10 : n < 10
    · simp [natDecimalAux, h10]
    · simp [natDecimalAux, h10]

theorem natDecimalAux_digits : ∀ n fuel, n < fuel →
    ∀ c ∈ natDecimalAux fuel n, '0' ≤ c ∧ c ≤ '9' := by
  intro n
  induction n using Nat.strong_induction_on with
  | _ n ih =>
    intro fuel hf c hc
    cases fuel with
    | zero => omega
    | succ f =>
      by_cases h10 : n < 10
      · simp only [natDecimalAux, h10, ite_true, reduceIte, List.mem_singleton] at hc
        subst hc
        exact (decDigit_facts n h10).1
      · have hdiv : n / 10 < n := Nat.div_lt_self (by omega) (by omega)
        simp only [natDecimalAux, h10, if_false, reduceIte, List.mem_append,
          List.mem_singleton] at hc
        rcases hc with hc | hc
        · exact ih (n / 10) hdiv f (by omega) c hc
        · subst hc
          exact (decDigit_facts (n % 10) (Nat.mod_lt _ (by omega))).1

/-- A decimal digit is not whitespace, a delimiter, a quote or a comment
bracket. -/
theorem digit_isWordChar {c : Char} (h1 : '0' ≤ c) (h2 : c ≤ '9') : isWordChar c := by
  have hs : goIsSpace c = false := by
    simp only [goIsSpace, Bool.or_eq_false_iff, Bool.and_eq_false_iff,
      decide_eq_false_iff_not]
    repeat' apply And.intro
    all_goals first
      | (intro hh; subst hh; exact absurd h1 (by decide))
      | (intro hh; subst hh; exact absurd h2 (by decide))
      | (left; intro hh; exact absurd (le_trans hh h2) (by decide))
  simp only [isWordChar, hs, Bool.not_false, Bool.true_and, Bool.not_eq_true',
    Bool.or_eq_false_iff, decide_eq_false_iff_not]
  repeat' apply And.intro
  all_goals first
    | (intro hh; subst hh; exact absurd h1 (by decide))
    | (intro hh; subst hh; exact absurd h2 (by decide))

/-- The step function of `digitsVal` on the digits of `natDecimalAux`. -/
theorem natDecimalAux_foldl : ∀ n fuel, n < fuel → ∀ v : Int,
    (natDecimalAux fuel n).foldl (fun acc c =>
      match acc with
      | none => none
      | some v => if '0' ≤ c ∧ c ≤ '9' then some (v * 10 + ((c.toNat : Int) - 48)) else none)
      (some v)
      = some (v * 10 ^ (natDecimalAux fuel n).length + n) := by
  intro n
  induction n using Nat.strong_induction_on with
  | _ n ih =>
    intro fuel hf v
    cases fuel with
    | zero => omega
    | succ f =>
      by_cases h10 : n < 10
      · obtain ⟨⟨hd1, hd2⟩, hval, _⟩ := decDigit_facts n h10
        simp only [natDecimalAux, h10, ite_true, reduceIte, List.foldl_cons, List.foldl_nil,
          if_pos (And.intro hd1 hd2), hval, List.length_singleton, pow_one]
        congr 1
        push_cast
        ring
      · have hdiv : n / 10 < n := Nat.div_lt_self (by omega) (by omega)
        obtain ⟨⟨hd1, hd2⟩, hval, _⟩ := decDigit_facts (n % 10) (Nat.mod_lt _ (by omega))
        simp only [natDecimalAux, h10, if_false, reduceIte, List.foldl_append,
          ih (n / 10) hdiv f (by omega) v, List.foldl_cons, List.foldl_nil,
          if_pos (And.intro hd1 hd2), hval, List.length_append, List.length_singleton]
        congr 1
        push_cast
        rw [pow_succ]
        have hmod := Nat.div_add_mod n 10
        have : ((n / 10 : Nat) : Int) * 10 + ((n % 10 : Nat) : Int) = (n : Int) := by
          push_cast
          omega
        ring_nf
        ring_nf at this
        omega

theorem goAtoi_natDecimal (n : Nat) : goAtoi (natDecimal n) = some (n : Int) := by
  have hne := natDecimalAux_ne_nil n (n + 1) (by omega)
  have hdig := natDecimalAux_digits n (n + 1) (by omega)
  have hfold := natDecimalAux_foldl n (n + 1) (by omega) 0
  cases h : natDecimalAux (n + 1) n with
  | nil => exact absurd h hne
  | cons c ds =>
    obtain ⟨hc1, hc2⟩ := hdig c (h ▸ List.mem_cons_self _ _)
    have hplus : c ≠ '+' := by intro hh; subst hh; exact absurd hc1 (by decide)
    have hminus : c ≠ '-' := by intro hh; subst hh; exact absurd hc1 (by decide)
    have hdata : (natDecimal n).data = c :: ds := by
      simp only [natDecimal, h]
    simp only [goAtoi, hdata, if_neg hplus, if_neg hminus]
    rw [h] at hfold
    simp only [digitsVal, if_neg (List.cons_ne_nil c ds), hfold, zero_mul, zero_add]

theorem natDecimal_wordChars : ∀ c ∈ (natDecimal n).data, isWordChar c := by
  intro c hc
  simp only [natDecimal] at hc
  obtain ⟨h1, h2⟩ := natDecimalAux_digits n (n + 1) (by omega) c hc
  exact digit_isWordChar h1 h2

theorem natDecimal_ne_nil (n : Nat) : (natDecimal n).data ≠ [] := by
  simp only [natDecimal]
  exact natDecimalAux_ne_nil n (n + 1) (by omega)

/-- The facts needed about single hexadecimal digits (state indices are
at most 15 in the round-trip class). -/
theorem hexDigit_facts : ∀ i, i < 16 →
    goFormatHex i = String.mk [hexDigitChar i] ∧
    goParseHexDigit (hexDigitChar i) = some i ∧
    goIsSpace (hexDigitChar i) = false ∧
    hexDigitChar i ≠ '}' ∧ hexDigitChar i ≠ ')' ∧ hexDigitChar i ≠ '\n' ∧
    hexDigitChar i ≠ '\r' ∧ hexDigitChar i ≠ '-' ∧ hexDigitChar i ≠ '?' ∧
    hexDigitChar i ≠ '(' ∧ hexDigitChar i ≠ '{' ∧ isWordChar (hexDigitChar i) := by
  decide

/-! ## More association-list and string-set algebra -/

theorem alookup_append_some {l₁ l₂ : List (String × α)} {k : String} {v : α}
    (h : alookup k l₁ = some v) : alookup k (l₁ ++ l₂) = some v := by
  induction l₁ with
  | nil => simp [alookup] at h
  | cons p rest ih =>
    obtain ⟨k', v'⟩ := p
    by_cases hk : k' = k
    · subst hk
      simp only [alookup, if_pos rfl] at h ⊢
      exact h
    · simp only [List.cons_append, alookup, if_neg hk] at h ⊢
      exact ih h

theorem alookup_append_none {l₁ l₂ : List (String × α)} {k : String}
    (h : alookup k l₁ = none) : alookup k (l₁ ++ l₂) = alookup k l₂ := by
  induction l₁ with
  | nil => rfl
  | cons p rest ih =>
    obtain ⟨k', v'⟩ := p
    by_cases hk : k' = k
    · subst hk; simp [alookup] at h
    · simp only [List.cons_append, alookup, if_neg hk] at h ⊢
      exact ih h

theorem aset_fresh_append {l : List (String × α)} {k : String} (v : α)
    (h : alookup k l = none) : aset k v l = l ++ [(k, v)] := by
  induction l with
  | nil => rfl
  | cons p rest ih =>
    obtain ⟨k', v'⟩ := p
    by_cases hk : k' = k
    · subst hk; simp [alookup] at h
    · simp only [alookup, if_neg hk] at h
      simp only [aset, if_neg hk, List.cons_append, ih h]

theorem aset_append_last {l : List (String × α)} {k : String} (v w : α)
    (h : alookup k l = none) : aset k v (l ++ [(k, w)]) = l ++ [(k, v)] := by
  induction l with
  | nil => simp [aset]
  | cons p rest ih =>
    obtain ⟨k', v'⟩ := p
    by_cases hk : k' = k
    · subst hk; simp [alookup] at h
    · simp only [alookup, if_neg hk] at h
      simp only [List.cons_append, aset, if_neg hk]
      show (k', v') :: aset k v (rest ++ [(k, w)]) = (k', v') :: (rest ++ [(k, v)])
      rw [ih h]

theorem alookup_map_eq_none {β : Type} (f : String → String) (g : String → β)
    (l : List String) (q : String) (h : ∀ t ∈ l, f t ≠ q) :
    alookup q (l.map (fun t => (f t, g t))) = none := by
  induction l with
  | nil => rfl
  | cons t rest ih =>
    simp only [List.map_cons, alookup, if_neg (h t (List.mem_cons_self _ _))]
    exact ih (fun x hx => h x (List.mem_cons_of_mem _ hx))

theorem alookup_map_eq_some {β : Type} (f : String → String) (g : String → β)
    (l : List String) (t : String) (ht : t ∈ l)
    (hinj : (l.map f).Nodup) :
    alookup (f t) (l.map (fun t => (f t, g t))) = some (g t) := by
  induction l with
  | nil => simp at ht
  | cons a rest ih =>
    simp only [List.map_cons, List.nodup_cons, List.mem_map] at hinj
    obtain ⟨hni, hnd⟩ := hinj
    rcases List.mem_cons.1 ht with rfl | ht
    · simp [alookup]
    · have hne : f a ≠ f t := by
        intro hh
        exact hni ⟨t, ht, hh.symm⟩
      simp only [List.map_cons, alookup, if_neg hne]
      exact ih ht hnd

theorem mem_insertState (a s : String) (l : List String) :
    a ∈ insertState s l ↔ a ∈ l ∨ a = s := by
  simp only [insertState]
  by_cases h : s ∈ l
  · simp only [if_pos h]
    constructor
    · exact Or.inl
    · rintro (hx | rfl)
      · exact hx
      · exact h
  · simp [if_neg h]

theorem insertState_nodup {s : String} {l : List String} (h : l.Nodup) :
    (insertState s l).Nodup := by
  simp only [insertState]
  by_cases hs : s ∈ l
  · simpa [if_pos hs] using h
  · simp only [if_neg hs]
    exact List.Nodup.append h (List.nodup_singleton s) (by simpa using hs)

theorem listToSet_aux_mem (l : List String) : ∀ (acc : List String) (a : String),
    a ∈ l.foldl (fun acc t => insertState t acc) acc ↔ a ∈ acc ∨ a ∈ l := by
  induction l with
  | nil => simp
  | cons t rest ih =>
    intro acc a
    simp only [List.foldl_cons, ih, mem_insertState, List.mem_cons]
    tauto

theorem listToSet_aux_nodup (l : List String) : ∀ (acc : List String), acc.Nodup →
    (l.foldl (fun acc t => insertState t acc) acc).Nodup := by
  induction l with
  | nil => intro acc h; simpa using h
  | cons t rest ih =>
    intro acc h
    exact ih _ (insertState_nodup h)

theorem mem_listToSet (a : String) (l : List String) : a ∈ listToSet l ↔ a ∈ l := by
  simp [listToSet, listToSet_aux_mem]

theorem listToSet_nodup (l : List String) : (listToSet l).Nodup :=
  listToSet_aux_nodup l [] List.nodup_nil

theorem listToSet_eq_self {l : List String} (h : l.Nodup) : listToSet l = l := by
  induction l with
  | nil => rfl
  | cons t rest ih =>
    simp only [List.nodup_cons] at h
    obtain ⟨hni, hnd⟩ := h
    have haux : ∀ (acc : List String) (r : List String), r.Nodup → (∀ x ∈ r, x ∉ acc) →
        acc.Nodup → r.foldl (fun acc t => insertState t acc) acc = acc ++ r := by
      intro acc r
      induction r generalizing acc with
      | nil => intro _ _ _; simp
      | cons b bs ihh =>
        intro hr hdisj hacc
        simp only [List.nodup_cons] at hr
        simp only [List.foldl_cons]
        rw [show insertState b acc = acc ++ [b] from by
          simp [insertState, if_neg (hdisj b (List.mem_cons_self _ _))]]
        rw [ihh (acc ++ [b]) hr.2 ?_ ?_]
        · simp
        · intro x hx
          simp only [List.mem_append, List.mem_singleton]
          rintro (hxa | rfl)
          · exact hdisj x (List.mem_cons_of_mem _ hx) hxa
          · exact hr.1 hx
        · exact List.Nodup.append hacc (List.nodup_singleton b)
            (by simpa using fun hb => hdisj b (List.mem_cons_self _ _) hb)
    have := haux [] (t :: rest) (List.nodup_cons.2 ⟨hni, hnd⟩) (by simp) List.nodup_nil
    simpa [listToSet] using this

theorem getD_of_drop {l : List String} {i : Nat} {s : String} {r : List String}
    (h : l.drop i = s :: r) (d : String) : l.getD i d = s := by
  have h1 : l[i]? = some s := by
    rw [← List.head?_drop, h, List.head?_cons]
  simp [List.getD_eq_getElem?_getD, h1]

theorem drop_succ_of_drop {l : List String} {i : Nat} {s : String} {r : List String}
    (h : l.drop i = s :: r) : l.drop (i + 1) = r := by
  rw [← List.drop_drop, h, List.drop_one, List.tail_cons]

/-! ## The round-trip class of claim C1

The round-trip as claimed fails on arbitrary matrices (see the C1
counterexample); `NexusWF` is the class of matrices canonical for a
reference id, on which it holds: names are stored normalized and survive
the writer's underscore/quote encoding, each taxon has exactly one
specimen named by the reader's `specID(ref:taxon)` rule, every
(specimen, character) pair carries an observation, every character state
is observed somewhere, and state sets fit in the 16 hex symbols. -/

/-- The specimen id the NEXUS reader derives for a row's taxon. -/
def skey (ref t : String) : String := specID (ref ++ ":" ++ t)

/-- The character list the reader builds from the CHARSTATELABELS
section of a written matrix. -/
def nexusCharsOf (m : Matrix) : List NexusChar :=
  m.Chars.map (fun c => { name := c, states := m.States c })

/-- The observation names one written cell carries: `<na>` for an
all-`<na>` cell, otherwise the observed concrete states in sorted-state
order (the order of the written hex digits). -/
def cellNames (m : Matrix) (sp : List String) (c : String) : List String :=
  if cellStates m sp c = [] then [NotApplicable]
  else (m.States c).filter (fun s => s ∈ cellStates m sp c)

/-- The observation record the reader stores for one state: `Add`
creates it with the name, the following `Set` fills the reference. -/
def obsRecordR (s rr : String) : Observation := { name := s, ref := rr }

/-- See `obsRecordR`: a read-back cell's observation map. -/
def cellObsMap (names : List String) (rr : String) : List (String × Observation) :=
  names.map (fun s => (s, obsRecordR s rr))

/-- The full observation table the reader builds for one row. -/
def rowObsMap (m : Matrix) (ref t : String) : List (String × List (String × Observation)) :=
  m.Chars.map (fun c => (c, cellObsMap (cellNames m (m.TaxSpec t) c) (collapse ref)))

/-- The specimen the reader creates for one row. -/
def expSpec (m : Matrix) (ref t : String) : Specimen :=
  { taxon := t, name := skey ref t, obs := rowObsMap m ref t }

/-- The whole specimen table of the read-back matrix: one specimen per
taxon, in row (sorted-taxa) order. -/
def expSpecs (m : Matrix) (ref : String) : List (String × Specimen) :=
  m.Taxa.map (fun t => (skey ref t, expSpec m ref t))

/-- Every state name fed to the reader's `Add` for character `c`, in
row-major order. -/
def allContrib (m : Matrix) (c : String) : List String :=
  m.Taxa.flatMap (fun t => cellNames m (m.TaxSpec t) c)

/-- What the proof establishes about the read-back character table:
keys in column order, each character carrying exactly the states the
rows mention. -/
def CharsReadOK (m : Matrix) (ctab : List (String × Character)) : Prop :=
  ctab.map Prod.fst = m.Chars ∧
  ∀ c ∈ m.Chars, ∃ ss, alookup c ctab = some { name := c, states := ss } ∧ ss.Nodup ∧
    (∀ s, s ∈ ss ↔ s ∈ allContrib m c)

/-- A name stored by the matrix: normalization (whitespace collapse and
lowercasing) fixes it, and it is non-empty. -/
def GoodName (s : String) : Prop := goToLower s = s ∧ collapse s = s ∧ s ≠ ""

/-- A state name that survives the writer's quoting and the reader's
underscore replacement. -/
def GoodStateName (s : String) : Prop :=
  GoodName s ∧ collapse (replaceUnderscore s) = s ∧ '\'' ∉ s.data ∧
  s ≠ NotApplicable ∧ s ≠ Unknown

/-- A character name that reads back to itself from its underscored,
quoted CHARSTATELABELS form. -/
def GoodCharName (c : String) : Prop :=
  GoodName c ∧ collapse (replaceUnderscore (underscoreName c)) = c ∧
  '\'' ∉ (underscoreName c).data

/-- A taxon name whose underscored TAXLABELS/MATRIX token reads back to
the taxon: canonical, one unquoted word, not a block-closing keyword. -/
def GoodTaxonName (t : String) : Prop :=
  canon t = t ∧ t ≠ "" ∧ underscoreName t ≠ "" ∧
  (∀ ch ∈ (underscoreName t).data, isWordChar ch) ∧
  goToLower (underscoreName t) ≠ "end" ∧ goToLower (underscoreName t) ≠ "endblock" ∧
  canon (collapse (replaceUnderscore (underscoreName t))) = t

/-- A well-formed stored observation map: non-empty, keyed by the
observation names, no `<unknown>`, `<na>` only alone, concrete states
drawn from the character's state set. -/
def GoodObsMap (m : Matrix) (c : String) (om : List (String × Observation)) : Prop :=
  om ≠ [] ∧ (om.map Prod.fst).Nodup ∧ (∀ p ∈ om, (p.2).name = p.1) ∧
  (∀ p ∈ om, p.1 ≠ Unknown) ∧
  ((∃ p ∈ om, p.1 = NotApplicable) → om.map Prod.fst = [NotApplicable]) ∧
  (∀ p ∈ om, p.1 ≠ NotApplicable → p.1 ∈ m.States c)

/-- A well-formed specimen entry: named by the reader's specimen-id rule
for its taxon, observing every character of the matrix and nothing
else. -/
def GoodSpecimen (m : Matrix) (ref : String) (p : String × Specimen) : Prop :=
  p.2.name = p.1 ∧ p.1 = skey ref p.2.taxon ∧ collapse p.1 = p.1 ∧ goToLower p.1 = p.1 ∧
  p.1 ≠ "" ∧
  GoodTaxonName p.2.taxon ∧
  (p.2.obs.map Prod.fst).Nodup ∧
  (∀ q ∈ p.2.obs, alookup q.1 m.chars ≠ none ∧ GoodObsMap m q.1 q.2) ∧
  (∀ pc ∈ m.chars, alookup pc.1 p.2.obs ≠ none)

/-- A well-formed character entry: named by its key, good state names,
between 1 and 16 concrete states, each observed by some specimen. -/
def GoodChar (m : Matrix) (p : String × Character) : Prop :=
  p.2.name = p.1 ∧ GoodCharName p.1 ∧ p.2.states.Nodup ∧ Unknown ∉ p.2.states ∧
  "" ∉ p.2.states ∧
  (∀ s ∈ p.2.states, s ≠ NotApplicable → GoodStateName s) ∧
  m.States p.1 ≠ [] ∧ (m.States p.1).length ≤ 16 ∧
  (∀ s ∈ p.2.states, s ≠ NotApplicable →
    ∃ q ∈ m.specs, s ∈ ((alookup p.1 q.2.obs).getD []).map Prod.fst)

/-- The canonical-for-`ref` matrices: the class on which the NEXUS
round-trip holds (the amended claim C1). -/
def NexusWF (ref : String) (m : Matrix) : Prop :=
  m.chars ≠ [] ∧ m.specs ≠ [] ∧
  (m.chars.map Prod.fst).Nodup ∧ (m.specs.map Prod.fst).Nodup ∧
  (m.specs.map (fun p => p.2.taxon)).Nodup ∧
  (∀ p ∈ m.chars, GoodChar m p) ∧
  (∀ p ∈ m.specs, GoodSpecimen m ref p)

instance (s : String) : Decidable (GoodName s) :=
  decidable_of_iff (goToLower s = s ∧ collapse s = s ∧ s ≠ "") Iff.rfl

instance (s : String) : Decidable (GoodStateName s) :=
  decidable_of_iff (GoodName s ∧ collapse (replaceUnderscore s) = s ∧ '\'' ∉ s.data ∧
    s ≠ NotApplicable ∧ s ≠ Unknown) Iff.rfl

instance (c : String) : Decidable (GoodCharName c) :=
  decidable_of_iff (GoodName c ∧ collapse (replaceUnderscore (underscoreName c)) = c ∧
    '\'' ∉ (underscoreName c).data) Iff.rfl

instance (t : String) : Decidable (GoodTaxonName t) :=
  decidable_of_iff (canon t = t ∧ t ≠ "" ∧ underscoreName t ≠ "" ∧
    (∀ ch ∈ (underscoreName t).data, isWordChar ch) ∧
    goToLower (underscoreName t) ≠ "end" ∧ goToLower (underscoreName t) ≠ "endblock" ∧
    canon (collapse (replaceUnderscore (underscoreName t))) = t) Iff.rfl

instance (m : Matrix) (c : String) (om : List (String × Observation)) :
    Decidable (GoodObsMap m c om) :=
  decidable_of_iff (om ≠ [] ∧ (om.map Prod.fst).Nodup ∧ (∀ p ∈ om, (p.2).name = p.1) ∧
    (∀ p ∈ om, p.1 ≠ Unknown) ∧
    ((∃ p ∈ om, p.1 = NotApplicable) → om.map Prod.fst = [NotApplicable]) ∧
    (∀ p ∈ om, p.1 ≠ NotApplicable → p.1 ∈ m.States c)) Iff.rfl

instance (m : Matrix) (ref : String) (p : String × Specimen) :
    Decidable (GoodSpecimen m ref p) :=
  decidable_of_iff (p.2.name = p.1 ∧ p.1 = skey ref p.2.taxon ∧ collapse p.1 = p.1 ∧
    goToLower p.1 = p.1 ∧ p.1 ≠ "" ∧ GoodTaxonName p.2.taxon ∧ (p.2.obs.map Prod.fst).Nodup ∧
    (∀ q ∈ p.2.obs, alookup q.1 m.chars ≠ none ∧ GoodObsMap m q.1 q.2) ∧
    (∀ pc ∈ m.chars, alookup pc.1 p.2.obs ≠ none)) Iff.rfl

instance (m : Matrix) (p : String × Character) : Decidable (GoodChar m p) :=
  decidable_of_iff (p.2.name = p.1 ∧ GoodCharName p.1 ∧ p.2.states.Nodup ∧
    Unknown ∉ p.2.states ∧ "" ∉ p.2.states ∧
    (∀ s ∈ p.2.states, s ≠ NotApplicable → GoodStateName s) ∧
    m.States p.1 ≠ [] ∧ (m.States p.1).length ≤ 16 ∧
    (∀ s ∈ p.2.states, s ≠ NotApplicable →
      ∃ q ∈ m.specs, s ∈ ((alookup p.1 q.2.obs).getD []).map Prod.fst)) Iff.rfl

instance (ref : String) (m : Matrix) : Decidable (NexusWF ref m) := by
  unfold NexusWF; infer_instance

/-! ## The net effect of the reader's per-state `Add`/`Set` pair -/

/-- The `Add`-then-`Set` pair the reader performs for every decoded
state (and for `<na>` cells). -/
def addObs (m : Matrix) (tax spec c s ref : String) : Matrix :=
  (m.Add tax spec c s).Set spec c s ref FieldReference

/-- The character-table update of one `Add`. -/
def charUpd (c s : String) (tab : List (String × Character)) : List (String × Character) :=
  match alookup c tab with
  | some ch => aset c { ch with states := insertState s ch.states } tab
  | none => aset c { name := c, states := insertState s [] } tab

/-- The wipe `Add` performs before keying a state into a cell's map:
`<na>` and no-observation sets are replaced by the empty map. -/
def wipeObs (s : String) (o₀ : List (String × Observation)) : List (String × Observation) :=
  if s = NotApplicable then [] else if isNoObservation o₀ then [] else o₀

/-- The observation-map update of one `Add`/`Set` pair on an existing
specimen. -/
def obsUpd (c s rr : String) (obs : List (String × List (String × Observation))) :
    List (String × List (String × Observation)) :=
  aset c (aset s (obsRecordR s rr) (wipeObs s ((alookup c obs).getD []))) obs

theorem aset_aset_same (k : String) (v w : α) (l : List (String × α)) :
    aset k v (aset k w l) = aset k v l := by
  induction l with
  | nil => simp [aset]
  | cons p rest ih =>
    obtain ⟨k', v'⟩ := p
    by_cases hk : k' = k
    · subst hk; simp [aset]
    · simp [aset, if_neg hk, ih]

/-- `Set` with every navigation step succeeding, on already-normalized
names. -/
theorem set_eq (m : Matrix) (spec c s ref : String) (sp : Specimen)
    (om : List (String × Observation)) (o : Observation)
    (hSc : collapse spec = spec) (hSl : goToLower spec = spec) (hSne : spec ≠ "")
    (hCc : collapse c = c) (hCl : goToLower c = c) (hCne : c ≠ "")
    (hsc : collapse s = s) (hsl : goToLower s = s) (hsne : s ≠ "")
    (h1 : alookup spec m.specs = some sp) (h2 : alookup c sp.obs = some om)
    (h3 : alookup s om = some o) :
    m.Set spec c s ref FieldReference =
      { m with
          specs := aset spec
            { sp with obs := aset c (aset s { o with ref := collapse ref } om) sp.obs }
            m.specs } := by
  rw [Matrix.Set]
  simp only [hSc, if_neg hSne, hSl, h1, hCc, if_neg hCne, hCl, h2, hsc, if_neg hsne,
    hsl, h3, Observation.setField, if_pos rfl, ite_true, reduceIte]

/-- The `Add` half of `addObs` on a matrix already holding the
specimen under the same taxon. -/
theorem add_eq_present (m : Matrix) (tax spec c s : String) (sp : Specimen)
    (hTc : canon tax = tax) (hTne : tax ≠ "")
    (hSc : collapse spec = spec) (hSl : goToLower spec = spec) (hSne : spec ≠ "")
    (hCc : collapse c = c) (hCl : goToLower c = c) (hCne : c ≠ "")
    (hsc : collapse s = s) (hsl : goToLower s = s) (hsne : s ≠ "")
    (hsu : s ≠ Unknown)
    (hsp : alookup spec m.specs = some sp) (htax : sp.taxon = tax) :
    m.Add tax spec c s =
      { chars := charUpd c s m.chars,
        specs := aset spec
          { sp with
              obs := aset c (aset s { name := s } (wipeObs s ((alookup c sp.obs).getD [])))
                sp.obs }
          m.specs } := by
  rw [Matrix.Add]
  simp only [hTc, if_neg hTne, hSc, if_neg hSne, hSl, hCc, if_neg hCne, hCl,
    hsc, if_neg hsne, hsl, hsp, htax]
  rw [if_neg (by simp), if_neg hsu]
  simp only [wipeObs, charUpd]
  cases halc : alookup c m.chars <;> rfl

/-- The `Add` half of `addObs` when the specimen does not exist yet. -/
theorem add_eq_new (m : Matrix) (tax spec c s : String)
    (hTc : canon tax = tax) (hTne : tax ≠ "")
    (hSc : collapse spec = spec) (hSl : goToLower spec = spec) (hSne : spec ≠ "")
    (hCc : collapse c = c) (hCl : goToLower c = c) (hCne : c ≠ "")
    (hsc : collapse s = s) (hsl : goToLower s = s) (hsne : s ≠ "")
    (hsu : s ≠ Unknown)
    (hsp : alookup spec m.specs = none) :
    m.Add tax spec c s =
      { chars := charUpd c s m.chars,
        specs := m.specs ++
          [(spec, { taxon := tax, name := spec,
                    obs := [(c, [(s, ({ name := s } : Observation))])] })] } := by
  rw [Matrix.Add]
  simp only [hTc, if_neg hTne, hSc, if_neg hSne, hSl, hCc, if_neg hCne, hCl,
    hsc, if_neg hsne, hsl, hsp]
  rw [if_neg (by simp), if_neg hsu]
  rw [aset_fresh_append _ hsp]
  have hobs : aset s ({ name := s } : Observation)
      (if s = NotApplicable then []
       else if isNoObservation ((alookup c ([] : List (String × List (String × Observation)))).getD []) then []
       else (alookup c ([] : List (String × List (String × Observation)))).getD [])
      = [(s, ({ name := s } : Observation))] := by
    by_cases hna : s = NotApplicable
    · simp [if_pos hna, aset]
    · simp [if_neg hna, isNoObservation, alookup, aset]
  simp only [alookup] at hobs ⊢
  rw [hobs]
  simp only [charUpd]
  cases halc : alookup c m.chars <;> rfl

/-- Effect of `addObs` on a matrix already holding the specimen under
the same taxon, with all names fixed by normalization. -/
theorem addObs_eq_present (m : Matrix) (tax spec c s ref : String) (sp : Specimen)
    (hTc : canon tax = tax) (hTne : tax ≠ "")
    (hSc : collapse spec = spec) (hSl : goToLower spec = spec) (hSne : spec ≠ "")
    (hCc : collapse c = c) (hCl : goToLower c = c) (hCne : c ≠ "")
    (hsc : collapse s = s) (hsl : goToLower s = s) (hsne : s ≠ "")
    (hsu : s ≠ Unknown)
    (hsp : alookup spec m.specs = some sp) (htax : sp.taxon = tax) :
    addObs m tax spec c s ref =
      { chars := charUpd c s m.chars,
        specs := aset spec { sp with obs := obsUpd c s (collapse ref) sp.obs } m.specs } := by
  rw [addObs,
    add_eq_present m tax spec c s sp hTc hTne hSc hSl hSne hCc hCl hCne hsc hsl hsne hsu
      hsp htax]
  rw [set_eq _ spec c s ref _ (aset s { name := s } (wipeObs s ((alookup c sp.obs).getD [])))
    { name := s } hSc hSl hSne hCc hCl hCne hsc hsl hsne (alookup_aset_self _ _ _)
    (alookup_aset_self _ _ _) (alookup_aset_self _ _ _)]
  rw [aset_aset_same, aset_aset_same, aset_aset_same]
  simp only [obsUpd, obsRecordR]

/-- Effect of `addObs` when the specimen does not yet exist: created
with the taxon, holding the one observation. -/
theorem addObs_eq_new (m : Matrix) (tax spec c s ref : String)
    (hTc : canon tax = tax) (hTne : tax ≠ "")
    (hSc : collapse spec = spec) (hSl : goToLower spec = spec) (hSne : spec ≠ "")
    (hCc : collapse c = c) (hCl : goToLower c = c) (hCne : c ≠ "")
    (hsc : collapse s = s) (hsl : goToLower s = s) (hsne : s ≠ "")
    (hsu : s ≠ Unknown)
    (hsp : alookup spec m.specs = none) :
    addObs m tax spec c s ref =
      { chars := charUpd c s m.chars,
        specs := m.specs ++
          [(spec, { taxon := tax, name := spec,
                    obs := [(c, [(s, obsRecordR s (collapse ref))])] })] } := by
  rw [addObs,
    add_eq_new m tax spec c s hTc hTne hSc hSl hSne hCc hCl hCne hsc hsl hsne hsu hsp]
  rw [set_eq _ spec c s ref
    { taxon := tax, name := spec, obs := [(c, [(s, ({ name := s } : Observation))])] }
    [(s, ({ name := s } : Observation))] { name := s } hSc hSl hSne hCc hCl hCne hsc hsl
    hsne ?_ ?_ ?_]
  · rw [aset_append_last _ _ hsp]
    simp [aset, obsRecordR]
  · show alookup spec (m.specs ++ [(spec, _)]) = _
    rw [alookup_append_none hsp]
    simp [alookup]
  · simp [alookup]
  · simp [alookup]

/-! ## The read-back character table, abstractly

`CharsInv tab f` says the table is keyed once per character, named by
its key, holding exactly (as a set) the states `f` has fed it. -/

def CharsInv (tab : List (String × Character)) (f : String → List String) : Prop :=
  (tab.map Prod.fst).Nodup ∧
  (∀ c, alookup c tab = none → f c = []) ∧
  (∀ c ch, alookup c tab = some ch → ch.name = c ∧ ch.states.Nodup ∧
    (∀ s, s ∈ ch.states ↔ s ∈ f c))

theorem alookup_of_mem_keys {l : List (String × α)} {k : String}
    (h : k ∈ l.map Prod.fst) : ∃ v, alookup k l = some v := by
  induction l with
  | nil => simp at h
  | cons p rest ih =>
    by_cases hk : p.1 = k
    · exact ⟨p.2, by simp [alookup, hk]⟩
    · simp only [List.map_cons, List.mem_cons] at h
      rcases h with h | h
      · exact absurd h.symm hk
      · obtain ⟨v, hv⟩ := ih h
        exact ⟨v, by simpa [alookup, hk] using hv⟩

theorem alookup_none_of_not_mem_keys {l : List (String × α)} {k : String}
    (h : k ∉ l.map Prod.fst) : alookup k l = none := by
  induction l with
  | nil => rfl
  | cons p rest ih =>
    obtain ⟨k', v'⟩ := p
    simp only [List.map_cons, List.mem_cons] at h
    push_neg at h
    simp only [alookup, if_neg (fun hh : k' = k => h.1 hh.symm)]
    exact ih h.2

theorem mem_keys_of_alookup {l : List (String × α)} {k : String} {v : α}
    (h : alookup k l = some v) : k ∈ l.map Prod.fst := by
  by_contra hk
  rw [alookup_none_of_not_mem_keys hk] at h
  exact Option.noConfusion h

theorem map_fst_aset_present {l : List (String × α)} {k : String} (v : α)
    (h : k ∈ l.map Prod.fst) : (aset k v l).map Prod.fst = l.map Prod.fst := by
  induction l with
  | nil => simp at h
  | cons p rest ih =>
    obtain ⟨k', v'⟩ := p
    by_cases hk : k' = k
    · subst hk; simp [aset]
    · simp only [List.map_cons, List.mem_cons] at h
      rcases h with h | h
      · exact absurd h.symm hk
      · simp [aset, if_neg hk, ih h]

theorem charsInv_upd {tab : List (String × Character)} {f : String → List String}
    (h : CharsInv tab f) (c s : String) :
    CharsInv (charUpd c s tab) (fun c' => if c' = c then f c' ++ [s] else f c') := by
  obtain ⟨hnd, hnone, hsome⟩ := h
  have haskeys : ∀ (ch : Character), ((aset c ch tab).map Prod.fst).Nodup := by
    intro ch
    by_cases hk : c ∈ tab.map Prod.fst
    · rw [map_fst_aset_present _ hk]; exact hnd
    · rw [aset_fresh_append _ (alookup_none_of_not_mem_keys hk)]
      simp only [List.map_append, List.map_cons, List.map_nil]
      exact List.Nodup.append hnd (List.nodup_singleton c) (by simpa using hk)
  have hlook : ∀ (ch : Character) (c' : String),
      alookup c' (aset c ch tab) = if c' = c then some ch else alookup c' tab := by
    intro ch c'
    by_cases hc : c' = c
    · subst hc; simp [alookup_aset_self]
    · simp [if_neg hc, alookup_aset_ne _ _ _ _ hc]
  cases hch : alookup c tab with
  | some ch =>
    obtain ⟨hname, hnd2, hmem⟩ := hsome c ch hch
    refine ⟨by simpa [charUpd, hch] using haskeys _, ?_, ?_⟩
    · intro q hq
      simp only [charUpd, hch, hlook] at hq
      by_cases hc : q = c
      · simp [hc] at hq
      · rw [if_neg hc] at hq
        simp only [if_neg hc]
        exact hnone q hq
    · intro q ch' hq
      simp only [charUpd, hch, hlook] at hq
      by_cases hc : q = c
      · subst hc
        rw [if_pos rfl] at hq
        obtain rfl := Option.some_injective _ hq.symm
        refine ⟨hname, insertState_nodup hnd2, ?_⟩
        intro x
        simp [mem_insertState, hmem]
      · rw [if_neg hc] at hq
        simpa only [if_neg hc] using hsome q ch' hq
  | none =>
    refine ⟨by simpa [charUpd, hch] using haskeys _, ?_, ?_⟩
    · intro q hq
      simp only [charUpd, hch, hlook] at hq
      by_cases hc : q = c
      · simp [hc] at hq
      · rw [if_neg hc] at hq
        simp only [if_neg hc]
        exact hnone q hq
    · intro q ch' hq
      simp only [charUpd, hch, hlook] at hq
      by_cases hc : q = c
      · subst hc
        rw [if_pos rfl] at hq
        obtain rfl := Option.some_injective _ hq.symm
        refine ⟨rfl, insertState_nodup List.nodup_nil, ?_⟩
        intro x
        simp [mem_insertState, hnone q hch]
      · rw [if_neg hc] at hq
        simpa only [if_neg hc] using hsome q ch' hq

/-- Pointwise-membership congruence for `CharsInv`. -/
theorem charsInv_congr {tab : List (String × Character)} {f g : String → List String}
    (h : CharsInv tab f) (hfg : ∀ c s, s ∈ f c ↔ s ∈ g c) : CharsInv tab g := by
  obtain ⟨hnd, hnone, hsome⟩ := h
  refine ⟨hnd, ?_, ?_⟩
  · intro c hc
    have hfc := hnone c hc
    cases hg : g c with
    | nil => rfl
    | cons x xs =>
      have : x ∈ f c := (hfg c x).2 (by simp [hg])
      rw [hfc] at this
      simp at this
  · intro c ch hc
    obtain ⟨h1, h2, h3⟩ := hsome c ch hc
    exact ⟨h1, h2, fun s => (h3 s).trans (hfg c s)⟩

/-! ## Folding a written cell's states back into the matrix -/

/-- A name fixed by the reader's normalization. -/
def NormId (s : String) : Prop := collapse s = s ∧ goToLower s = s ∧ s ≠ ""

/-- What a cell's name list looks like: either the lone `<na>` or a
list of distinct normalized concrete states. -/
def CellNamesOK (names : List String) : Prop :=
  names = [NotApplicable] ∨
  (names ≠ [] ∧ names.Nodup ∧
    ∀ s ∈ names, NormId s ∧ s ≠ NotApplicable ∧ s ≠ Unknown)

/-- The reader's per-cell loop: one `addObs` per decoded state. -/
def cellFold (tax spec c ref : String) (names : List String) (m : Matrix) : Matrix :=
  names.foldl (fun mm s => addObs mm tax spec c s ref) m

/-- Constructor shorthand for a specimen record. -/
def mkSpec (tax spec : String) (O : List (String × List (String × Observation))) :
    Specimen :=
  { taxon := tax, name := spec, obs := O }

/-- The character-table effect of one cell. -/
def charUpds (c : String) (names : List String) (tab : List (String × Character)) :
    List (String × Character) :=
  names.foldl (fun tb s => charUpd c s tb) tab

theorem alookup_cellObsMap_none {k : String} {names : List String} {rr : String}
    (h : k ∉ names) : alookup k (cellObsMap names rr) = none := by
  induction names with
  | nil => rfl
  | cons s rest ih =>
    simp only [List.mem_cons] at h
    push_neg at h
    simp only [cellObsMap, List.map_cons, alookup, if_neg (fun hh : s = k => h.1 hh.symm)]
    exact ih h.2

theorem isNoObservation_cellObsMap {names : List String} {rr : String}
    (hNA : NotApplicable ∉ names) (hUn : Unknown ∉ names) :
    isNoObservation (cellObsMap names rr) = false := by
  simp only [isNoObservation, alookup_cellObsMap_none hNA, alookup_cellObsMap_none hUn,
    Option.isSome_none, Bool.or_false]

theorem normId_na : NormId NotApplicable := by
  refine ⟨by decide, by decide, by decide⟩

/-- Extending an existing cell map with further concrete states. -/
theorem cellFold_ext (tax spec c ref : String) :
    ∀ (names done : List String) (tab : List (String × Character))
      (S₀ : List (String × Specimen)) (O : List (String × List (String × Observation))),
    canon tax = tax → tax ≠ "" → NormId spec → NormId c →
    (∀ s ∈ names, NormId s ∧ s ≠ NotApplicable ∧ s ≠ Unknown) →
    (∀ s ∈ names, s ∉ done) → names.Nodup →
    done ≠ [] → NotApplicable ∉ done → Unknown ∉ done →
    alookup spec S₀ = none → alookup c O = none →
    cellFold tax spec c ref names
      { chars := tab,
        specs := S₀ ++ [(spec, { taxon := tax, name := spec, obs := O ++ [(c, cellObsMap done (collapse ref))] })] } =
      { chars := charUpds c names tab,
        specs := S₀ ++ [(spec, { taxon := tax, name := spec, obs := O ++ [(c, cellObsMap (done ++ names) (collapse ref))] })] } := by
  intro names
  induction names with
  | nil =>
    intro done tab S₀ O _ _ _ _ _ _ _ _ _ _ _ _
    simp [cellFold, charUpds]
  | cons s rest ih =>
    intro done tab S₀ O htx htne hspn hcn hnames hdisj hnd hdone hdNA hdUn hS₀ hO
    obtain ⟨⟨hsc, hsl, hsne⟩, hsNA, hsUn⟩ := hnames s (List.mem_cons_self _ _)
    have hlookS : alookup spec
        (S₀ ++ [(spec, { taxon := tax, name := spec, obs := O ++ [(c, cellObsMap done (collapse ref))] })]) =
        some ({ taxon := tax, name := spec, obs := O ++ [(c, cellObsMap done (collapse ref))] }) := by
      rw [alookup_append_none hS₀]
      simp [alookup]
    have hstep := addObs_eq_present
      (Matrix.mk tab
        (S₀ ++ [(spec, { taxon := tax, name := spec, obs := O ++ [(c, cellObsMap done (collapse ref))] })]))
      tax spec c s ref ({ taxon := tax, name := spec, obs := O ++ [(c, cellObsMap done (collapse ref))] })
      htx htne hspn.1 hspn.2.1 hspn.2.2
      hcn.1 hcn.2.1 hcn.2.2 hsc hsl hsne hsUn hlookS rfl
    have hcell : obsUpd c s (collapse ref) (O ++ [(c, cellObsMap done (collapse ref))]) =
        O ++ [(c, cellObsMap (done ++ [s]) (collapse ref))] := by
      rw [obsUpd]
      rw [alookup_append_none hO]
      simp only [alookup, eq_self_iff_true, ite_true, reduceIte, Option.getD_some]
      rw [wipeObs, if_neg hsNA, isNoObservation_cellObsMap hdNA hdUn]
      simp only [Bool.false_eq_true, if_false, reduceIte]
      rw [aset_fresh_append _ (alookup_cellObsMap_none (hdisj s (List.mem_cons_self _ _)))]
      rw [aset_append_last _ _ hO]
      simp [cellObsMap]
    show cellFold tax spec c ref rest (addObs _ tax spec c s ref) = _
    rw [hstep]
    dsimp only []
    rw [hcell]
    rw [aset_append_last _ _ hS₀]
    have := ih (done ++ [s]) (charUpd c s tab) S₀ O htx htne hspn hcn
      (fun x hx => hnames x (List.mem_cons_of_mem _ hx))
      ?_ (List.nodup_cons.1 hnd).2 (by simp) ?_ ?_ hS₀ hO
    · rw [this]
      simp only [charUpds, List.foldl_cons, List.append_assoc, List.singleton_append]
    · intro x hx
      simp only [List.mem_append, List.mem_singleton]
      push_neg
      exact ⟨hdisj x (List.mem_cons_of_mem _ hx),
        fun hh => (List.nodup_cons.1 hnd).1 (hh ▸ hx)⟩
    · simp only [List.mem_append, List.mem_singleton]
      push_neg
      exact ⟨hdNA, fun hh => hsNA hh.symm⟩
    · simp only [List.mem_append, List.mem_singleton]
      push_neg
      exact ⟨hdUn, fun hh => hsUn hh.symm⟩

/-- A cell for a character the (existing) specimen has not observed
yet. -/
theorem cellFold_newcol (tax spec c ref : String) (names : List String)
    (tab : List (String × Character)) (S₀ : List (String × Specimen))
    (O : List (String × List (String × Observation)))
    (htx : canon tax = tax) (htne : tax ≠ "") (hspn : NormId spec) (hcn : NormId c)
    (hnames : CellNamesOK names)
    (hS₀ : alookup spec S₀ = none) (hO : alookup c O = none) :
    cellFold tax spec c ref names
      { chars := tab,
        specs := S₀ ++ [(spec, { taxon := tax, name := spec, obs := O })] } =
      { chars := charUpds c names tab,
        specs := S₀ ++ [(spec, { taxon := tax, name := spec, obs := O ++ [(c, cellObsMap names (collapse ref))] })] } := by
  have hlookS : alookup spec
      (S₀ ++ [(spec, { taxon := tax, name := spec, obs := O })]) = some ({ taxon := tax, name := spec, obs := O }) := by
    rw [alookup_append_none hS₀]
    simp [alookup, mkSpec]
  rcases hnames with hna | ⟨hne, hnd, hgood⟩
  · subst hna
    obtain ⟨hnac, hnal, hnane⟩ := normId_na
    have hstep := addObs_eq_present (Matrix.mk tab (S₀ ++ [(spec, { taxon := tax, name := spec, obs := O })]))
      tax spec c NotApplicable ref ({ taxon := tax, name := spec, obs := O }) htx htne hspn.1
      hspn.2.1 hspn.2.2 hcn.1 hcn.2.1 hcn.2.2 hnac hnal hnane (by decide) hlookS rfl
    show addObs _ tax spec c NotApplicable ref = _
    rw [hstep]
    dsimp only []
    rw [obsUpd, hO]
    simp only [Option.getD_none, wipeObs, if_pos rfl, ite_true, reduceIte]
    rw [aset_fresh_append _ hO, aset_append_last _ _ hS₀]
    simp [cellObsMap, charUpds, aset]
  · cases names with
    | nil => exact absurd rfl hne
    | cons s rest =>
      obtain ⟨⟨hsc, hsl, hsne⟩, hsNA, hsUn⟩ := hgood s (List.mem_cons_self _ _)
      have hstep := addObs_eq_present (Matrix.mk tab (S₀ ++ [(spec, { taxon := tax, name := spec, obs := O })]))
        tax spec c s ref ({ taxon := tax, name := spec, obs := O }) htx htne hspn.1 hspn.2.1
        hspn.2.2 hcn.1 hcn.2.1 hcn.2.2 hsc hsl hsne hsUn hlookS rfl
      show cellFold tax spec c ref rest (addObs _ tax spec c s ref) = _
      rw [hstep]
      dsimp only []
      rw [obsUpd, hO]
      simp only [Option.getD_none, wipeObs, if_neg hsNA, isNoObservation, alookup,
        Option.isSome_none, Bool.or_false, Bool.false_eq_true, if_false, reduceIte]
      rw [aset_fresh_append _ hO, aset_append_last _ _ hS₀]
      have hone : aset s (obsRecordR s (collapse ref)) [] = cellObsMap [s] (collapse ref) := by
        simp [aset, cellObsMap]
      rw [hone]
      rw [cellFold_ext tax spec c ref rest [s] (charUpd c s tab) S₀ O htx htne hspn hcn
        (fun x hx => hgood x (List.mem_cons_of_mem _ hx))
        (by intro x hx
            simp only [List.mem_singleton]
            exact fun hh => (List.nodup_cons.1 hnd).1 (hh ▸ hx))
        (List.nodup_cons.1 hnd).2 (by simp) (by simpa using fun hh => hsNA hh.symm)
        (by simpa using fun hh => hsUn hh.symm) hS₀ hO]
      simp only [charUpds, List.foldl_cons, List.singleton_append]

/-- A cell creating the row's specimen (the first cell of a row). -/
theorem cellFold_create (tax spec c ref : String) (names : List String)
    (tab : List (String × Character)) (specs₀ : List (String × Specimen))
    (htx : canon tax = tax) (htne : tax ≠ "") (hspn : NormId spec) (hcn : NormId c)
    (hnames : CellNamesOK names)
    (hS₀ : alookup spec specs₀ = none) :
    cellFold tax spec c ref names { chars := tab, specs := specs₀ } =
      { chars := charUpds c names tab,
        specs := specs₀ ++ [(spec, { taxon := tax, name := spec, obs := [(c, cellObsMap names (collapse ref))] })] } := by
  rcases hnames with hna | ⟨hne, hnd, hgood⟩
  · subst hna
    obtain ⟨hnac, hnal, hnane⟩ := normId_na
    have hstep := addObs_eq_new (Matrix.mk tab specs₀) tax spec c NotApplicable ref
      htx htne hspn.1
      hspn.2.1 hspn.2.2 hcn.1 hcn.2.1 hcn.2.2 hnac hnal hnane (by decide) hS₀
    show addObs _ tax spec c NotApplicable ref = _
    rw [hstep]
    dsimp only []
    simp [cellObsMap, charUpds]
  · cases names with
    | nil => exact absurd rfl hne
    | cons s rest =>
      obtain ⟨⟨hsc, hsl, hsne⟩, hsNA, hsUn⟩ := hgood s (List.mem_cons_self _ _)
      have hstep := addObs_eq_new (Matrix.mk tab specs₀) tax spec c s ref
        htx htne hspn.1 hspn.2.1
        hspn.2.2 hcn.1 hcn.2.1 hcn.2.2 hsc hsl hsne hsUn hS₀
      show cellFold tax spec c ref rest (addObs _ tax spec c s ref) = _
      rw [hstep]
      dsimp only []
      have hone : [(c, [(s, obsRecordR s (collapse ref))])] =
          ([] : List (String × List (String × Observation))) ++
            [(c, cellObsMap [s] (collapse ref))] := by
        simp [cellObsMap]
      rw [hone]
      rw [cellFold_ext tax spec c ref rest [s] (charUpd c s tab) specs₀ [] htx htne hspn hcn
        (fun x hx => hgood x (List.mem_cons_of_mem _ hx))
        (by intro x hx
            simp only [List.mem_singleton]
            exact fun hh => (List.nodup_cons.1 hnd).1 (hh ▸ hx))
        (List.nodup_cons.1 hnd).2 (by simp) (by simpa using fun hh => hsNA hh.symm)
        (by simpa using fun hh => hsUn hh.symm) hS₀ rfl]
      simp only [charUpds, List.foldl_cons, List.singleton_append, List.nil_append]

/-! ## Folding whole rows -/

/-- The reader's per-row loop, abstracted: one `cellFold` per column. -/
def cellsFold (tax spec ref : String) (P : List (String × List String)) (mm : Matrix) :
    Matrix :=
  P.foldl (fun mm p => cellFold tax spec p.1 ref p.2 mm) mm

/-- The character-table effect of a row. -/
def charUpdsP (P : List (String × List String)) (tab : List (String × Character)) :
    List (String × Character) :=
  P.foldl (fun tb p => charUpds p.1 p.2 tb) tab

/-- The observation table a row builds. -/
def cellObsMaps (P : List (String × List String)) (rr : String) :
    List (String × List (String × Observation)) :=
  P.map (fun p => (p.1, cellObsMap p.2 rr))

/-- Distinct normalized column names, each with a good cell. -/
def ColsOK (P : List (String × List String)) : Prop :=
  (P.map Prod.fst).Nodup ∧ ∀ p ∈ P, NormId p.1 ∧ CellNamesOK p.2

theorem alookup_append_single_none {l : List (String × α)} {q c : String} {v : α}
    (h1 : alookup q l = none) (h2 : c ≠ q) : alookup q (l ++ [(c, v)]) = none := by
  rw [alookup_append_none h1]
  simp [alookup, if_neg h2]

/-- A run of fresh columns on an existing specimen. -/
theorem cellsFold_ext (tax spec ref : String) :
    ∀ (P : List (String × List String)) (tab : List (String × Character))
      (S₀ : List (String × Specimen)) (O : List (String × List (String × Observation))),
    canon tax = tax → tax ≠ "" → NormId spec → ColsOK P →
    (∀ p ∈ P, alookup p.1 O = none) →
    alookup spec S₀ = none →
    cellsFold tax spec ref P
      { chars := tab, specs := S₀ ++ [(spec, { taxon := tax, name := spec, obs := O })] } =
      { chars := charUpdsP P tab,
        specs := S₀ ++
          [(spec, { taxon := tax, name := spec, obs := O ++ cellObsMaps P (collapse ref) })] } := by
  intro P
  induction P with
  | nil =>
    intro tab S₀ O _ _ _ _ _ _
    simp [cellsFold, charUpdsP, cellObsMaps]
  | cons p rest ih =>
    intro tab S₀ O htx htne hspn hcols hfresh hS₀
    obtain ⟨c, names⟩ := p
    obtain ⟨hknd, hgood⟩ := hcols
    obtain ⟨hcn, hnames⟩ := hgood (c, names) (List.mem_cons_self _ _)
    show cellsFold tax spec ref rest (cellFold tax spec c ref names _) = _
    rw [cellFold_newcol tax spec c ref names tab S₀ O htx htne hspn hcn hnames hS₀
      (hfresh (c, names) (List.mem_cons_self _ _))]
    rw [ih (charUpds c names tab) S₀ (O ++ [(c, cellObsMap names (collapse ref))]) htx htne
      hspn ⟨(List.nodup_cons.1 hknd).2, fun q hq => hgood q (List.mem_cons_of_mem _ hq)⟩
      ?_ hS₀]
    · simp [cellObsMaps, charUpdsP]
    · intro q hq
      refine alookup_append_single_none (hfresh q (List.mem_cons_of_mem _ hq)) ?_
      intro hh
      exact (List.nodup_cons.1 hknd).1 (hh ▸ (List.mem_map.2 ⟨q, hq, rfl⟩))

/-- A whole row from a fresh specimen. -/
theorem rowFold_eq (tax spec ref : String) (P : List (String × List String))
    (tab : List (String × Character)) (specs₀ : List (String × Specimen))
    (htx : canon tax = tax) (htne : tax ≠ "") (hspn : NormId spec)
    (hne : P ≠ []) (hcols : ColsOK P)
    (hS₀ : alookup spec specs₀ = none) :
    cellsFold tax spec ref P { chars := tab, specs := specs₀ } =
      { chars := charUpdsP P tab,
        specs := specs₀ ++
          [(spec, { taxon := tax, name := spec, obs := cellObsMaps P (collapse ref) })] } := by
  cases P with
  | nil => exact absurd rfl hne
  | cons p rest =>
    obtain ⟨c, names⟩ := p
    obtain ⟨hknd, hgood⟩ := hcols
    obtain ⟨hcn, hnames⟩ := hgood (c, names) (List.mem_cons_self _ _)
    show cellsFold tax spec ref rest (cellFold tax spec c ref names _) = _
    rw [cellFold_create tax spec c ref names tab specs₀ htx htne hspn hcn hnames hS₀]
    rw [show ([(c, cellObsMap names (collapse ref))] : List (String × List (String × Observation)))
        = [] ++ [(c, cellObsMap names (collapse ref))] from rfl]
    rw [cellsFold_ext tax spec ref rest (charUpds c names tab) specs₀
      ([] ++ [(c, cellObsMap names (collapse ref))]) htx htne hspn
      ⟨(List.nodup_cons.1 hknd).2, fun q hq => hgood q (List.mem_cons_of_mem _ hq)⟩
      ?_ hS₀]
    · simp [cellObsMaps, charUpdsP]
    · intro q hq
      refine alookup_append_single_none rfl ?_
      intro hh
      exact (List.nodup_cons.1 hknd).1 (hh ▸ (List.mem_map.2 ⟨q, hq, rfl⟩))

/-- The reader's whole MATRIX section, abstracted: one row per taxon. -/
def rowsFold (ref : String) (rows : List (String × List (String × List String)))
    (mm : Matrix) : Matrix :=
  rows.foldl (fun mm r => cellsFold r.1 (skey ref r.1) ref r.2 mm) mm

/-- The specimen entry one row contributes. -/
def rowEntry (ref : String) (r : String × List (String × List String)) :
    String × Specimen :=
  (skey ref r.1, { taxon := r.1, name := skey ref r.1, obs := cellObsMaps r.2 (collapse ref) })

theorem rowsFold_eq (ref : String) :
    ∀ (rows : List (String × List (String × List String)))
      (tab : List (String × Character)) (specs₀ : List (String × Specimen)),
    (∀ r ∈ rows, canon r.1 = r.1 ∧ r.1 ≠ "" ∧ NormId (skey ref r.1) ∧ r.2 ≠ [] ∧ ColsOK r.2) →
    (rows.map (fun r => skey ref r.1)).Nodup →
    (∀ r ∈ rows, alookup (skey ref r.1) specs₀ = none) →
    rowsFold ref rows { chars := tab, specs := specs₀ } =
      { chars := rows.foldl (fun tb r => charUpdsP r.2 tb) tab,
        specs := specs₀ ++ rows.map (rowEntry ref) } := by
  intro rows
  induction rows with
  | nil =>
    intro tab specs₀ _ _ _
    simp [rowsFold]
  | cons r rest ih =>
    intro tab specs₀ hrows hnd hfresh
    obtain ⟨htx, htne, hspn, hPne, hcols⟩ := hrows r (List.mem_cons_self _ _)
    show rowsFold ref rest (cellsFold r.1 (skey ref r.1) ref r.2 _) = _
    rw [rowFold_eq r.1 (skey ref r.1) ref r.2 tab specs₀ htx htne hspn hPne hcols
      (hfresh r (List.mem_cons_self _ _))]
    have hrec := ih (charUpdsP r.2 tab) (specs₀ ++ [rowEntry ref r])
      (fun q hq => hrows q (List.mem_cons_of_mem _ hq)) (List.nodup_cons.1 hnd).2 ?_
    · simp only [rowEntry] at hrec
      rw [hrec]
      simp only [List.map_cons, List.append_assoc, List.singleton_append, List.foldl_cons]
      rfl
    · intro q hq
      refine alookup_append_single_none (hfresh q (List.mem_cons_of_mem _ hq)) ?_
      intro hh
      refine (List.nodup_cons.1 hnd).1 ?_
      show skey ref r.1 ∈ List.map (fun r => skey ref r.1) rest
      rw [hh]
      exact List.mem_map.2 ⟨q, hq, rfl⟩

/-! ## The read-back character table: keys and contents -/

theorem map_fst_charUpd_present {tab : List (String × Character)} {c : String} (s : String)
    (h : c ∈ tab.map Prod.fst) : (charUpd c s tab).map Prod.fst = tab.map Prod.fst := by
  obtain ⟨ch, hch⟩ := alookup_of_mem_keys h
  simp only [charUpd, hch]
  exact map_fst_aset_present _ h

theorem map_fst_charUpd_new {tab : List (String × Character)} {c : String} (s : String)
    (h : c ∉ tab.map Prod.fst) :
    (charUpd c s tab).map Prod.fst = tab.map Prod.fst ++ [c] := by
  simp only [charUpd, alookup_none_of_not_mem_keys h]
  rw [aset_fresh_append _ (alookup_none_of_not_mem_keys h)]
  simp

theorem map_fst_charUpds_present {tab : List (String × Character)} {c : String}
    (names : List String) (h : c ∈ tab.map Prod.fst) :
    (charUpds c names tab).map Prod.fst = tab.map Prod.fst := by
  induction names generalizing tab with
  | nil => rfl
  | cons s rest ih =>
    show (charUpds c rest (charUpd c s tab)).map Prod.fst = _
    rw [ih (show c ∈ (charUpd c s tab).map Prod.fst from by
        rw [map_fst_charUpd_present s h]; exact h),
      map_fst_charUpd_present s h]

theorem map_fst_charUpds_new {tab : List (String × Character)} {c : String}
    {names : List String} (h : c ∉ tab.map Prod.fst) (hne : names ≠ []) :
    (charUpds c names tab).map Prod.fst = tab.map Prod.fst ++ [c] := by
  cases names with
  | nil => exact absurd rfl hne
  | cons s rest =>
    show (charUpds c rest (charUpd c s tab)).map Prod.fst = _
    rw [map_fst_charUpds_present rest (by rw [map_fst_charUpd_new s h]; simp),
      map_fst_charUpd_new s h]

theorem map_fst_charUpdsP_new {tab : List (String × Character)} :
    ∀ {P : List (String × List String)}, (∀ p ∈ P, p.1 ∉ tab.map Prod.fst) →
    (∀ p ∈ P, p.2 ≠ []) → (P.map Prod.fst).Nodup →
    (charUpdsP P tab).map Prod.fst = tab.map Prod.fst ++ P.map Prod.fst := by
  intro P
  induction P generalizing tab with
  | nil => intro _ _ _; simp [charUpdsP]
  | cons p rest ih =>
    intro hfresh hne hnd
    show (charUpdsP rest (charUpds p.1 p.2 tab)).map Prod.fst = _
    rw [ih ?_ (fun q hq => hne q (List.mem_cons_of_mem _ hq)) (List.nodup_cons.1 hnd).2]
    · rw [map_fst_charUpds_new (hfresh p (List.mem_cons_self _ _))
        (hne p (List.mem_cons_self _ _))]
      simp
    · intro q hq
      rw [map_fst_charUpds_new (hfresh p (List.mem_cons_self _ _))
        (hne p (List.mem_cons_self _ _))]
      simp only [List.mem_append, List.mem_singleton]
      push_neg
      refine ⟨hfresh q (List.mem_cons_of_mem _ hq), ?_⟩
      intro hh
      exact (List.nodup_cons.1 hnd).1 (hh ▸ List.mem_map.2 ⟨q, hq, rfl⟩)

theorem map_fst_charUpdsP_present {tab : List (String × Character)} :
    ∀ {P : List (String × List String)}, (∀ p ∈ P, p.1 ∈ tab.map Prod.fst) →
    (charUpdsP P tab).map Prod.fst = tab.map Prod.fst := by
  intro P
  induction P generalizing tab with
  | nil => intro _; rfl
  | cons p rest ih =>
    intro hmem
    show (charUpdsP rest (charUpds p.1 p.2 tab)).map Prod.fst = _
    rw [ih ?_, map_fst_charUpds_present _ (hmem p (List.mem_cons_self _ _))]
    intro q hq
    rw [map_fst_charUpds_present _ (hmem p (List.mem_cons_self _ _))]
    exact hmem q (List.mem_cons_of_mem _ hq)

theorem map_fst_rowsChars {C : List String} :
    ∀ (rows : List (String × List (String × List String)))
      (tab : List (String × Character)),
    (∀ r ∈ rows, r.2.map Prod.fst = C) → tab.map Prod.fst = C →
    (rows.foldl (fun tb r => charUpdsP r.2 tb) tab).map Prod.fst = C := by
  intro rows
  induction rows with
  | nil => intro tab _ h; simpa using h
  | cons r rest ih =>
    intro tab hrows htab
    show (rest.foldl (fun tb r => charUpdsP r.2 tb) (charUpdsP r.2 tab)).map Prod.fst = C
    refine ih _ (fun q hq => hrows q (List.mem_cons_of_mem _ hq)) ?_
    rw [map_fst_charUpdsP_present ?_]
    · exact htab
    · intro q hq
      rw [htab, ← hrows r (List.mem_cons_self _ _)]
      exact List.mem_map.2 ⟨q, hq, rfl⟩

/-- The states a row feeds into one character. -/
def contribP (P : List (String × List String)) (c : String) : List String :=
  P.flatMap (fun p => if p.1 = c then p.2 else [])

theorem charsInv_charUpds {tab : List (String × Character)} {f : String → List String}
    (h : CharsInv tab f) (c : String) (names : List String) :
    CharsInv (charUpds c names tab) (fun q => if q = c then f q ++ names else f q) := by
  induction names generalizing tab f with
  | nil =>
    refine charsInv_congr h ?_
    intro q s
    by_cases hq : q = c <;> simp [hq]
  | cons x rest ih =>
    have h1 := charsInv_upd h c x
    have h2 := ih h1
    refine charsInv_congr h2 ?_
    intro q s
    by_cases hq : q = c <;> simp [hq]

theorem charsInv_charUpdsP {tab : List (String × Character)} {f : String → List String}
    (h : CharsInv tab f) (P : List (String × List String)) :
    CharsInv (charUpdsP P tab) (fun q => f q ++ contribP P q) := by
  induction P generalizing tab f with
  | nil =>
    refine charsInv_congr h ?_
    intro q s
    simp [contribP]
  | cons p rest ih =>
    have h1 := charsInv_charUpds h p.1 p.2
    have h2 := ih h1
    refine charsInv_congr h2 ?_
    intro q s
    by_cases hq : q = p.1
    · subst hq
      simp [contribP, List.mem_append, or_assoc]
    · have hpq : p.1 ≠ q := fun hh => hq hh.symm
      simp [contribP, List.mem_append, hq, hpq]

theorem charsInv_rowsChars {f : String → List String} :
    ∀ (rows : List (String × List (String × List String)))
      (tab : List (String × Character)),
    CharsInv tab f →
    CharsInv (rows.foldl (fun tb r => charUpdsP r.2 tb) tab)
      (fun q => f q ++ rows.flatMap (fun r => contribP r.2 q)) := by
  intro rows
  induction rows generalizing f with
  | nil =>
    intro tab h
    refine charsInv_congr h ?_
    intro q s
    simp
  | cons r rest ih =>
    intro tab h
    have h1 := charsInv_charUpdsP h r.2
    have h2 := ih _ h1
    refine charsInv_congr h2 ?_
    intro q s
    simp [List.mem_append, or_assoc]

theorem charsInv_nil : CharsInv [] (fun _ => []) := by
  refine ⟨List.nodup_nil, fun c _ => rfl, fun c ch hc => ?_⟩
  simp [alookup] at hc

/-! ## Facts the class gives about a well-formed matrix -/

theorem alookup_of_mem_nodup {l : List (String × α)} {p : String × α} (hp : p ∈ l)
    (hnd : (l.map Prod.fst).Nodup) : alookup p.1 l = some p.2 := by
  induction l with
  | nil => simp at hp
  | cons q rest ih =>
    simp only [List.map_cons, List.nodup_cons] at hnd
    rcases List.mem_cons.1 hp with rfl | hp
    · simp [alookup]
    · have hne : q.1 ≠ p.1 := by
        intro hh
        exact hnd.1 (hh ▸ List.mem_map.2 ⟨p, hp, rfl⟩)
      simp only [alookup, if_neg hne]
      exact ih hp hnd.2

theorem wf_chars_map_name {ref : String} {m : Matrix} (hwf : NexusWF ref m) :
    m.chars.map (fun p => p.2.name) = m.chars.map Prod.fst :=
  List.map_congr_left (fun p hp => ((hwf.2.2.2.2.2.1 p hp).1 : p.2.name = p.1))

theorem wf_Chars_eq {ref : String} {m : Matrix} (hwf : NexusWF ref m) :
    m.Chars = sortStrs (m.chars.map Prod.fst) := by
  rw [Matrix.Chars, wf_chars_map_name hwf]

theorem wf_Chars_nodup {ref : String} {m : Matrix} (hwf : NexusWF ref m) :
    m.Chars.Nodup := by
  rw [wf_Chars_eq hwf]
  exact sortStrs_nodup hwf.2.2.1

theorem wf_mem_Chars {ref : String} {m : Matrix} (hwf : NexusWF ref m) {c : String} :
    c ∈ m.Chars ↔ c ∈ m.chars.map Prod.fst := by
  rw [wf_Chars_eq hwf, mem_sortStrs]

theorem wf_Chars_ne_nil {ref : String} {m : Matrix} (hwf : NexusWF ref m) :
    m.Chars ≠ [] := by
  rw [wf_Chars_eq hwf]
  refine sortStrs_ne_nil ?_
  have := hwf.1
  cases hch : m.chars with
  | nil => exact absurd hch this
  | cons p rest => simp [hch]

theorem wf_char_entry {ref : String} {m : Matrix} (hwf : NexusWF ref m) {c : String}
    (hc : c ∈ m.Chars) : ∃ ch, alookup c m.chars = some ch ∧ GoodChar m (c, ch) := by
  obtain ⟨ch, hch⟩ := alookup_of_mem_keys ((wf_mem_Chars hwf).1 hc)
  exact ⟨ch, hch, hwf.2.2.2.2.2.1 (c, ch) (alookup_mem hch)⟩

theorem wf_NormId_char {ref : String} {m : Matrix} (hwf : NexusWF ref m) {c : String}
    (hc : c ∈ m.Chars) : NormId c := by
  obtain ⟨ch, _, hgood⟩ := wf_char_entry hwf hc
  obtain ⟨⟨hl, hcol, hne⟩, _, _⟩ := hgood.2.1
  exact ⟨hcol, hl, hne⟩

theorem wf_States_eq {ref : String} {m : Matrix} (hwf : NexusWF ref m) {c : String}
    {ch : Character} (hc : c ∈ m.Chars) (hch : alookup c m.chars = some ch) :
    m.States c = sortStrs (ch.states.filter (fun s => s ≠ NotApplicable)) := by
  obtain ⟨hcol, hl, hne⟩ := wf_NormId_char hwf hc
  rw [Matrix.States]
  simp only [hcol, if_neg hne, hl, hch]

theorem wf_mem_States {ref : String} {m : Matrix} (hwf : NexusWF ref m) {c : String}
    {ch : Character} {s : String} (hc : c ∈ m.Chars) (hch : alookup c m.chars = some ch) :
    s ∈ m.States c ↔ s ∈ ch.states ∧ s ≠ NotApplicable := by
  rw [wf_States_eq hwf hc hch, mem_sortStrs, List.mem_filter]
  simp

theorem wf_States_nodup {ref : String} {m : Matrix} (hwf : NexusWF ref m) {c : String}
    (hc : c ∈ m.Chars) : (m.States c).Nodup := by
  obtain ⟨ch, hch, hgood⟩ := wf_char_entry hwf hc
  rw [wf_States_eq hwf hc hch]
  exact sortStrs_nodup (List.Nodup.filter _ hgood.2.2.1)

theorem wf_GoodStateName {ref : String} {m : Matrix} (hwf : NexusWF ref m) {c s : String}
    (hc : c ∈ m.Chars) (hs : s ∈ m.States c) : GoodStateName s := by
  obtain ⟨ch, hch, hgood⟩ := wf_char_entry hwf hc
  obtain ⟨hmem, hna⟩ := (wf_mem_States hwf hc hch).1 hs
  exact hgood.2.2.2.2.2.1 s hmem hna

theorem wf_taxa_perm {ref : String} {m : Matrix} (hwf : NexusWF ref m) :
    m.Taxa.Perm (m.specs.map (fun p => p.2.taxon)) := by
  rw [Matrix.Taxa, listToSet_eq_self hwf.2.2.2.2.1]
  exact sortStrs_perm _

theorem wf_mem_Taxa {ref : String} {m : Matrix} (hwf : NexusWF ref m) {t : String} :
    t ∈ m.Taxa ↔ ∃ p ∈ m.specs, p.2.taxon = t := by
  rw [(wf_taxa_perm hwf).mem_iff]
  simp [List.mem_map, eq_comm]

theorem wf_Taxa_nodup {ref : String} {m : Matrix} (hwf : NexusWF ref m) :
    m.Taxa.Nodup :=
  ((wf_taxa_perm hwf).nodup_iff).2 hwf.2.2.2.2.1

theorem wf_Taxa_ne_nil {ref : String} {m : Matrix} (hwf : NexusWF ref m) :
    m.Taxa ≠ [] := by
  rw [Matrix.Taxa]
  refine sortStrs_ne_nil ?_
  have := hwf.2.1
  cases hch : m.specs with
  | nil => exact absurd hch this
  | cons p rest =>
    intro hh
    have hmem : p.2.taxon ∈ listToSet (m.specs.map (fun p => p.2.taxon)) := by
      rw [mem_listToSet]
      exact List.mem_map.2 ⟨p, by simp [hch], rfl⟩
    rw [hch, hh] at hmem
    simp at hmem

theorem wf_spec_of_taxon {ref : String} {m : Matrix} (hwf : NexusWF ref m) {t : String}
    (ht : t ∈ m.Taxa) :
    ∃ p ∈ m.specs, p.2.taxon = t ∧ GoodSpecimen m ref p := by
  obtain ⟨p, hp, hpt⟩ := (wf_mem_Taxa hwf).1 ht
  exact ⟨p, hp, hpt, hwf.2.2.2.2.2.2 p hp⟩

theorem wf_GoodTaxonName {ref : String} {m : Matrix} (hwf : NexusWF ref m) {t : String}
    (ht : t ∈ m.Taxa) : GoodTaxonName t := by
  obtain ⟨p, _, hpt, hgood⟩ := wf_spec_of_taxon hwf ht
  exact hpt ▸ hgood.2.2.2.2.2.1

theorem wf_spec_lookup {ref : String} {m : Matrix} (hwf : NexusWF ref m) {t : String}
    (ht : t ∈ m.Taxa) :
    ∃ sp, alookup (skey ref t) m.specs = some sp ∧ sp.taxon = t ∧
      sp.name = skey ref t ∧ GoodSpecimen m ref (skey ref t, sp) := by
  obtain ⟨p, hp, hpt, hgood⟩ := wf_spec_of_taxon hwf ht
  have hkey : p.1 = skey ref t := by rw [hgood.2.1, hpt]
  have hlook := alookup_of_mem_nodup hp hwf.2.2.2.1
  rw [hkey] at hlook
  refine ⟨p.2, hlook, hpt, by rw [hgood.1, hkey], ?_⟩
  have : (skey ref t, p.2) = p := by
    rw [← hkey]
  rw [this]
  exact hgood

theorem wf_skey_norm {ref : String} {m : Matrix} (hwf : NexusWF ref m) {t : String}
    (ht : t ∈ m.Taxa) : NormId (skey ref t) := by
  obtain ⟨sp, _, _, _, hgood⟩ := wf_spec_lookup hwf ht
  exact ⟨hgood.2.2.1, hgood.2.2.2.1, hgood.2.2.2.2.1⟩

theorem wf_skeys_nodup {ref : String} {m : Matrix} (hwf : NexusWF ref m) :
    (m.Taxa.map (skey ref)).Nodup := by
  have hperm := (wf_taxa_perm hwf).map (skey ref)
  rw [List.map_map] at hperm
  refine hperm.nodup_iff.2 ?_
  have heq : m.specs.map (skey ref ∘ fun p => p.2.taxon) = m.specs.map Prod.fst := by
    refine List.map_congr_left ?_
    intro p hp
    show skey ref p.2.taxon = p.1
    exact ((hwf.2.2.2.2.2.2 p hp).2.1).symm
  rw [heq]
  exact hwf.2.2.2.1

theorem filter_taxon_singleton :
    ∀ (l : List (String × Specimen)) (p : String × Specimen) (t : String),
    p ∈ l → p.2.taxon = t → (l.map (fun q => q.2.taxon)).Nodup →
    l.filter (fun q => q.2.taxon = t) = [p] := by
  intro l
  induction l with
  | nil => intro p t hp _ _; simp at hp
  | cons q rest ih =>
    intro p t hp hpt hnd
    simp only [List.map_cons, List.nodup_cons] at hnd
    rcases List.mem_cons.1 hp with rfl | hp2
    · rw [List.filter_cons_of_pos (by simpa using hpt)]
      congr 1
      rw [List.filter_eq_nil_iff]
      intro x hx
      simp only [decide_eq_true_eq]
      intro hh
      exact hnd.1 (by rw [hpt, ← hh]; exact List.mem_map.2 ⟨x, hx, rfl⟩)
    · rw [List.filter_cons_of_neg ?_]
      · exact ih p t hp2 hpt hnd.2
      · simp only [decide_eq_true_eq]
        intro hh
        rw [← hpt] at hh
        exact hnd.1 (by rw [hh]; exact List.mem_map.2 ⟨p, hp2, rfl⟩)

theorem wf_TaxSpec {ref : String} {m : Matrix} (hwf : NexusWF ref m) {t : String}
    (ht : t ∈ m.Taxa) : m.TaxSpec t = [skey ref t] := by
  obtain ⟨p, hp, hpt, hgood⟩ := wf_spec_of_taxon hwf ht
  have hcanon : canon t = t := (wf_GoodTaxonName hwf ht).1
  simp only [Matrix.TaxSpec, hcanon]
  rw [filter_taxon_singleton m.specs p t hp hpt hwf.2.2.2.2.1]
  simp only [List.map_cons, List.map_nil]
  rw [hgood.1, hgood.2.1, hpt, sortStrs_singleton]

/-! ## What a well-formed matrix writes into each cell -/

theorem fold_skip_sentinels : ∀ (L acc : List String), NotApplicable ∉ L → Unknown ∉ L →
    L.foldl (fun acc o => if o = NotApplicable then acc
      else if o = Unknown then acc else insertState o acc) acc
      = L.foldl (fun acc t => insertState t acc) acc := by
  intro L
  induction L with
  | nil => intro acc _ _; rfl
  | cons x rest ih =>
    intro acc hna hun
    simp only [List.mem_cons] at hna hun
    push_neg at hna hun
    simp only [List.foldl_cons, if_neg (fun hh : x = NotApplicable => hna.1 hh.symm),
      if_neg (fun hh : x = Unknown => hun.1 hh.symm)]
    exact ih _ hna.2 hun.2

theorem cellStates_single (m : Matrix) (spec c : String) :
    cellStates m [spec] c = (m.Obs spec c).foldl (fun acc o =>
      if o = NotApplicable then acc
      else if o = Unknown then acc else insertState o acc) [] := rfl

theorem wf_Obs_eq {ref : String} {m : Matrix} (hwf : NexusWF ref m) {t c : String}
    (ht : t ∈ m.Taxa) (hc : c ∈ m.Chars) :
    ∃ sp om, alookup (skey ref t) m.specs = some sp ∧ sp.taxon = t ∧
      alookup c sp.obs = some om ∧ GoodObsMap m c om ∧
      m.Obs (skey ref t) c = sortStrs (om.map Prod.fst) := by
  obtain ⟨sp, hsp, hspt, hspn, hgood⟩ := wf_spec_lookup hwf ht
  obtain ⟨ch, hch, _⟩ := wf_char_entry hwf hc
  have hobs : alookup c sp.obs ≠ none := by
    have := hgood.2.2.2.2.2.2.2.2 (c, ch) (alookup_mem hch)
    simpa using this
  cases hco : alookup c sp.obs with
  | none => exact absurd hco hobs
  | some om =>
    have hgoodom : GoodObsMap m c om :=
      (hgood.2.2.2.2.2.2.2.1 (c, om) (alookup_mem hco)).2
    refine ⟨sp, om, hsp, hspt, hco, hgoodom, ?_⟩
    obtain ⟨hkc, hkl, hkne⟩ := wf_skey_norm hwf ht
    obtain ⟨hcc, hcl, hcne⟩ := wf_NormId_char hwf hc
    rw [Matrix.Obs]
    simp only [hkc, if_neg hkne, hkl, hsp, hcc, if_neg hcne, hcl, hco]
    congr 1
    exact List.map_congr_left (fun p hp => hgoodom.2.2.1 p hp)

theorem wf_cell {ref : String} {m : Matrix} (hwf : NexusWF ref m) {t c : String}
    (ht : t ∈ m.Taxa) (hc : c ∈ m.Chars) :
    ∃ sp om, alookup (skey ref t) m.specs = some sp ∧ sp.taxon = t ∧
      alookup c sp.obs = some om ∧ GoodObsMap m c om ∧
      CellNamesOK (cellNames m (m.TaxSpec t) c) ∧
      (∀ s, s ∈ cellNames m (m.TaxSpec t) c ↔ s ∈ om.map Prod.fst) ∧
      (cellNames m (m.TaxSpec t) c).Nodup := by
  obtain ⟨sp, om, hsp, hspt, hco, hgoodom, hobs⟩ := wf_Obs_eq hwf ht hc
  refine ⟨sp, om, hsp, hspt, hco, hgoodom, ?_⟩
  rw [wf_TaxSpec hwf ht]
  by_cases hna : NotApplicable ∈ om.map Prod.fst
  · have hkeys : om.map Prod.fst = [NotApplicable] := by
      obtain ⟨p, hp, hp1⟩ := List.mem_map.1 hna
      exact hgoodom.2.2.2.2.1 ⟨p, hp, hp1⟩
    have hobsna : m.Obs (skey ref t) c = [NotApplicable] := by
      rw [hobs, hkeys, sortStrs_singleton]
    have hcs : cellStates m [skey ref t] c = [] := by
      rw [cellStates_single, hobsna]
      simp [insertState]
    have hcn : cellNames m [skey ref t] c = [NotApplicable] := by
      rw [cellNames, if_pos hcs]
    rw [hcn]
    refine ⟨Or.inl rfl, ?_, List.nodup_singleton _⟩
    intro s
    rw [hkeys]
  · have hun : Unknown ∉ om.map Prod.fst := by
      intro hh
      obtain ⟨p, hp, hp1⟩ := List.mem_map.1 hh
      exact hgoodom.2.2.2.1 p hp hp1
    have hnaL : NotApplicable ∉ sortStrs (om.map Prod.fst) := by
      rw [mem_sortStrs]; exact hna
    have hunL : Unknown ∉ sortStrs (om.map Prod.fst) := by
      rw [mem_sortStrs]; exact hun
    have hndL : (sortStrs (om.map Prod.fst)).Nodup := sortStrs_nodup hgoodom.2.1
    have hcs : cellStates m [skey ref t] c = sortStrs (om.map Prod.fst) := by
      rw [cellStates_single, hobs, fold_skip_sentinels _ _ hnaL hunL]
      exact listToSet_eq_self hndL
    have hkeysne : om.map Prod.fst ≠ [] := by
      have := hgoodom.1
      cases hom : om with
      | nil => exact absurd hom this
      | cons p rest => simp [hom]
    have hcsne : cellStates m [skey ref t] c ≠ [] := by
      rw [hcs]; exact sortStrs_ne_nil hkeysne
    have hsub : ∀ s ∈ om.map Prod.fst, s ∈ m.States c := by
      intro s hs
      obtain ⟨p, hp, hp1⟩ := List.mem_map.1 hs
      rw [← hp1]
      refine hgoodom.2.2.2.2.2 p hp ?_
      intro hh
      exact hna (List.mem_map.2 ⟨p, hp, hh⟩)
    have hmemfilter : ∀ s, s ∈ cellNames m [skey ref t] c ↔ s ∈ om.map Prod.fst := by
      intro s
      rw [cellNames, if_neg hcsne, List.mem_filter]
      constructor
      · rintro ⟨_, hmem⟩
        rw [hcs] at hmem
        rw [← mem_sortStrs]
        simpa using hmem
      · intro hs
        refine ⟨hsub s hs, ?_⟩
        rw [hcs]
        simpa using (mem_sortStrs s _).2 hs
    refine ⟨?_, hmemfilter, ?_⟩
    · refine Or.inr ⟨?_, ?_, ?_⟩
      · obtain ⟨k, hk⟩ := List.exists_mem_of_ne_nil _ hkeysne
        exact List.ne_nil_of_mem ((hmemfilter k).2 hk)
      · rw [cellNames, if_neg hcsne]
        exact List.Nodup.filter _ (wf_States_nodup hwf hc)
      · intro s hs
        have hsS : s ∈ m.States c := by
          rw [cellNames, if_neg hcsne, List.mem_filter] at hs
          exact hs.1
        obtain ⟨⟨hgl, hgc, hgne⟩, _, _, hgna, hgun⟩ := wf_GoodStateName hwf hc hsS
        exact ⟨⟨hgc, hgl, hgne⟩, hgna, hgun⟩
    · rw [cellNames, if_neg hcsne]
      exact List.Nodup.filter _ (wf_States_nodup hwf hc)

/-! ## The read-back matrix of a well-formed matrix -/

/-- The (column, cell names) list of one row. -/
def colsOf (m : Matrix) (t : String) : List (String × List String) :=
  m.Chars.map (fun c => (c, cellNames m (m.TaxSpec t) c))

/-- One row per taxon. -/
def rowsOf (m : Matrix) : List (String × List (String × List String)) :=
  m.Taxa.map (fun t => (t, colsOf m t))

/-- The character table the reader's MATRIX section builds. -/
def readChars (m : Matrix) : List (String × Character) :=
  (rowsOf m).foldl (fun tb r => charUpdsP r.2 tb) []

theorem cellNamesOK_ne_nil {names : List String} (h : CellNamesOK names) : names ≠ [] := by
  rcases h with h | ⟨h, _, _⟩
  · rw [h]; simp
  · exact h

theorem map_fst_colsOf (m : Matrix) (t : String) :
    (colsOf m t).map Prod.fst = m.Chars := by
  rw [colsOf, List.map_map]
  show m.Chars.map (fun c => c) = m.Chars
  simp

theorem mem_rowsOf {m : Matrix} {r : String × List (String × List String)}
    (hr : r ∈ rowsOf m) : r.1 ∈ m.Taxa ∧ r.2 = colsOf m r.1 := by
  obtain ⟨t, ht, rfl⟩ := List.mem_map.1 hr
  exact ⟨ht, rfl⟩

theorem wf_ColsOK {ref : String} {m : Matrix} (hwf : NexusWF ref m) {t : String}
    (ht : t ∈ m.Taxa) : ColsOK (colsOf m t) := by
  refine ⟨by rw [map_fst_colsOf]; exact wf_Chars_nodup hwf, ?_⟩
  intro p hp
  obtain ⟨c, hc, rfl⟩ := List.mem_map.1 hp
  obtain ⟨_, _, _, _, _, _, hok, _, _⟩ := wf_cell hwf ht hc
  exact ⟨wf_NormId_char hwf hc, hok⟩

theorem wf_readSpecs {ref : String} {m : Matrix} (hwf : NexusWF ref m) :
    rowsFold ref (rowsOf m) Matrix.New =
      { chars := readChars m, specs := expSpecs m ref } := by
  have hrows : ∀ r ∈ rowsOf m, canon r.1 = r.1 ∧ r.1 ≠ "" ∧ NormId (skey ref r.1) ∧
      r.2 ≠ [] ∧ ColsOK r.2 := by
    intro r hr
    obtain ⟨ht, hcols⟩ := mem_rowsOf hr
    obtain ⟨hc1, hc2, _⟩ := wf_GoodTaxonName hwf ht
    refine ⟨hc1, hc2, wf_skey_norm hwf ht, ?_, hcols ▸ wf_ColsOK hwf ht⟩
    rw [hcols, colsOf]
    intro hh
    exact wf_Chars_ne_nil hwf (List.map_eq_nil_iff.1 hh)
  have hnd : ((rowsOf m).map (fun r => skey ref r.1)).Nodup := by
    have : (rowsOf m).map (fun r => skey ref r.1) = m.Taxa.map (skey ref) := by
      simp [rowsOf, List.map_map, Function.comp]
    rw [this]
    exact wf_skeys_nodup hwf
  have hmain := rowsFold_eq ref (rowsOf m) [] [] hrows hnd (fun r _ => rfl)
  rw [show Matrix.New = Matrix.mk [] [] from rfl]
  rw [hmain]
  rw [show ((rowsOf m).foldl (fun tb r => charUpdsP r.2 tb) []) = readChars m from rfl]
  congr 1
  rw [List.nil_append]
  rw [rowsOf, List.map_map, expSpecs]
  refine List.map_congr_left ?_
  intro t ht
  show rowEntry ref (t, colsOf m t) = (skey ref t, expSpec m ref t)
  rw [rowEntry, expSpec, rowObsMap]
  simp only [cellObsMaps, colsOf, List.map_map]
  rfl

theorem contribP_map : ∀ (L : List String) (g : String → List String) (c : String),
    L.Nodup → contribP (L.map (fun x => (x, g x))) c = if c ∈ L then g c else [] := by
  intro L
  induction L with
  | nil => intro g c _; simp [contribP]
  | cons x rest ih =>
    intro g c hnd
    have ih' := ih g c (List.nodup_cons.1 hnd).2
    simp only [contribP] at ih' ⊢
    simp only [List.map_cons, List.flatMap_cons]
    by_cases hx : x = c
    · subst hx
      rw [if_pos rfl, if_pos (List.mem_cons_self _ _), ih']
      rw [if_neg (List.nodup_cons.1 hnd).1]
      simp
    · rw [if_neg hx, ih']
      by_cases hc : c ∈ rest
      · rw [if_pos hc, if_pos (List.mem_cons_of_mem _ hc)]
        simp
      · rw [if_neg hc, if_neg ?_]
        · simp
        · simp only [List.mem_cons]
          push_neg
          exact ⟨fun hh => hx hh.symm, hc⟩

theorem wf_readChars {ref : String} {m : Matrix} (hwf : NexusWF ref m) :
    CharsReadOK m (readChars m) := by
  have hkeys : (readChars m).map Prod.fst = m.Chars := by
    rw [readChars]
    cases hrows : rowsOf m with
    | nil =>
      exfalso
      have := wf_Taxa_ne_nil hwf
      rw [rowsOf] at hrows
      exact this (List.map_eq_nil_iff.1 hrows)
    | cons r rest =>
      show (rest.foldl (fun tb r => charUpdsP r.2 tb) (charUpdsP r.2 [])).map Prod.fst
        = m.Chars
      have hr : r ∈ rowsOf m := by rw [hrows]; exact List.mem_cons_self _ _
      obtain ⟨ht, hcols⟩ := mem_rowsOf hr
      have hcolsOK := wf_ColsOK hwf ht
      have hfirst : (charUpdsP r.2 []).map Prod.fst = m.Chars := by
        rw [map_fst_charUpdsP_new (by simp) ?_ (hcols ▸ hcolsOK.1)]
        · simp only [List.map_nil, List.nil_append]
          rw [hcols, map_fst_colsOf]
        · intro p hp
          exact cellNamesOK_ne_nil ((hcolsOK.2 p (hcols ▸ hp)).2)
      refine map_fst_rowsChars rest _ ?_ hfirst
      intro q hq
      have hqr : q ∈ rowsOf m := by rw [hrows]; exact List.mem_cons_of_mem _ hq
      obtain ⟨htq, hcolsq⟩ := mem_rowsOf hqr
      rw [hcolsq, map_fst_colsOf]
  refine ⟨hkeys, ?_⟩
  have hinv := charsInv_rowsChars (rowsOf m) [] charsInv_nil
  intro c hc
  have hck : c ∈ (readChars m).map Prod.fst := by rw [hkeys]; exact hc
  obtain ⟨ch, hch⟩ := alookup_of_mem_keys hck
  obtain ⟨hname, hndst, hmem⟩ := hinv.2.2 c ch hch
  refine ⟨ch.states, ?_, hndst, ?_⟩
  · rw [hch]
    cases ch
    simp only at hname
    rw [hname]
  · intro s
    rw [hmem s]
    simp only [List.nil_append]
    rw [allContrib]
    have : (rowsOf m).flatMap (fun r => contribP r.2 c)
        = m.Taxa.flatMap (fun t => cellNames m (m.TaxSpec t) c) := by
      rw [rowsOf]
      rw [List.flatMap_map]
      refine List.flatMap_congr ?_
      intro t ht
      show contribP (colsOf m t) c = cellNames m (m.TaxSpec t) c
      rw [colsOf, contribP_map _ _ _ (wf_Chars_nodup hwf), if_pos hc]
    rw [this]

/-! ## The accessors of the read-back matrix -/

theorem read_Taxa_eq {ref : String} {m : Matrix} (hwf : NexusWF ref m) :
    (Matrix.mk (readChars m) (expSpecs m ref)).Taxa = m.Taxa := by
  rw [Matrix.Taxa]
  have hmap : (expSpecs m ref).map (fun p => p.2.taxon) = m.Taxa := by
    rw [expSpecs, List.map_map]
    show m.Taxa.map (fun t => t) = m.Taxa
    simp
  show sortStrs (listToSet ((expSpecs m ref).map (fun p => p.2.taxon))) = m.Taxa
  rw [hmap, listToSet_eq_self (wf_Taxa_nodup hwf)]
  rw [Matrix.Taxa, sortStrs_idem]

theorem readChars_names {ref : String} {m : Matrix} (hwf : NexusWF ref m) :
    (readChars m).map (fun p => p.2.name) = (readChars m).map Prod.fst := by
  obtain ⟨hkeys, hlook⟩ := wf_readChars hwf
  refine List.map_congr_left ?_
  intro p hp
  have hnd : ((readChars m).map Prod.fst).Nodup := by
    rw [hkeys]; exact wf_Chars_nodup hwf
  have hmem : p.1 ∈ m.Chars := by
    rw [← hkeys]; exact List.mem_map.2 ⟨p, hp, rfl⟩
  obtain ⟨ss, hss, _, _⟩ := hlook p.1 hmem
  have := alookup_of_mem_nodup hp hnd
  rw [this] at hss
  rw [Option.some_injective _ hss]

theorem read_Chars_eq {ref : String} {m : Matrix} (hwf : NexusWF ref m) :
    (Matrix.mk (readChars m) (expSpecs m ref)).Chars = m.Chars := by
  rw [Matrix.Chars]
  show sortStrs ((readChars m).map (fun p => p.2.name)) = m.Chars
  rw [readChars_names hwf, (wf_readChars hwf).1]
  rw [wf_Chars_eq hwf, sortStrs_idem]

/-- The two directions of state coverage: the read-back state set of a
character is its original one, minus nothing but `<na>`. -/
theorem allContrib_mem {ref : String} {m : Matrix} (hwf : NexusWF ref m) {c s : String}
    (hc : c ∈ m.Chars) (hs : s ≠ NotApplicable) :
    s ∈ allContrib m c ↔ s ∈ m.States c := by
  constructor
  · intro hmem
    rw [allContrib, List.mem_flatMap] at hmem
    obtain ⟨t, ht, hcell⟩ := hmem
    obtain ⟨sp, om, hsp, hspt, hco, hgoodom, _, hiff, _⟩ := wf_cell hwf ht hc
    have hkey := (hiff s).1 hcell
    obtain ⟨p, hp, hp1⟩ := List.mem_map.1 hkey
    rw [← hp1]
    exact hgoodom.2.2.2.2.2 p hp (hp1 ▸ hs)
  · intro hmem
    obtain ⟨ch, hch, hgood⟩ := wf_char_entry hwf hc
    obtain ⟨hsmem, _⟩ := (wf_mem_States hwf hc hch).1 hmem
    obtain ⟨q, hq, hqk⟩ := hgood.2.2.2.2.2.2.2.2 s hsmem hs
    have hgoodq := hwf.2.2.2.2.2.2 q hq
    have ht : q.2.taxon ∈ m.Taxa := (wf_mem_Taxa hwf).2 ⟨q, hq, rfl⟩
    obtain ⟨sp, om, hsp, hspt, hco, hgoodom, _, hiff, _⟩ := wf_cell hwf ht hc
    have hqkey : q.1 = skey ref q.2.taxon := hgoodq.2.1
    have hlookq := alookup_of_mem_nodup hq hwf.2.2.2.1
    rw [hqkey] at hlookq
    rw [hlookq] at hsp
    obtain rfl := Option.some_injective _ hsp
    rw [hco] at hqk
    simp only [Option.getD_some] at hqk
    rw [allContrib, List.mem_flatMap]
    exact ⟨q.2.taxon, ht, (hiff s).2 hqk⟩

theorem read_States_eq {ref : String} {m : Matrix} (hwf : NexusWF ref m) (c : String) :
    (Matrix.mk (readChars m) (expSpecs m ref)).States c = m.States c := by
  rw [Matrix.States, Matrix.States]
  by_cases hne : collapse c = ""
  · simp [hne]
  · simp only [hne, if_neg, if_false, reduceIte]
    set cq := goToLower (collapse c) with hcq
    by_cases hq : cq ∈ m.Chars
    · obtain ⟨ss, hss, hssnd, hssmem⟩ := (wf_readChars hwf).2 cq hq
      obtain ⟨ch, hch, hgood⟩ := wf_char_entry hwf hq
      show (match alookup cq (readChars m) with
        | none => []
        | some ch => sortStrs (ch.states.filter (fun s => s ≠ NotApplicable))) = _
      rw [hss, hch]
      refine sortStrs_eq_of_mem_iff (List.Nodup.filter _ hssnd)
        (List.Nodup.filter _ hgood.2.2.1) ?_
      intro s
      simp only [List.mem_filter, decide_eq_true_eq]
      constructor
      · rintro ⟨hmem, hna⟩
        have := (allContrib_mem hwf hq (by simpa using hna)).1 ((hssmem s).1 hmem)
        exact ⟨((wf_mem_States hwf hq hch).1 this).1, hna⟩
      · rintro ⟨hmem, hna⟩
        have hstates : s ∈ m.States cq := (wf_mem_States hwf hq hch).2 ⟨hmem, by simpa using hna⟩
        exact ⟨(hssmem s).2 ((allContrib_mem hwf hq (by simpa using hna)).2 hstates), hna⟩
    · have h1 : alookup cq (readChars m) = none := by
        refine alookup_none_of_not_mem_keys ?_
        rw [(wf_readChars hwf).1]
        exact hq
      have h2 : alookup cq m.chars = none := by
        refine alookup_none_of_not_mem_keys ?_
        rw [← wf_mem_Chars hwf]
        exact hq
      show (match alookup cq (readChars m) with
        | none => []
        | some ch => sortStrs (ch.states.filter (fun s => s ≠ NotApplicable)))
        = (match alookup cq m.chars with
        | none => []
        | some ch => sortStrs (ch.states.filter (fun s => s ≠ NotApplicable)))
      rw [h1, h2]

theorem cellObsMap_names (names : List String) (rr : String) :
    (cellObsMap names rr).map (fun p => p.2.name) = names := by
  rw [cellObsMap, List.map_map]
  show names.map (fun s => s) = names
  simp

theorem read_Obs_eq {ref : String} {m : Matrix} (hwf : NexusWF ref m) (spec c : String) :
    (Matrix.mk (readChars m) (expSpecs m ref)).Obs spec c = m.Obs spec c := by
  rw [Matrix.Obs, Matrix.Obs]
  by_cases hs0 : collapse spec = ""
  · simp [hs0]
  · simp only [hs0, if_false, reduceIte]
    by_cases hkey : ∃ t ∈ m.Taxa, skey ref t = goToLower (collapse spec)
    · obtain ⟨t, ht, hteq⟩ := hkey
      have hm2look : alookup (goToLower (collapse spec)) (expSpecs m ref)
          = some (expSpec m ref t) := by
        rw [← hteq, expSpecs]
        exact alookup_map_eq_some _ _ m.Taxa t ht (wf_skeys_nodup hwf)
      obtain ⟨sp, hsp, hspt, hspn, hgoodsp⟩ := wf_spec_lookup hwf ht
      have hmlook : alookup (goToLower (collapse spec)) m.specs = some sp := by
        rw [← hteq]
        exact hsp
      simp only [hm2look, hmlook]
      by_cases hc0 : collapse c = ""
      · simp [hc0]
      · simp only [hc0, if_false, reduceIte]
        by_cases hcq : goToLower (collapse c) ∈ m.Chars
        · obtain ⟨sp', om, hsp', hspt', hco, hgoodom, hok, hiff, hnodup⟩ :=
            wf_cell hwf ht hcq
          rw [hsp] at hsp'
          obtain rfl := Option.some_injective _ hsp'
          have hm2obs : alookup (goToLower (collapse c)) (expSpec m ref t).obs
              = some (cellObsMap (cellNames m (m.TaxSpec t) (goToLower (collapse c)))
                  (collapse ref)) := by
            rw [expSpec]
            show alookup _ (rowObsMap m ref t) = _
            rw [rowObsMap]
            exact alookup_map_eq_some _ _ m.Chars _ hcq (by rw [List.map_id']; exact wf_Chars_nodup hwf)
          simp only [hm2obs, hco]
          rw [cellObsMap_names]
          have hnames : om.map (fun p => p.2.name) = om.map Prod.fst :=
            List.map_congr_left (fun p hp => hgoodom.2.2.1 p hp)
          rw [hnames]
          exact sortStrs_eq_of_mem_iff hnodup hgoodom.2.1 hiff
        · have hm2obs : alookup (goToLower (collapse c)) (expSpec m ref t).obs = none := by
            rw [expSpec]
            show alookup _ (rowObsMap m ref t) = none
            rw [rowObsMap]
            refine alookup_map_eq_none _ _ _ _ ?_
            intro x hx hh
            exact hcq (hh ▸ hx)
          have hmobs : alookup (goToLower (collapse c)) sp.obs = none := by
            cases hcase : alookup (goToLower (collapse c)) sp.obs with
            | none => rfl
            | some om =>
              exfalso
              have hmem := alookup_mem hcase
              have := (hgoodsp.2.2.2.2.2.2.2.1 _ hmem).1
              cases hcc : alookup (goToLower (collapse c)) m.chars with
              | none => exact this hcc
              | some ch =>
                exact hcq ((wf_mem_Chars hwf).2 (mem_keys_of_alookup hcc))
          simp only [hm2obs, hmobs]
    · push_neg at hkey
      have hm2look : alookup (goToLower (collapse spec)) (expSpecs m ref) = none := by
        rw [expSpecs]
        exact alookup_map_eq_none _ _ _ _ hkey
      have hmlook : alookup (goToLower (collapse spec)) m.specs = none := by
        cases hcase : alookup (goToLower (collapse spec)) m.specs with
        | none => rfl
        | some sp =>
          exfalso
          have hmem := alookup_mem hcase
          have hgood := hwf.2.2.2.2.2.2 _ hmem
          have ht : sp.taxon ∈ m.Taxa := (wf_mem_Taxa hwf).2 ⟨_, hmem, rfl⟩
          exact hkey sp.taxon ht hgood.2.1.symm
      simp only [hm2look, hmlook]

/-! ## Loop-stepping lemmas for the reader -/

theorem join_cons (s : String) (l : List String) :
    String.join (s :: l) = s ++ String.join l := by
  have haux : ∀ (l : List String) (a : String),
      l.foldl (fun r s => r ++ s) a = a ++ l.foldl (fun r s => r ++ s) "" := by
    intro l
    induction l with
    | nil => intro a; simp [String.append_empty]
    | cons x xs ih =>
      intro a
      simp only [List.foldl_cons]
      rw [ih (a ++ x), ih ("" ++ x), ← String.append_assoc]
      simp
  show (s :: l).foldl (fun r s => r ++ s) "" = s ++ l.foldl (fun r s => r ++ s) ""
  rw [List.foldl_cons, haux l ("" ++ s)]
  simp

theorem skipBlock_cont {fuel : Nat} {input : List Char} {tok : String} {d : Char}
    {rest : List Char} (h : readToken (fuel + 1) input = (tok, d, some rest))
    (h1 : goToLower tok ≠ "end") (h2 : goToLower tok ≠ "endblock") :
    skipBlock (fuel + 1) input = skipBlock fuel rest := by
  simp only [skipBlock, h]
  rw [if_neg (by push_neg; exact ⟨h1, h2⟩)]

theorem skipBlock_fin {fuel : Nat} {input : List Char} {tok : String} {d : Char}
    {rest : List Char} (h : readToken (fuel + 1) input = (tok, d, some rest))
    (he : goToLower tok = "end" ∨ goToLower tok = "endblock") :
    skipBlock (fuel + 1) input = some rest := by
  simp only [skipBlock, h]
  rw [if_pos he]
  rfl

theorem skipDefinition_cont {fuel : Nat} {input : List Char} {tok : String} {d : Char}
    {rest : List Char} (h : readToken (fuel + 1) input = (tok, d, some rest))
    (hd : d ≠ ';') :
    skipDefinition (fuel + 1) input = skipDefinition fuel rest := by
  simp only [skipDefinition, h]
  rw [if_neg hd]

theorem skipDefinition_fin {fuel : Nat} {input : List Char} {tok : String}
    {rest : List Char} (h : readToken (fuel + 1) input = (tok, ';', some rest)) :
    skipDefinition (fuel + 1) input = some rest := by
  simp only [skipDefinition, h]
  rfl

theorem dirloop_end {fuel : Nat} {m : Matrix} {ref : String} {chars : List NexusChar}
    {input : List Char} {tok : String} {d : Char} {rest : List Char}
    (h : readToken (fuel + 1) input = (tok, d, some rest))
    (he : goToLower tok = "end" ∨ goToLower tok = "endblock") :
    readNexusDirectiveLoop (fuel + 1) m ref chars input = some m := by
  simp only [readNexusDirectiveLoop, h]
  rw [if_pos he]

theorem dirloop_skip {fuel : Nat} {m : Matrix} {ref : String} {chars : List NexusChar}
    {input : List Char} {tok : String} {d : Char} {rest rest2 : List Char}
    (h : readToken (fuel + 1) input = (tok, d, some rest))
    (h1 : goToLower tok ≠ "end") (h2 : goToLower tok ≠ "endblock")
    (h3 : goToLower tok ≠ "charstatelabels") (h4 : goToLower tok ≠ "charlabels")
    (h5 : goToLower tok ≠ "statelabels") (h6 : goToLower tok ≠ "matrix")
    (hsd : skipDefinition (fuel + 1) rest = some rest2) :
    readNexusDirectiveLoop (fuel + 1) m ref chars input =
      readNexusDirectiveLoop fuel m ref chars rest2 := by
  simp only [readNexusDirectiveLoop, h]
  rw [if_neg (by push_neg; exact ⟨h1, h2⟩), if_neg h3, if_neg h4, if_neg h5, if_neg h6, hsd]

theorem dirloop_csl {fuel : Nat} {m : Matrix} {ref : String} {chars chars2 : List NexusChar}
    {input : List Char} {tok : String} {d : Char} {rest rest2 : List Char}
    (h : readToken (fuel + 1) input = (tok, d, some rest))
    (ht : goToLower tok = "charstatelabels")
    (hcsl : readNexusCharStateLabels (fuel + 1) 0 rest = some (chars2, rest2)) :
    readNexusDirectiveLoop (fuel + 1) m ref chars input =
      readNexusDirectiveLoop fuel m ref chars2 rest2 := by
  simp only [readNexusDirectiveLoop, h]
  rw [if_neg (by rw [ht]; push_neg; exact ⟨by decide, by decide⟩), if_pos ht, hcsl]

theorem dirloop_matrix {fuel : Nat} {m m2 : Matrix} {ref : String}
    {chars : List NexusChar} {input : List Char} {tok : String} {d : Char}
    {rest rest2 : List Char}
    (h : readToken (fuel + 1) input = (tok, d, some rest))
    (ht : goToLower tok = "matrix")
    (hrows : readNexusMatrixRows (fuel + 1) m ref chars rest = some (m2, rest2)) :
    readNexusDirectiveLoop (fuel + 1) m ref chars input =
      readNexusDirectiveLoop fuel m2 ref chars rest2 := by
  simp only [readNexusDirectiveLoop, h]
  rw [if_neg (by rw [ht]; push_neg; exact ⟨by decide, by decide⟩),
    if_neg (by rw [ht]; decide), if_neg (by rw [ht]; decide), if_neg (by rw [ht]; decide),
    if_pos ht, hrows]

theorem blockloop_skip {fuel : Nat} {m : Matrix} {ref : String} {input : List Char}
    {tok btok : String} {d d2 : Char} {rest rest2 rest3 : List Char}
    (h1 : readToken (fuel + 1) input = (tok, d, some rest))
    (hb : goToLower tok = "begin")
    (h2 : readToken (fuel + 1) rest = (btok, d2, some rest2))
    (hnc : goToLower btok ≠ "characters")
    (hsb : skipBlock (fuel + 1) rest2 = some rest3) :
    readNexusBlockLoop (fuel + 1) m ref input = readNexusBlockLoop fuel m ref rest3 := by
  simp only [readNexusBlockLoop, h1, h2]
  rw [if_neg (by rw [hb]; simp), if_neg hnc, hsb]

theorem blockloop_chars {fuel : Nat} {m : Matrix} {ref : String} {input : List Char}
    {tok btok : String} {d d2 : Char} {rest rest2 : List Char}
    (h1 : readToken (fuel + 1) input = (tok, d, some rest))
    (hb : goToLower tok = "begin")
    (h2 : readToken (fuel + 1) rest = (btok, d2, some rest2))
    (hc : goToLower btok = "characters") :
    readNexusBlockLoop (fuel + 1) m ref input =
      readNexusDirectiveLoop (fuel + 1) m ref [] rest2 := by
  simp only [readNexusBlockLoop, h1, h2]
  rw [if_neg (by rw [hb]; simp), if_pos hc]

theorem rows_step {fuel : Nat} {m m2 : Matrix} {ref : String} {chars : List NexusChar}
    {input : List Char} {tok : String} {d r1 : Char} {rest rest2 rest3 : List Char}
    (h : readToken (fuel + 1) input = (tok, d, some rest))
    (hcells : readRowCells (fuel + 1) m (canon (collapse (replaceUnderscore tok)))
      (specID (ref ++ ":" ++ canon (collapse (replaceUnderscore tok)))) ref chars 0 rest
      = some (m2, rest2))
    (hskip : skipSpaces (fuel + 1) rest2 = some (r1 :: rest3)) :
    readNexusMatrixRows (fuel + 1) m ref chars input =
      if r1 = ';' then some (m2, rest3)
      else readNexusMatrixRows fuel m2 ref chars (r1 :: rest3) := by
  simp only [readNexusMatrixRows, h, hcells, hskip]

/-! ## Parsing cells -/

theorem getD_of_get? {l : List String} {i : Nat} {s : String} (h : l.get? i = some s)
    (d : String) : l.getD i d = s := by
  rw [List.getD_eq_getElem?_getD]
  rw [← List.get?_eq_getElem?, h]
  rfl

theorem get?_of_drop {l : List String} {i : Nat} {s : String} {r : List String}
    (h : l.drop i = s :: r) : l.get? i = some s := by
  rw [List.get?_eq_getElem?, ← List.head?_drop, h, List.head?_cons]

theorem readPolyCells_run (tax spec ref cName : String) (cnx : NexusChar)
    (full chSt : List String) (hstates : cnx.states = full) :
    ∀ (sts : List String) (i : Nat) (e : Bool) (mm : Matrix) (rest : List Char),
    full.drop i = sts → i + sts.length ≤ 16 →
    readPolyCells mm tax spec ref cnx cName e ((statesDigits sts chSt i).data ++ '}' :: rest)
      = some ((sts.filter (fun s => s ∈ chSt)).foldl
            (fun m2 s => addObs m2 tax spec cName s ref) mm,
          e && (sts.filter (fun s => s ∈ chSt)).isEmpty, rest) := by
  intro sts
  induction sts with
  | nil =>
    intro i e mm rest _ _
    show readPolyCells mm tax spec ref cnx cName e (("" : String).data ++ '}' :: rest) = _
    simp [readPolyCells, Bool.and_true]
  | cons s sts' ih =>
    intro i e mm rest hdrop hle
    have hi : i < 16 := by
      simp only [List.length_cons] at hle
      omega
    obtain ⟨hfmt, hparse, hspace, hrb, hrp, _, _, _, _, _, _, _⟩ := hexDigit_facts i hi
    have hgetD : ∀ d, full.getD i d = s := fun d =>
      getD_of_get? (get?_of_drop hdrop) d
    by_cases hmem : s ∈ chSt
    · have hdata : (statesDigits (s :: sts') chSt i).data
          = hexDigitChar i :: (statesDigits sts' chSt (i + 1)).data := by
        show ((if s ∈ chSt then goFormatHex i else "") ++ statesDigits sts' chSt (i + 1)).data = _
        rw [if_pos hmem, String.data_append, hfmt]
        rfl
      rw [hdata]
      show readPolyCells mm tax spec ref cnx cName e
        (hexDigitChar i :: ((statesDigits sts' chSt (i + 1)).data ++ '}' :: rest)) = _
      rw [readPolyCells]
      rw [if_neg (by push_neg; exact ⟨hrb, hrp⟩), if_neg (by rw [hspace]; simp)]
      rw [hparse]
      simp only [hstates, hgetD]
      rw [show ((mm.Add tax spec cName s).Set spec cName s ref FieldReference)
          = addObs mm tax spec cName s ref from rfl]
      rw [ih (i + 1) false (addObs mm tax spec cName s ref) rest
        (drop_succ_of_drop hdrop) (by simp only [List.length_cons] at hle; omega)]
      rw [List.filter_cons_of_pos (by simpa using hmem)]
      simp [Bool.false_and, Bool.and_false]
    · have hdata : (statesDigits (s :: sts') chSt i).data
          = (statesDigits sts' chSt (i + 1)).data := by
        show ((if s ∈ chSt then goFormatHex i else "") ++ statesDigits sts' chSt (i + 1)).data = _
        rw [if_neg hmem]
        rfl
      rw [hdata]
      rw [ih (i + 1) e mm rest (drop_succ_of_drop hdrop)
        (by simp only [List.length_cons] at hle; omega)]
      rw [List.filter_cons_of_neg (by simpa using hmem)]

theorem statesDigits_filter_nil (chSt : List String) :
    ∀ (sts : List String) (i : Nat), sts.filter (fun x => x ∈ chSt) = [] →
    statesDigits sts chSt i = "" := by
  intro sts
  induction sts with
  | nil => intro i _; rfl
  | cons x sts' ih =>
    intro i hfil
    rw [List.filter_cons] at hfil
    by_cases hx : x ∈ chSt
    · simp [hx] at hfil
    · rw [if_neg (by simpa using hx)] at hfil
      show (if x ∈ chSt then goFormatHex i else "") ++ statesDigits sts' chSt (i + 1) = ""
      rw [if_neg hx, ih (i + 1) hfil]
      rfl

theorem statesDigits_len (chSt : List String) :
    ∀ (sts : List String) (i : Nat), i + sts.length ≤ 16 →
    (statesDigits sts chSt i).data.length = (sts.filter (fun x => x ∈ chSt)).length := by
  intro sts
  induction sts with
  | nil => intro i _; rfl
  | cons x sts' ih =>
    intro i hle
    have hi : i < 16 := by simp only [List.length_cons] at hle; omega
    have hle' : i + 1 + sts'.length ≤ 16 := by simp only [List.length_cons] at hle; omega
    obtain ⟨hfmt, _, _, _, _, _, _, _, _, _, _, _⟩ := hexDigit_facts i hi
    rw [List.filter_cons]
    by_cases hx : x ∈ chSt
    · show ((if x ∈ chSt then goFormatHex i else "") ++ statesDigits sts' chSt (i + 1)).data.length = _
      rw [if_pos hx, String.data_append, hfmt, if_pos (by simpa using hx)]
      simp only [List.length_append, List.length_cons]
      rw [ih (i + 1) hle']
      simp only [List.length_append, List.length_cons, List.length_nil]
      omega
    · show ((if x ∈ chSt then goFormatHex i else "") ++ statesDigits sts' chSt (i + 1)).data.length = _
      rw [if_neg hx, if_neg (by simpa using hx)]
      show (statesDigits sts' chSt (i + 1)).data.length = _
      exact ih (i + 1) hle'

theorem statesDigits_singleton (chSt : List String) (s : String) :
    ∀ (sts : List String) (i : Nat), i + sts.length ≤ 16 →
    sts.filter (fun x => x ∈ chSt) = [s] →
    ∃ p, p < 16 ∧ i ≤ p ∧ sts.get? (p - i) = some s ∧
      (statesDigits sts chSt i).data = [hexDigitChar p] := by
  intro sts
  induction sts with
  | nil => intro i _ hfil; simp at hfil
  | cons x sts' ih =>
    intro i hle hfil
    have hi : i < 16 := by simp only [List.length_cons] at hle; omega
    have hle' : i + 1 + sts'.length ≤ 16 := by simp only [List.length_cons] at hle; omega
    obtain ⟨hfmt, _, _, _, _, _, _, _, _, _, _, _⟩ := hexDigit_facts i hi
    rw [List.filter_cons] at hfil
    by_cases hx : x ∈ chSt
    · rw [if_pos (by simpa using hx)] at hfil
      have hxs : x = s := by
        have := congrArg (fun l => l.head? ) hfil
        simpa using this
      have htail : sts'.filter (fun x => x ∈ chSt) = [] := by
        have := congrArg List.tail hfil
        simpa using this
      refine ⟨i, hi, Nat.le_refl i, ?_, ?_⟩
      · simp [hxs]
      · show ((if x ∈ chSt then goFormatHex i else "") ++ statesDigits sts' chSt (i + 1)).data = _
        rw [if_pos hx, statesDigits_filter_nil chSt sts' (i + 1) htail,
          String.data_append, hfmt]
        rfl
    · rw [if_neg (by simpa using hx)] at hfil
      obtain ⟨p, hp16, hpi, hget, hdig⟩ := ih (i + 1) hle' hfil
      refine ⟨p, hp16, by omega, ?_, ?_⟩
      · have hsub : p - i = (p - (i + 1)) + 1 := by omega
        rw [hsub]
        simpa using hget
      · show ((if x ∈ chSt then goFormatHex i else "") ++ statesDigits sts' chSt (i + 1)).data = _
        rw [if_neg hx]
        show (statesDigits sts' chSt (i + 1)).data = _
        exact hdig

theorem wf_States_len {ref : String} {m : Matrix} (hwf : NexusWF ref m) {c : String}
    (hc : c ∈ m.Chars) : (m.States c).length ≤ 16 := by
  obtain ⟨ch, hch, hgood⟩ := wf_char_entry hwf hc
  exact hgood.2.2.2.2.2.2.2.1

/-- What a well-formed matrix writes in one cell, case by case: a lone
`-`, a single hex digit decoding to the lone state, or a braced digit
run decoding to the cell's names. -/
theorem wf_cellText_cases {ref : String} {m : Matrix} (hwf : NexusWF ref m) {t c : String}
    (ht : t ∈ m.Taxa) (hc : c ∈ m.Chars) :
    ((cellText m (m.States c) (m.TaxSpec t) c).data = ['-'] ∧
      cellNames m (m.TaxSpec t) c = [NotApplicable])
    ∨ (∃ s p, p < 16 ∧ cellNames m (m.TaxSpec t) c = [s] ∧
        (m.States c).get? p = some s ∧
        (cellText m (m.States c) (m.TaxSpec t) c).data = [hexDigitChar p])
    ∨ (cellNames m (m.TaxSpec t) c ≠ [] ∧
        (m.States c).filter (fun s => s ∈ cellStates m (m.TaxSpec t) c)
          = cellNames m (m.TaxSpec t) c ∧
        (cellText m (m.States c) (m.TaxSpec t) c).data
          = '{' :: ((statesDigits (m.States c) (cellStates m (m.TaxSpec t) c) 0).data
              ++ ['}'])) := by
  obtain ⟨sp, om, hsp, hspt, hco, hgoodom, hobs⟩ := wf_Obs_eq hwf ht hc
  have hts : m.TaxSpec t = [skey ref t] := wf_TaxSpec hwf ht
  have hlen16 : (m.States c).length ≤ 16 := wf_States_len hwf hc
  by_cases hna : NotApplicable ∈ om.map Prod.fst
  · left
    have hkeys : om.map Prod.fst = [NotApplicable] := by
      obtain ⟨p, hp, hp1⟩ := List.mem_map.1 hna
      exact hgoodom.2.2.2.2.1 ⟨p, hp, hp1⟩
    have hobsna : m.Obs (skey ref t) c = [NotApplicable] := by
      rw [hobs, hkeys, sortStrs_singleton]
    have hcs : cellStates m (m.TaxSpec t) c = [] := by
      rw [hts, cellStates_single, hobsna]
      simp [insertState]
    have hhasna : cellHasNA m (m.TaxSpec t) c = true := by
      rw [hts]
      simp [cellHasNA, hobsna]
    constructor
    · simp only [cellText, if_pos hcs, hhasna, ite_true]
    · rw [cellNames, if_pos hcs]
  · have hun : Unknown ∉ om.map Prod.fst := by
      intro hh
      obtain ⟨p, hp, hp1⟩ := List.mem_map.1 hh
      exact hgoodom.2.2.2.1 p hp hp1
    have hnaL : NotApplicable ∉ sortStrs (om.map Prod.fst) := by
      rw [mem_sortStrs]; exact hna
    have hunL : Unknown ∉ sortStrs (om.map Prod.fst) := by
      rw [mem_sortStrs]; exact hun
    have hndL : (sortStrs (om.map Prod.fst)).Nodup := sortStrs_nodup hgoodom.2.1
    have hcs : cellStates m (m.TaxSpec t) c = sortStrs (om.map Prod.fst) := by
      rw [hts, cellStates_single, hobs, fold_skip_sentinels _ _ hnaL hunL]
      exact listToSet_eq_self hndL
    have hkeysne : om.map Prod.fst ≠ [] := by
      have := hgoodom.1
      cases hom : om with
      | nil => exact absurd hom this
      | cons p rest => simp [hom]
    have hcsne : cellStates m (m.TaxSpec t) c ≠ [] := by
      rw [hcs]; exact sortStrs_ne_nil hkeysne
    have hcn : cellNames m (m.TaxSpec t) c
        = (m.States c).filter (fun s => s ∈ cellStates m (m.TaxSpec t) c) := by
      rw [cellNames, if_neg hcsne]
    have hsub : ∀ s ∈ om.map Prod.fst, s ∈ m.States c := by
      intro s hs
      obtain ⟨p, hp, hp1⟩ := List.mem_map.1 hs
      rw [← hp1]
      refine hgoodom.2.2.2.2.2 p hp ?_
      intro hh
      exact hna (List.mem_map.2 ⟨p, hp, hh⟩)
    have hcnne : cellNames m (m.TaxSpec t) c ≠ [] := by
      obtain ⟨k, hk⟩ := List.exists_mem_of_ne_nil _ hkeysne
      refine List.ne_nil_of_mem (a := k) ?_
      rw [hcn, List.mem_filter]
      refine ⟨hsub k hk, ?_⟩
      rw [hcs]
      simpa using (mem_sortStrs k _).2 hk
    have hvlen : (statesDigits (m.States c) (cellStates m (m.TaxSpec t) c) 0).data.length
        = (cellNames m (m.TaxSpec t) c).length := by
      rw [statesDigits_len _ _ 0 (by omega), hcn]
    by_cases hone : (cellNames m (m.TaxSpec t) c).length = 1
    · right; left
      obtain ⟨s, hs⟩ := List.length_eq_one.1 hone
      have hfil : (m.States c).filter (fun x => x ∈ cellStates m (m.TaxSpec t) c) = [s] := by
        rw [← hcn, hs]
      obtain ⟨p, hp16, _, hget, hdig⟩ :=
        statesDigits_singleton (cellStates m (m.TaxSpec t) c) s (m.States c) 0
          (by omega) hfil
      refine ⟨s, p, hp16, hs, by simpa using hget, ?_⟩
      simp only [cellText, if_neg hcsne]
      rw [if_neg (by
        show ¬1 < (statesDigits (m.States c) (cellStates m (m.TaxSpec t) c) 0).length
        show ¬1 < (statesDigits (m.States c) (cellStates m (m.TaxSpec t) c) 0).data.length
        rw [hvlen, hone]
        omega)]
      exact hdig
    · right; right
      have hgt : 1 < (cellNames m (m.TaxSpec t) c).length := by
        cases hl : (cellNames m (m.TaxSpec t) c).length with
        | zero => exact absurd (List.length_eq_zero.1 hl) hcnne
        | succ n =>
          cases n with
          | zero => exact absurd hl hone
          | succ k => omega
      refine ⟨hcnne, hcn.symm, ?_⟩
      simp only [cellText, if_neg hcsne]
      rw [if_pos (by
        show 1 < (statesDigits (m.States c) (cellStates m (m.TaxSpec t) c) 0).length
        show 1 < (statesDigits (m.States c) (cellStates m (m.TaxSpec t) c) 0).data.length
        rw [hvlen]
        exact hgt)]
      simp [String.data_append]

theorem getD_any_of_get? {α : Type} {l : List α} {i : Nat} {a : α}
    (h : l.get? i = some a) (d : α) : l.getD i d = a := by
  rw [List.getD_eq_getElem?_getD, ← List.get?_eq_getElem?, h]
  rfl

theorem nexusCharsOf_get? {m : Matrix} {j : Nat} {c : String}
    (h : m.Chars.get? j = some c) :
    (nexusCharsOf m).get? j = some { name := c, states := m.States c } := by
  rw [nexusCharsOf, List.get?_eq_getElem?, List.getElem?_map, ← List.get?_eq_getElem?, h]
  rfl

/-- Reading one written row of a well-formed matrix: the cells decode,
column by column, to `cellsFold` over the cells' name lists. -/
theorem readRowCells_run {ref : String} {m : Matrix} (hwf : NexusWF ref m) {t : String}
    (ht : t ∈ m.Taxa) :
    ∀ (suffix : List String) (j fuel : Nat) (mm : Matrix) (rest : List Char),
    m.Chars.drop j = suffix → suffix.length < fuel →
    readRowCells fuel mm t (skey ref t) ref (nexusCharsOf m) j
        ((String.join (suffix.map (fun c => cellText m (m.States c) (m.TaxSpec t) c))).data
          ++ '\n' :: rest)
      = some (cellsFold t (skey ref t) ref
            (suffix.map (fun c => (c, cellNames m (m.TaxSpec t) c))) mm, rest) := by
  intro suffix
  induction suffix with
  | nil =>
    intro j fuel mm rest _ hlen
    cases fuel with
    | zero => simp at hlen
    | succ f =>
      show readRowCells (f + 1) mm t (skey ref t) ref (nexusCharsOf m) j
        (("" : String).data ++ '\n' :: rest) = _
      simp [readRowCells, cellsFold]
  | cons c0 cs ih =>
    intro j fuel mm rest hdrop hlen
    cases fuel with
    | zero => simp at hlen
    | succ f =>
      have hlt : cs.length < f := by
        simp only [List.length_cons] at hlen
        omega
      have hc0 : c0 ∈ m.Chars := by
        refine List.mem_of_mem_drop (n := j) ?_
        rw [hdrop]
        exact List.mem_cons_self _ _
      have hget0 : m.Chars.get? j = some c0 := get?_of_drop hdrop
      have hjlt : j < (nexusCharsOf m).length := by
        rw [nexusCharsOf, List.length_map]
        exact (List.get?_eq_some.1 hget0).1
      have hcnx : (nexusCharsOf m).getD j { name := "" }
          = { name := c0, states := m.States c0 } :=
        getD_any_of_get? (nexusCharsOf_get? hget0) _
      have hdrop' : m.Chars.drop (j + 1) = cs := drop_succ_of_drop hdrop
      rcases wf_cellText_cases hwf ht hc0 with
        ⟨hdat, hnames⟩ | ⟨s, p, hp16, hnames, hgetp, hdat⟩ | ⟨hne, hfil, hdat⟩
      · rw [List.map_cons, join_cons, String.data_append, hdat, List.append_assoc]
        show readRowCells (f + 1) mm t (skey ref t) ref (nexusCharsOf m) j
          ('-' :: ((String.join (cs.map (fun c =>
            cellText m (m.States c) (m.TaxSpec t) c))).data ++ '\n' :: rest)) = _
        simp only [readRowCells]
        rw [hcnx]
        rw [if_neg (by decide), if_neg (by decide), if_pos trivial, if_pos hjlt]
        rw [show ((mm.Add t (skey ref t) (NexusChar.mk c0 (m.States c0)).name NotApplicable).Set
            (skey ref t) (NexusChar.mk c0 (m.States c0)).name NotApplicable ref FieldReference)
          = addObs mm t (skey ref t) c0 NotApplicable ref from rfl]
        rw [ih (j + 1) f (addObs mm t (skey ref t) c0 NotApplicable ref) rest hdrop' hlt]
        rw [List.map_cons, hnames]
        simp only [cellsFold, List.foldl_cons, cellFold, List.foldl_nil]
      · obtain ⟨_, _, hspace, _, _, hnl, hcr, hdash, hques, hlp, hlb, _⟩ :=
          hexDigit_facts p hp16
        obtain ⟨_, hparse, _, _, _, _, _, _, _, _, _, _⟩ := hexDigit_facts p hp16
        rw [List.map_cons, join_cons, String.data_append, hdat, List.append_assoc]
        show readRowCells (f + 1) mm t (skey ref t) ref (nexusCharsOf m) j
          (hexDigitChar p :: ((String.join (cs.map (fun c =>
            cellText m (m.States c) (m.TaxSpec t) c))).data ++ '\n' :: rest)) = _
        simp only [readRowCells]
        rw [hcnx]
        rw [if_neg (by push_neg; exact ⟨hnl, hcr⟩), if_neg (by rw [hspace]; simp),
          if_neg hdash, if_neg hques, if_neg (by push_neg; exact ⟨hlp, hlb⟩), hparse]
        rw [if_pos hjlt]
        have hgetDp : (NexusChar.mk c0 (m.States c0)).states.getD p ("state " ++ toString p)
            = s := getD_any_of_get? hgetp _
        simp only [hgetDp]
        rw [show ((mm.Add t (skey ref t) (NexusChar.mk c0 (m.States c0)).name s).Set
            (skey ref t) (NexusChar.mk c0 (m.States c0)).name s ref FieldReference)
          = addObs mm t (skey ref t) c0 s ref from rfl]
        rw [ih (j + 1) f (addObs mm t (skey ref t) c0 s ref) rest hdrop' hlt]
        rw [List.map_cons, hnames]
        simp only [cellsFold, List.foldl_cons, cellFold, List.foldl_nil]
      · have hie : (cellNames m (m.TaxSpec t) c0).isEmpty = false := by
          cases hcn : cellNames m (m.TaxSpec t) c0 with
          | nil => exact absurd hcn hne
          | cons a l => rfl
        rw [List.map_cons, join_cons, String.data_append, hdat]
        rw [show (('{' :: ((statesDigits (m.States c0) (cellStates m (m.TaxSpec t) c0) 0).data
              ++ ['}'])) ++ (String.join (cs.map (fun c =>
                cellText m (m.States c) (m.TaxSpec t) c))).data) ++ '\n' :: rest
          = '{' :: ((statesDigits (m.States c0) (cellStates m (m.TaxSpec t) c0) 0).data
              ++ ('}' :: ((String.join (cs.map (fun c =>
                cellText m (m.States c) (m.TaxSpec t) c))).data ++ '\n' :: rest))) from by simp]
        show readRowCells (f + 1) mm t (skey ref t) ref (nexusCharsOf m) j
          ('{' :: ((statesDigits (m.States c0) (cellStates m (m.TaxSpec t) c0) 0).data
            ++ ('}' :: ((String.join (cs.map (fun c =>
              cellText m (m.States c) (m.TaxSpec t) c))).data ++ '\n' :: rest)))) = _
        simp only [readRowCells]
        rw [hcnx]
        rw [if_neg (by decide), if_neg (by decide), if_neg (by decide), if_neg (by decide),
          if_pos (Or.inr trivial)]
        rw [if_pos hjlt]
        rw [readPolyCells_run t (skey ref t) ref (NexusChar.mk c0 (m.States c0)).name
          (NexusChar.mk c0 (m.States c0)) (m.States c0) (cellStates m (m.TaxSpec t) c0) rfl
          (m.States c0) 0 true mm
          ((String.join (cs.map (fun c =>
            cellText m (m.States c) (m.TaxSpec t) c))).data ++ '\n' :: rest)
          rfl (by have := wf_States_len hwf hc0; omega)]
        rw [show ((m.States c0).filter (fun s => s ∈ cellStates m (m.TaxSpec t) c0))
          = cellNames m (m.TaxSpec t) c0 from hfil]
        simp only [Bool.true_and, hie]
        rw [if_neg (by decide)]
        rw [show ((cellNames m (m.TaxSpec t) c0).foldl (fun m2 s =>
            addObs m2 t (skey ref t) (NexusChar.mk c0 (m.States c0)).name s ref) mm)
          = cellFold t (skey ref t) c0 ref (cellNames m (m.TaxSpec t) c0) mm from rfl]
        rw [ih (j + 1) f (cellFold t (skey ref t) c0 ref (cellNames m (m.TaxSpec t) c0) mm)
          rest hdrop' hlt]
        rw [List.map_cons]
        simp only [cellsFold, List.foldl_cons]

/-- The MATRIX rows of the written text, starting after the first row's
leading tab (which the tokenizer consumes while scanning for the row's
taxon token). -/
def rowsTailText (m : Matrix) : List String → String
  | [] => ""
  | t :: ts =>
    underscoreName t ++ "\t" ++
    String.join (m.Chars.map (fun c => cellText m (m.States c) (m.TaxSpec t) c)) ++ "\n" ++
    String.join (ts.map (fun n => matrixRowText m n m.Chars))

theorem rowsText_data (m : Matrix) (t : String) (ts : List String) :
    (String.join ((t :: ts).map (fun n => matrixRowText m n m.Chars))).data
      = '\t' :: (rowsTailText m (t :: ts)).data := by
  rw [List.map_cons, join_cons, rowsTailText, matrixRowText]
  simp [String.data_append]

theorem uname_head {t : String} (hg : GoodTaxonName t) :
    ∃ u ur, (underscoreName t).data = u :: ur ∧ isWordChar u = true := by
  have hne : (underscoreName t).data ≠ [] := by
    intro hh
    exact hg.2.2.1 (string_ext hh)
  obtain ⟨u, ur, huu⟩ := List.exists_cons_of_ne_nil hne
  exact ⟨u, ur, huu, hg.2.2.2.1 u (by rw [huu]; exact List.mem_cons_self _ _)⟩

theorem wf_cellsHead {ref : String} {m : Matrix} (hwf : NexusWF ref m) {t : String}
    (ht : t ∈ m.Taxa) :
    ∃ d0 cr, (String.join (m.Chars.map (fun c =>
        cellText m (m.States c) (m.TaxSpec t) c))).data = d0 :: cr ∧
      isWordChar d0 = true := by
  have hchne : m.Chars ≠ [] := wf_Chars_ne_nil hwf
  obtain ⟨c0, cs, hch⟩ := List.exists_cons_of_ne_nil hchne
  have hc0 : c0 ∈ m.Chars := by rw [hch]; exact List.mem_cons_self _ _
  rw [hch, List.map_cons, join_cons, String.data_append]
  rcases wf_cellText_cases hwf ht hc0 with
    ⟨hdat, _⟩ | ⟨s, p, hp16, _, _, hdat⟩ | ⟨_, _, hdat⟩
  · exact ⟨'-', _, by rw [hdat]; rfl, by decide⟩
  · obtain ⟨_, _, _, _, _, _, _, _, _, _, _, hword⟩ := hexDigit_facts p hp16
    exact ⟨hexDigitChar p, _, by rw [hdat]; rfl, hword⟩
  · exact ⟨'{', _, by rw [hdat]; rfl, by decide⟩

/-- Reading the written MATRIX rows of a well-formed matrix: the row
loop folds the rows' cells into the matrix and stops at the closing
semicolon. -/
theorem rows_run {ref : String} {m : Matrix} (hwf : NexusWF ref m) :
    ∀ (TS : List String) (fuel : Nat) (mm : Matrix) (next : List Char),
    TS ≠ [] → (∀ t ∈ TS, t ∈ m.Taxa) →
    TS.length + m.Chars.length < fuel →
    readNexusMatrixRows fuel mm ref (nexusCharsOf m)
        ((rowsTailText m TS).data ++ '\t' :: ';' :: next)
      = some (rowsFold ref (TS.map (fun t => (t, colsOf m t))) mm, next) := by
  intro TS
  induction TS with
  | nil => intro fuel mm next hne _ _; exact absurd rfl hne
  | cons t ts ih =>
    intro fuel mm next _ hmem hfuel
    have hchlen : 1 ≤ m.Chars.length := by
      have := wf_Chars_ne_nil hwf
      cases hch : m.Chars with
      | nil => exact absurd hch this
      | cons a l => simp [hch]
    cases fuel with
    | zero => simp only [List.length_cons] at hfuel; omega
    | succ f =>
      have htT : t ∈ m.Taxa := hmem t (List.mem_cons_self _ _)
      have hgt : GoodTaxonName t := wf_GoodTaxonName hwf htT
      obtain ⟨d0, cr, hcellsdata, hd0w⟩ := wf_cellsHead hwf htT
      obtain ⟨hd0s, _, _, _, _, _, _, hd0b⟩ := wordChar_props hd0w
      have hwu : ∀ x ∈ (underscoreName t).data, isWordChar x := hgt.2.2.2.1
      have hwune : (underscoreName t).data ≠ [] := by
        intro hh
        exact hgt.2.2.1 (string_ext hh)
      have hd0d : isDelimChar d0 = false := by
        obtain ⟨_, h2, h3, h4, h5, _, _, _⟩ := wordChar_props hd0w
        simp [isDelimChar, h2, h3, h4, h5]
      have hshape : (rowsTailText m (t :: ts)).data ++ '\t' :: ';' :: next
          = ([] : List Char) ++ (underscoreName t).data
            ++ ('\t' :: (([] : List Char) ++ d0 :: (cr ++ '\n'
              :: ((String.join (ts.map (fun n => matrixRowText m n m.Chars))).data
                ++ '\t' :: ';' :: next)))) := by
        rw [rowsTailText]
        simp only [String.data_append, hcellsdata]
        simp
      rw [hshape]
      have htok := readToken_word_ws_word (f + 1) [] (underscoreName t).data '\t' []
        d0 (cr ++ '\n' :: ((String.join (ts.map (fun n => matrixRowText m n m.Chars))).data
          ++ '\t' :: ';' :: next))
        (by intro x hx; simp at hx) (by simp) hwu hwune (by decide)
        (by intro x hx; simp at hx) (by simp) hd0s (by
          intro hh
          rw [hh] at hd0w
          exact absurd hd0w (by decide)) hd0d
      have htokS : readToken (f + 1)
          (([] : List Char) ++ (underscoreName t).data
            ++ ('\t' :: (([] : List Char) ++ d0 :: (cr ++ '\n'
              :: ((String.join (ts.map (fun n => matrixRowText m n m.Chars))).data
                ++ '\t' :: ';' :: next)))))
          = (underscoreName t, ' ', some (d0 :: (cr ++ '\n'
              :: ((String.join (ts.map (fun n => matrixRowText m n m.Chars))).data
                ++ '\t' :: ';' :: next)))) := htok
      have hcanon : canon (collapse (replaceUnderscore (underscoreName t))) = t :=
        hgt.2.2.2.2.2.2
      have hrun := readRowCells_run hwf htT m.Chars 0 (f + 1) mm
        ((String.join (ts.map (fun n => matrixRowText m n m.Chars))).data
          ++ '\t' :: ';' :: next)
        rfl (by omega)
      rw [hcellsdata] at hrun
      have hcells2 : readRowCells (f + 1) mm (canon (collapse (replaceUnderscore
            (underscoreName t))))
          (specID (ref ++ ":" ++ canon (collapse (replaceUnderscore (underscoreName t)))))
          ref (nexusCharsOf m) 0
          (d0 :: (cr ++ '\n' :: ((String.join (ts.map (fun n =>
            matrixRowText m n m.Chars))).data ++ '\t' :: ';' :: next)))
          = some (cellsFold t (skey ref t) ref
              (m.Chars.map (fun c => (c, cellNames m (m.TaxSpec t) c))) mm,
            (String.join (ts.map (fun n => matrixRowText m n m.Chars))).data
              ++ '\t' :: ';' :: next) := by
        rw [hcanon]
        show readRowCells (f + 1) mm t (skey ref t) ref (nexusCharsOf m) 0
          ((d0 :: cr) ++ '\n' :: ((String.join (ts.map (fun n =>
            matrixRowText m n m.Chars))).data ++ '\t' :: ';' :: next)) = _
        rw [← List.cons_append]
        exact hrun
      cases ts with
      | nil =>
        have hskip : skipSpaces (f + 1)
            ((String.join (([] : List String).map (fun n =>
              matrixRowText m n m.Chars))).data ++ '\t' :: ';' :: next)
            = some (';' :: next) := by
          show skipSpaces (f + 1) (([] : List Char) ++ '\t' :: ';' :: next) = _
          rw [show (([] : List Char) ++ '\t' :: ';' :: next)
            = ['\t'] ++ ';' :: next from by simp]
          refine skipSpaces_ws ['\t'] (f + 1) ';' next ?_ ?_ (by decide) (by decide)
          · intro x hx; simp at hx; rw [hx]; decide
          · simp only [List.length_cons, List.length_nil, List.length_cons] at hfuel ⊢
            omega
        rw [rows_step htokS hcells2 hskip]
        rw [if_pos rfl]
        simp only [List.map_cons, List.map_nil, rowsFold, List.foldl_cons, List.foldl_nil]
        rfl
      | cons t1 ts' =>
        have hgt1 : GoodTaxonName t1 :=
          wf_GoodTaxonName hwf (hmem t1 (by simp))
        obtain ⟨u1, ur, hu1, hu1w⟩ := uname_head hgt1
        obtain ⟨hu1s, hu1semi, _, _, _, _, _, hu1b⟩ := wordChar_props hu1w
        have htail : (rowsTailText m (t1 :: ts')).data ++ '\t' :: ';' :: next
            = u1 :: ((ur ++ ("\t" ++ String.join (m.Chars.map (fun c =>
                cellText m (m.States c) (m.TaxSpec t1) c)) ++ "\n" ++
                String.join (ts'.map (fun n => matrixRowText m n m.Chars))).data)
                ++ '\t' :: ';' :: next) := by
          rw [rowsTailText]
          simp only [String.data_append, hu1]
          simp
        have hskip : skipSpaces (f + 1)
            ((String.join ((t1 :: ts').map (fun n => matrixRowText m n m.Chars))).data
              ++ '\t' :: ';' :: next)
            = some (u1 :: ((ur ++ ("\t" ++ String.join (m.Chars.map (fun c =>
                cellText m (m.States c) (m.TaxSpec t1) c)) ++ "\n" ++
                String.join (ts'.map (fun n => matrixRowText m n m.Chars))).data)
                ++ '\t' :: ';' :: next)) := by
          rw [rowsText_data]
          rw [show ('\t' :: (rowsTailText m (t1 :: ts')).data) ++ '\t' :: ';' :: next
            = ['\t'] ++ ((rowsTailText m (t1 :: ts')).data ++ '\t' :: ';' :: next)
            from by simp]
          rw [htail]
          exact skipSpaces_ws ['\t'] (f + 1) u1 _
            (by intro x hx; simp at hx; rw [hx]; decide)
            (by simp only [List.length_cons, List.length_nil] at hfuel ⊢; omega)
            hu1s hu1b
        rw [rows_step htokS hcells2 hskip]
        rw [if_neg hu1semi]
        rw [← htail]
        rw [ih f (cellsFold t (skey ref t) ref
            (m.Chars.map (fun c => (c, cellNames m (m.TaxSpec t) c))) mm) next
          (by simp)
          (fun x hx => hmem x (List.mem_cons_of_mem _ hx))
          (by simp only [List.length_cons] at hfuel ⊢; omega)]
        rfl

/-! ## Parsing the CHARSTATELABELS section -/

/-- The quoted state list of one CHARSTATELABELS entry, starting at the
first quote (the writer's leading space is consumed by the tokenizer's
whitespace scan). -/
def statesTailText : List String → String
  | [] => ""
  | [s] => "'" ++ s ++ "'"
  | s :: ss => "'" ++ s ++ "' " ++ statesTailText ss

theorem join_states_data : ∀ (sts : List String), sts ≠ [] →
    (String.join (sts.map (fun s => " '" ++ s ++ "'"))).data
      = ' ' :: (statesTailText sts).data := by
  intro sts
  induction sts with
  | nil => intro h; exact absurd rfl h
  | cons s ss ih =>
    intro _
    cases ss with
    | nil =>
      rw [List.map_cons, List.map_nil, join_cons]
      simp [statesTailText, String.data_append]
    | cons s2 ss' =>
      rw [List.map_cons, join_cons, String.data_append, ih (by simp)]
      simp [statesTailText, String.data_append]

theorem statesTail_cons (x : String) (xs : List String) :
    ∃ R, (statesTailText (x :: xs)).data = '\'' :: R := by
  cases xs with
  | nil => exact ⟨x.data ++ ['\''], by simp [statesTailText, String.data_append]⟩
  | cons y ys =>
    exact ⟨x.data ++ '\'' :: ' ' :: (statesTailText (y :: ys)).data,
      by simp [statesTailText, String.data_append]⟩

/-- The shared state-name loop on the writer's quoted state list: each
token is one state name, ended by the `,`/`;` delimiter. -/
theorem ncsl_run : ∀ (sts : List String) (ws0 : List Char) (fuel : Nat) (dEnd : Char)
    (endTxt after : List Char),
    sts ≠ [] →
    (∀ s ∈ sts, collapse (replaceUnderscore s) = s ∧ '\'' ∉ s.data) →
    (∀ x ∈ ws0, goIsSpace x) →
    ((dEnd = ',' ∧ endTxt = ',' :: after) ∨ (dEnd = ';' ∧ endTxt = ' ' :: ';' :: after)) →
    ws0.length + sts.length + 2 < fuel →
    readNCSLStates fuel (ws0 ++ (statesTailText sts).data ++ endTxt)
      = some (sts, dEnd, after) := by
  intro sts
  induction sts with
  | nil => intro ws0 fuel dEnd endTxt after h; exact absurd rfl h
  | cons s ss ih =>
    intro ws0 fuel dEnd endTxt after _ hgood hws0 hend hfuel
    obtain ⟨hcol, hq⟩ := hgood s (List.mem_cons_self _ _)
    have hcontent : ∀ x ∈ s.data, x ≠ '\'' := fun x hx hh => hq (hh ▸ hx)
    have hmk : (String.mk s.data) = s := string_ext rfl
    cases fuel with
    | zero => simp only [List.length_cons] at hfuel; omega
    | succ f =>
      cases ss with
      | nil =>
        rcases hend with ⟨hd, he⟩ | ⟨hd, he⟩
        · subst hd; subst he
          have hshape : ws0 ++ (statesTailText [s]).data ++ ',' :: after
              = ws0 ++ '\'' :: (s.data ++ '\'' :: ',' :: after) := by
            simp [statesTailText, String.data_append]
          rw [hshape]
          have htok := readToken_quoted_delim (f + 1) ws0 '\'' s.data ',' after
            hws0 (by simp only [List.length_cons] at hfuel; omega) (Or.inl rfl)
            hcontent (by decide) (by decide)
          simp only [readNCSLStates, htok]
          rw [if_pos (Or.inl trivial), hmk, hcol]
        · subst hd; subst he
          have hshape : ws0 ++ (statesTailText [s]).data ++ ' ' :: ';' :: after
              = ws0 ++ '\'' :: (s.data ++ '\'' :: ' ' :: (([] : List Char) ++ ';' :: after)) := by
            simp [statesTailText, String.data_append]
          rw [hshape]
          have htok := readToken_quoted_ws_delim (f + 1) ws0 '\'' s.data ' ' [] ';' after
            hws0 (by simp only [List.length_cons] at hfuel; omega) (Or.inl rfl)
            hcontent (by decide) (by decide) (by intro x hx; simp at hx)
            (by simp only [List.length_cons, List.length_nil] at hfuel ⊢; omega) (by decide)
          simp only [readNCSLStates, htok]
          rw [if_pos (Or.inr trivial), hmk, hcol]
      | cons s2 ss' =>
        obtain ⟨R, hR⟩ := statesTail_cons s2 ss'
        have hshape : ws0 ++ (statesTailText (s :: s2 :: ss')).data ++ endTxt
            = ws0 ++ '\'' :: (s.data ++ '\'' :: ' ' :: (([] : List Char)
                ++ '\'' :: (R ++ endTxt))) := by
          show ws0 ++ (("'" ++ s ++ "' " ++ statesTailText (s2 :: ss')).data) ++ endTxt = _
          simp only [String.data_append, hR]
          simp
        rw [hshape]
        have htok := readToken_quoted_ws_word (f + 1) ws0 '\'' s.data ' ' [] '\''
          (R ++ endTxt) hws0 (by simp only [List.length_cons] at hfuel; omega)
          (Or.inl rfl) hcontent (by decide) (by decide) (by intro x hx; simp at hx)
          (by simp only [List.length_cons, List.length_nil] at hfuel ⊢; omega)
          (by decide) (by decide) (by decide)
        simp only [readNCSLStates, htok]
        rw [if_neg (by decide)]
        have hihinput : '\'' :: (R ++ endTxt)
            = ([] : List Char) ++ (statesTailText (s2 :: ss')).data ++ endTxt := by
          rw [hR]
          simp
        rw [hihinput, ih [] f dEnd endTxt after (by simp)
          (fun x hx => hgood x (List.mem_cons_of_mem _ hx))
          (by intro x hx; simp at hx)
          hend
          (by simp only [List.length_cons, List.length_nil] at hfuel ⊢; omega)]
        rw [hmk, hcol]

/-- One CHARSTATELABELS entry, starting at its index digits (the
leading tabs are consumed by the tokenizer's whitespace scan). -/
def cslEntryTail (m : Matrix) (i total : Nat) (c : String) : String :=
  natDecimal (i + 1) ++ " '" ++ underscoreName c ++ "' /" ++
  String.join ((m.States c).map (fun s => " '" ++ s ++ "'")) ++
  (if i + 1 < total then ",\n" else " ;\n")

/-- The CHARSTATELABELS entries from position `i` on, starting at the
first entry's index digits. -/
def cslTailFrom (m : Matrix) : List String → Nat → String
  | [], _ => ""
  | c :: cs, i =>
    cslEntryTail m i m.Chars.length c ++
    (if cs = [] then "" else "\t\t") ++ cslTailFrom m cs (i + 1)

theorem entry_eq (m : Matrix) (i total : Nat) (c : String) :
    charStateLabelEntry i total c (m.States c) = "\t\t" ++ cslEntryTail m i total c := by
  simp [charStateLabelEntry, cslEntryTail, String.append_assoc]

theorem charStateLabelsText_eq (m : Matrix) :
    ∀ (suffix : List String) (i : Nat), suffix ≠ [] →
    charStateLabelsText m suffix m.Chars.length i = "\t\t" ++ cslTailFrom m suffix i := by
  intro suffix
  induction suffix with
  | nil => intro i h; exact absurd rfl h
  | cons c cs ih =>
    intro i _
    cases cs with
    | nil =>
      show charStateLabelEntry i m.Chars.length c (m.States c)
          ++ charStateLabelsText m [] m.Chars.length (i + 1) = _
      rw [entry_eq]
      show "\t\t" ++ cslEntryTail m i m.Chars.length c ++ ""
        = "\t\t" ++ (cslEntryTail m i m.Chars.length c ++ (if ([] : List String) = []
            then "" else "\t\t") ++ cslTailFrom m [] (i + 1))
      rw [if_pos rfl]
      show _ = "\t\t" ++ (cslEntryTail m i m.Chars.length c ++ "" ++ "")
      simp [String.append_assoc]
    | cons c2 cs' =>
      show charStateLabelEntry i m.Chars.length c (m.States c)
          ++ charStateLabelsText m (c2 :: cs') m.Chars.length (i + 1) = _
      rw [entry_eq, ih (i + 1) (by simp)]
      show _ = "\t\t" ++ (cslEntryTail m i m.Chars.length c ++ (if (c2 :: cs') = []
          then "" else "\t\t") ++ cslTailFrom m (c2 :: cs') (i + 1))
      rw [if_neg (by simp)]
      simp [String.append_assoc]

/-- Reading the written CHARSTATELABELS entries of a well-formed matrix
from position `i` on: each entry decodes to the character's name and
sorted state list. -/
theorem csl_run {ref : String} {m : Matrix} (hwf : NexusWF ref m) :
    ∀ (suffix : List String) (i fuel : Nat) (ws0 after : List Char),
    m.Chars.drop i = suffix → suffix ≠ [] →
    (∀ x ∈ ws0, goIsSpace x) → ws0.length ≤ 3 →
    suffix.length + 24 < fuel →
    readNexusCharStateLabels fuel i (ws0 ++ (cslTailFrom m suffix i).data ++ after)
      = some (suffix.map (fun c => { name := c, states := m.States c }), '\n' :: after) := by
  intro suffix
  induction suffix with
  | nil => intro i fuel ws0 after _ h; exact absurd rfl h
  | cons c cs ih =>
    intro i fuel ws0 after hdrop _ hws0 hws0len hfuel
    cases fuel with
    | zero => simp only [List.length_cons] at hfuel; omega
    | succ f =>
      have hc : c ∈ m.Chars := by
        refine List.mem_of_mem_drop (n := i) ?_
        rw [hdrop]
        exact List.mem_cons_self _ _
      obtain ⟨ch, hch, hgood⟩ := wf_char_entry hwf hc
      have hgcn : GoodCharName c := hgood.2.1
      have hsts_ne : m.States c ≠ [] := hgood.2.2.2.2.2.2.1
      have hsts_len : (m.States c).length ≤ 16 := hgood.2.2.2.2.2.2.2.1
      have hsts_good : ∀ s ∈ m.States c,
          collapse (replaceUnderscore s) = s ∧ '\'' ∉ s.data := by
        intro s hs
        have hg := wf_GoodStateName hwf hc hs
        exact ⟨hg.2.1, hg.2.2.1⟩
      have hlen_drop : m.Chars.length - i = cs.length + 1 := by
        have := congrArg List.length hdrop
        rw [List.length_drop] at this
        simpa using this
      have hlast : cs = [] → ¬(i + 1 < m.Chars.length) := by
        intro hcs
        subst hcs
        simp only [List.length_nil] at hlen_drop
        omega
      have hmore : cs ≠ [] → i + 1 < m.Chars.length := by
        intro hcs
        have : 1 ≤ cs.length := by
          cases hcc : cs with
          | nil => exact absurd hcc hcs
          | cons a l => simp [hcc]
        omega
      have hcontentU : ∀ x ∈ (underscoreName c).data, x ≠ '\'' :=
        fun x hx hh => hgcn.2.2 (hh ▸ hx)
      have hmkU : (String.mk (underscoreName c).data) = underscoreName c := string_ext rfl
      have hmkD : (String.mk (natDecimal (i + 1)).data) = natDecimal (i + 1) :=
        string_ext rfl
      cases hcs : cs with
      | nil =>
        have hnot : ¬(i + 1 < m.Chars.length) := hlast hcs
        have hshape : ws0 ++ (cslTailFrom m [c] i).data ++ after
            = ws0 ++ (natDecimal (i + 1)).data
              ++ (' ' :: (([] : List Char) ++ '\'' :: ((underscoreName c).data
                ++ '\'' :: ' ' :: (([] : List Char) ++ '/'
                  :: ([' '] ++ (statesTailText (m.States c)).data
                    ++ (' ' :: ';' :: ('\n' :: after))))))) := by
          show ws0 ++ (cslEntryTail m i m.Chars.length c ++ (if ([] : List String) = []
              then "" else "\t\t") ++ cslTailFrom m [] (i + 1)).data ++ after = _
          rw [if_pos rfl]
          simp only [cslEntryTail, if_neg hnot, String.data_append,
            join_states_data (m.States c) hsts_ne]
          simp [cslTailFrom]
        rw [hshape]
        have htok1 := readToken_word_ws_word (f + 1) ws0 (natDecimal (i + 1)).data ' ' []
          '\'' ((underscoreName c).data ++ '\'' :: ' ' :: (([] : List Char) ++ '/'
            :: ([' '] ++ (statesTailText (m.States c)).data
              ++ (' ' :: ';' :: ('\n' :: after)))))
          hws0 (by omega) natDecimal_wordChars (natDecimal_ne_nil (i + 1)) (by decide)
          (by intro x hx; simp at hx) (by simp only [List.length_nil]; omega)
          (by decide) (by decide) (by decide)
        simp only [readNexusCharStateLabels, htok1]
        have hid : ¬(((i + 1 : Nat) : Int) ≠ (i : Int) + 1) := by push_cast; omega
        simp only [hmkD, goAtoi_natDecimal, if_neg hid]
        have htok2 := readToken_quoted_ws_delim (f + 1) [] '\'' (underscoreName c).data
          ' ' [] '/' ([' '] ++ (statesTailText (m.States c)).data
            ++ (' ' :: ';' :: ('\n' :: after)))
          (by intro x hx; simp at hx) (by simp only [List.length_nil]; omega)
          (Or.inl rfl) hcontentU (by decide) (by decide)
          (by intro x hx; simp at hx) (by simp only [List.length_nil]; omega) (by decide)
        rw [show '\'' :: ((underscoreName c).data ++ '\'' :: ' ' :: (([] : List Char) ++ '/'
            :: ([' '] ++ (statesTailText (m.States c)).data
              ++ (' ' :: ';' :: ('\n' :: after)))))
          = ([] : List Char) ++ '\'' :: ((underscoreName c).data ++ '\'' :: ' '
            :: (([] : List Char) ++ '/' :: ([' '] ++ (statesTailText (m.States c)).data
              ++ (' ' :: ';' :: ('\n' :: after))))) from by simp]
        simp only [htok2]
        rw [if_neg (by decide), if_neg (by decide)]
        have hncsl := ncsl_run (m.States c) [' '] (f + 1) ';'
          (' ' :: ';' :: ('\n' :: after)) ('\n' :: after) hsts_ne hsts_good
          (by intro x hx; simp at hx; rw [hx]; decide)
          (Or.inr ⟨rfl, rfl⟩)
          (by simp only [List.length_cons, List.length_nil]; omega)
        simp only [hncsl]
        rw [if_pos trivial, hmkU, hgcn.2.1]
        rfl
      | cons c2 cs' =>
        subst hcs
        have hlt : i + 1 < m.Chars.length := hmore (by simp)
        have hshape : ws0 ++ (cslTailFrom m (c :: c2 :: cs') i).data ++ after
            = ws0 ++ (natDecimal (i + 1)).data
              ++ (' ' :: (([] : List Char) ++ '\'' :: ((underscoreName c).data
                ++ '\'' :: ' ' :: (([] : List Char) ++ '/'
                  :: ([' '] ++ (statesTailText (m.States c)).data
                    ++ (',' :: ('\n' :: ('\t' :: '\t'
                      :: ((cslTailFrom m (c2 :: cs') (i + 1)).data ++ after))))))))) := by
          show ws0 ++ (cslEntryTail m i m.Chars.length c ++ (if (c2 :: cs') = []
              then "" else "\t\t") ++ cslTailFrom m (c2 :: cs') (i + 1)).data ++ after = _
          rw [if_neg (by simp)]
          simp only [cslEntryTail, if_pos hlt, String.data_append,
            join_states_data (m.States c) hsts_ne]
          simp
        rw [hshape]
        have htok1 := readToken_word_ws_word (f + 1) ws0 (natDecimal (i + 1)).data ' ' []
          '\'' ((underscoreName c).data ++ '\'' :: ' ' :: (([] : List Char) ++ '/'
            :: ([' '] ++ (statesTailText (m.States c)).data
              ++ (',' :: ('\n' :: ('\t' :: '\t'
                :: ((cslTailFrom m (c2 :: cs') (i + 1)).data ++ after)))))))
          hws0 (by omega) natDecimal_wordChars (natDecimal_ne_nil (i + 1)) (by decide)
          (by intro x hx; simp at hx) (by simp only [List.length_nil]; omega)
          (by decide) (by decide) (by decide)
        simp only [readNexusCharStateLabels, htok1]
        have hid : ¬(((i + 1 : Nat) : Int) ≠ (i : Int) + 1) := by push_cast; omega
        simp only [hmkD, goAtoi_natDecimal, if_neg hid]
        have htok2 := readToken_quoted_ws_delim (f + 1) [] '\'' (underscoreName c).data
          ' ' [] '/' ([' '] ++ (statesTailText (m.States c)).data
            ++ (',' :: ('\n' :: ('\t' :: '\t'
              :: ((cslTailFrom m (c2 :: cs') (i + 1)).data ++ after)))))
          (by intro x hx; simp at hx) (by simp only [List.length_nil]; omega)
          (Or.inl rfl) hcontentU (by decide) (by decide)
          (by intro x hx; simp at hx) (by simp only [List.length_nil]; omega) (by decide)
        rw [show '\'' :: ((underscoreName c).data ++ '\'' :: ' ' :: (([] : List Char) ++ '/'
            :: ([' '] ++ (statesTailText (m.States c)).data
              ++ (',' :: ('\n' :: ('\t' :: '\t'
                :: ((cslTailFrom m (c2 :: cs') (i + 1)).data ++ after)))))))
          = ([] : List Char) ++ '\'' :: ((underscoreName c).data ++ '\'' :: ' '
            :: (([] : List Char) ++ '/' :: ([' '] ++ (statesTailText (m.States c)).data
              ++ (',' :: ('\n' :: ('\t' :: '\t'
                :: ((cslTailFrom m (c2 :: cs') (i + 1)).data ++ after)))))))
          from by simp]
        simp only [htok2]
        rw [if_neg (by decide), if_neg (by decide)]
        have hncsl := ncsl_run (m.States c) [' '] (f + 1) ','
          (',' :: ('\n' :: ('\t' :: '\t' :: ((cslTailFrom m (c2 :: cs') (i + 1)).data
            ++ after))))
          ('\n' :: ('\t' :: '\t' :: ((cslTailFrom m (c2 :: cs') (i + 1)).data ++ after)))
          hsts_ne hsts_good
          (by intro x hx; simp at hx; rw [hx]; decide)
          (Or.inl ⟨rfl, rfl⟩)
          (by simp only [List.length_cons, List.length_nil]; omega)
        simp only [hncsl]
        rw [if_neg (by decide)]
        rw [show ('\n' :: ('\t' :: '\t' :: ((cslTailFrom m (c2 :: cs') (i + 1)).data
            ++ after)))
          = ['\n', '\t', '\t'] ++ (cslTailFrom m (c2 :: cs') (i + 1)).data ++ after
          from by simp]
        have hih := ih (i + 1) f ['\n', '\t', '\t'] after (drop_succ_of_drop hdrop)
          (by simp) (by decide)
          (by simp)
          (by simp only [List.length_cons] at hfuel ⊢; omega)
        simp only [hih]
        rw [hmkU, hgcn.2.1]
        rfl

/-! ## Skipping the TAXA block, comments, and the remaining glue -/

/-- The TAXLABELS lines from one taxon on, starting at the taxon's
underscored name. -/
def taxaTailText : List String → String
  | [] => ""
  | t :: ts => underscoreName t ++ "\n" ++ String.join (ts.map taxaLine)

theorem taxaText_data (t : String) (ts : List String) :
    (String.join ((t :: ts).map taxaLine)).data
      = '\t' :: '\t' :: (taxaTailText (t :: ts)).data := by
  rw [List.map_cons, join_cons, taxaLine, taxaTailText]
  simp [String.data_append]

/-- `skipBlock` over the written TAXLABELS lines and the closing
`END;`. -/
theorem taxa_labels_skip : ∀ (taxa : List String) (fuel : Nat) (next : List Char),
    taxa ≠ [] → (∀ t ∈ taxa, GoodTaxonName t) → taxa.length + 2 < fuel →
    skipBlock fuel ((taxaTailText taxa).data
        ++ '\t' :: ';' :: ('\n' :: ('E' :: 'N' :: 'D' :: ';' :: next)))
      = some next := by
  intro taxa
  induction taxa with
  | nil => intro fuel next h; exact absurd rfl h
  | cons t ts ih =>
    intro fuel next _ hgood hfuel
    have hgt : GoodTaxonName t := hgood t (List.mem_cons_self _ _)
    have hwu : ∀ x ∈ (underscoreName t).data, isWordChar x := hgt.2.2.2.1
    have hwune : (underscoreName t).data ≠ [] := by
      intro hh
      exact hgt.2.2.1 (string_ext hh)
    cases fuel with
    | zero => simp only [List.length_cons] at hfuel; omega
    | succ f =>
      cases ts with
      | nil =>
        have hshape : (taxaTailText [t]).data
              ++ '\t' :: ';' :: ('\n' :: ('E' :: 'N' :: 'D' :: ';' :: next))
            = ([] : List Char) ++ (underscoreName t).data
              ++ ('\n' :: (['\t'] ++ ';'
                :: ('\n' :: ('E' :: 'N' :: 'D' :: ';' :: next)))) := by
          rw [taxaTailText]
          simp [String.data_append]
        rw [hshape]
        have htok := readToken_word_ws_delim (f + 1) [] (underscoreName t).data '\n'
          ['\t'] ';' ('\n' :: ('E' :: 'N' :: 'D' :: ';' :: next))
          (by intro x hx; simp at hx) (by simp) hwu hwune (by decide)
          (by intro x hx; simp at hx; rw [hx]; decide) (by simp; omega) (by decide)
        rw [skipBlock_cont htok hgt.2.2.2.2.1 hgt.2.2.2.2.2.1]
        cases f with
        | zero => simp only [List.length_cons, List.length_nil] at hfuel; omega
        | succ f2 =>
          have htokE := readToken_word_delim (f2 + 1) ['\n'] ['E', 'N', 'D'] ';' next
            (by intro x hx; simp at hx; rw [hx]; decide) (by simp; omega)
            (by decide) (by decide) (by decide)
          rw [show '\n' :: ('E' :: 'N' :: 'D' :: ';' :: next)
            = ['\n'] ++ ['E', 'N', 'D'] ++ ';' :: next from by simp]
          exact skipBlock_fin htokE (Or.inl (by decide))
      | cons t2 ts' =>
        obtain ⟨u2, ur, hu2, hu2w⟩ := uname_head (hgood t2 (by simp))
        obtain ⟨hu2s, _, _, _, _, _, _, hu2b⟩ := wordChar_props hu2w
        have htail : (taxaTailText (t2 :: ts')).data
            = u2 :: (ur ++ ("\n" ++ String.join (ts'.map taxaLine)).data) := by
          rw [taxaTailText]
          simp only [String.data_append, hu2]
          simp
        have hshape : (taxaTailText (t :: t2 :: ts')).data
              ++ '\t' :: ';' :: ('\n' :: ('E' :: 'N' :: 'D' :: ';' :: next))
            = ([] : List Char) ++ (underscoreName t).data
              ++ ('\n' :: (['\t', '\t'] ++ u2
                :: ((ur ++ ("\n" ++ String.join (ts'.map taxaLine)).data)
                  ++ '\t' :: ';' :: ('\n' :: ('E' :: 'N' :: 'D' :: ';' :: next))))) := by
          rw [taxaTailText]
          simp only [String.data_append]
          rw [taxaText_data, htail]
          simp [String.data_append]
        rw [hshape]
        have htok := readToken_word_ws_word (f + 1) [] (underscoreName t).data '\n'
          ['\t', '\t'] u2
          ((ur ++ ("\n" ++ String.join (ts'.map taxaLine)).data)
            ++ '\t' :: ';' :: ('\n' :: ('E' :: 'N' :: 'D' :: ';' :: next)))
          (by intro x hx; simp at hx) (by simp) hwu hwune (by decide)
          (by decide) (by simp; omega) hu2s hu2b
          (by obtain ⟨_, h2, h3, h4, h5, _, _, _⟩ := wordChar_props hu2w
              simp [isDelimChar, h2, h3, h4, h5])
        rw [skipBlock_cont htok hgt.2.2.2.2.1 hgt.2.2.2.2.2.1]
        rw [show u2 :: ((ur ++ ("\n" ++ String.join (ts'.map taxaLine)).data)
            ++ '\t' :: ';' :: ('\n' :: ('E' :: 'N' :: 'D' :: ';' :: next)))
          = (taxaTailText (t2 :: ts')).data
            ++ '\t' :: ';' :: ('\n' :: ('E' :: 'N' :: 'D' :: ';' :: next))
          from by rw [htail]; simp]
        exact ih f next (by simp) (fun x hx => hgood x (List.mem_cons_of_mem _ hx))
          (by simp only [List.length_cons] at hfuel ⊢; omega)

theorem skipSpaces_comment (ws1 : List Char) : ∀ (fuel : Nat) (com ws2 : List Char)
    (c : Char) (rest : List Char),
    (∀ x ∈ ws1, goIsSpace x) → ']' ∉ com → (∀ x ∈ ws2, goIsSpace x) →
    ws1.length + ws2.length + 1 < fuel → goIsSpace c = false → c ≠ '[' →
    skipSpaces fuel (ws1 ++ '[' :: (com ++ ']' :: (ws2 ++ c :: rest)))
      = some (c :: rest) := by
  induction ws1 with
  | nil =>
    intro fuel com ws2 c rest _ hcom hws2 hf hc hcb
    cases fuel with
    | zero => simp at hf
    | succ f =>
      show skipSpaces (f + 1) ('[' :: (com ++ ']' :: (ws2 ++ c :: rest))) = _
      simp only [skipSpaces, if_pos rfl, skipComment_no_rb com (ws2 ++ c :: rest) hcom]
      exact skipSpaces_ws ws2 f c rest hws2 (by simp at hf; omega) hc hcb
  | cons w ws1' ih =>
    intro fuel com ws2 c rest hws1 hcom hws2 hf hc hcb
    have hwsp : goIsSpace w = true := hws1 w (List.mem_cons_self _ _)
    have hwb : w ≠ '[' := by
      intro hh
      rw [hh] at hwsp
      exact absurd hwsp (by decide)
    cases fuel with
    | zero => simp at hf
    | succ f =>
      show skipSpaces (f + 1) (w :: (ws1' ++ '[' :: (com ++ ']' :: (ws2 ++ c :: rest)))) = _
      simp only [skipSpaces, if_neg hwb, hwsp, ite_true, reduceIte]
      exact ih f com ws2 c rest (fun x hx => hws1 x (List.mem_cons_of_mem _ hx)) hcom hws2
        (by simp only [List.length_cons] at hf; omega) hc hcb

theorem finishDelim_comment (fuel : Nat) (tok ws2 com ws3 : List Char) (d : Char)
    (rest : List Char)
    (hws2 : ∀ x ∈ ws2, goIsSpace x) (hcom : ']' ∉ com) (hws3 : ∀ x ∈ ws3, goIsSpace x)
    (hf : ws2.length + ws3.length + 1 < fuel)
    (hd : goIsSpace d = false) (hdb : d ≠ '[') (hdd : isDelimChar d = false) :
    finishDelim fuel tok ' ' (ws2 ++ '[' :: (com ++ ']' :: (ws3 ++ d :: rest)))
      = (String.mk tok, ' ', some (d :: rest)) := by
  simp only [finishDelim, show goIsSpace ' ' = true from rfl, ite_true, reduceIte,
    skipSpaces_comment ws2 fuel com ws3 d rest hws2 hcom hws3 hf hd hdb]
  simp only [isDelimChar, Bool.or_eq_true, decide_eq_true_eq] at hdd
  rw [if_neg (by simp at hdd ⊢; tauto)]

/-- `readToken` on a word, whitespace, a `[...]` comment, more
whitespace, then a non-delimiter (which the lookahead unreads). -/
theorem readToken_word_ws_comment (fuel : Nat) (ws w : List Char) (c : Char)
    (ws2 com ws3 : List Char) (d : Char) (rest : List Char)
    (hws : ∀ x ∈ ws, goIsSpace x) (hf : ws.length < fuel)
    (hw : ∀ x ∈ w, isWordChar x) (hwne : w ≠ []) (hc : goIsSpace c)
    (hws2 : ∀ x ∈ ws2, goIsSpace x) (hcom : ']' ∉ com) (hws3 : ∀ x ∈ ws3, goIsSpace x)
    (hf2 : ws2.length + ws3.length + 1 < fuel)
    (hd : goIsSpace d = false) (hdb : d ≠ '[') (hdd : isDelimChar d = false) :
    readToken fuel (ws ++ w ++ (c :: (ws2 ++ '[' :: (com ++ ']' :: (ws3 ++ d :: rest)))))
      = (String.mk w, ' ', some (d :: rest)) := by
  obtain ⟨a, w', rfl⟩ := List.exists_cons_of_ne_nil hwne
  obtain ⟨h1, _, _, _, _, h6, h7, h8⟩ := wordChar_props (hw a (List.mem_cons_self _ _))
  rw [List.append_assoc, List.cons_append]
  simp only [readToken, skipSpaces_ws ws fuel a
    (w' ++ (c :: (ws2 ++ '[' :: (com ++ ']' :: (ws3 ++ d :: rest))))) hws hf h1 h8]
  rw [if_neg (by push_neg; exact ⟨h6, h7⟩)]
  rw [show a :: (w' ++ (c :: (ws2 ++ '[' :: (com ++ ']' :: (ws3 ++ d :: rest)))))
    = (a :: w') ++ c :: (ws2 ++ '[' :: (com ++ ']' :: (ws3 ++ d :: rest))) from rfl]
  rw [readUnquoted_space _ _ _ hw hc]
  exact finishDelim_comment fuel _ ws2 com ws3 d rest hws2 hcom hws3 hf2 hd hdb hdd

theorem natDecimal_head (n : Nat) :
    ∃ u ur, (natDecimal n).data = u :: ur ∧ isWordChar u = true := by
  have hne := natDecimal_ne_nil n
  obtain ⟨u, ur, huu⟩ := List.exists_cons_of_ne_nil hne
  exact ⟨u, ur, huu, natDecimal_wordChars u (by rw [huu]; exact List.mem_cons_self _ _)⟩

theorem cslTail_head (m : Matrix) (c0 : String) (cs : List String) :
    ∃ u R, (cslTailFrom m (c0 :: cs) 0).data = u :: R ∧ isWordChar u = true := by
  obtain ⟨u, ur, hu, huw⟩ := natDecimal_head 1
  refine ⟨u, ur ++ ((" '" ++ underscoreName c0 ++ "' /" ++
    String.join ((m.States c0).map (fun s => " '" ++ s ++ "'")) ++
    (if 0 + 1 < m.Chars.length then ",\n" else " ;\n")).data
    ++ ((if cs = [] then "" else "\t\t") ++ cslTailFrom m cs (0 + 1)).data), ?_, huw⟩
  show ((cslEntryTail m 0 m.Chars.length c0 ++ (if cs = [] then "" else "\t\t")
    ++ cslTailFrom m cs (0 + 1)).data) = _
  simp only [cslEntryTail, String.data_append, hu]
  simp [String.data_append]

theorem goToLowerChar_digit {c : Char} (_ : '0' ≤ c) (h2 : c ≤ '9') :
    goToLowerChar c = c := by
  rw [goToLowerChar, if_neg]
  simp only [Bool.and_eq_true, decide_eq_true_eq, not_and]
  intro hA _
  exact absurd (le_trans hA h2) (by decide)

theorem natDecimal_lower_ne (n : Nat) :
    goToLower (natDecimal n) ≠ "end" ∧ goToLower (natDecimal n) ≠ "endblock" := by
  have hd := natDecimalAux_digits n (n + 1) (by omega)
  obtain ⟨u, ur, hu, _⟩ := natDecimal_head n
  have hudig : '0' ≤ u ∧ u ≤ '9' := by
    apply hd
    show u ∈ natDecimalAux (n + 1) n
    have hnd : (natDecimal n).data = natDecimalAux (n + 1) n := rfl
    rw [← hnd, hu]
    exact List.mem_cons_self _ _
  have hlow : (goToLower (natDecimal n)).data = goToLowerChar u :: ur.map goToLowerChar := by
    show ((natDecimal n).data.map goToLowerChar) = _
    rw [hu, List.map_cons]
  have hloweq : goToLowerChar u = u := goToLowerChar_digit hudig.1 hudig.2
  constructor <;>
  · intro hh
    have hdata := congrArg String.data hh
    rw [hlow, hloweq] at hdata
    have hue : u = 'e' := by
      have h2 := congrArg List.head? hdata
      simpa using h2
    rw [hue] at hudig
    exact absurd hudig.2 (by decide)

/-- `skipDefinition` over the quoted CHARACTERS-block title. -/
theorem title_skip : ∀ (fuel : Nat), 1 < fuel → ∀ (next : List Char),
    skipDefinition fuel ('\'' :: ("Phylogenetic data matrix".data ++ '\'' :: ';' :: next))
      = some next := by
  intro fuel hf next
  obtain ⟨f, rfl⟩ : ∃ f, fuel = f + 1 := ⟨fuel - 1, by omega⟩
  have htok := readToken_quoted_delim (f + 1) [] '\'' "Phylogenetic data matrix".data ';'
    next (by intro x hx; simp at hx) (by simp) (Or.inl rfl) (by decide) (by decide)
    (by decide)
  exact skipDefinition_fin (show readToken (f + 1)
    ('\'' :: ("Phylogenetic data matrix".data ++ '\'' :: ';' :: next))
    = (String.mk "Phylogenetic data matrix".data, ';', some next) from htok)

/-- `skipDefinition` over `NCHAR=<digits>;` (and `NTAX=<digits>;`). -/
theorem nchar_skip (nd : String) (hw : ∀ x ∈ nd.data, isWordChar x) (hne : nd.data ≠ []) :
    ∀ (fuel : Nat), 2 < fuel → ∀ (next : List Char),
    skipDefinition fuel ("NCHAR=".data ++ (nd.data ++ ';' :: next)) = some next := by
  intro fuel hf next
  obtain ⟨f, rfl⟩ : ∃ f, fuel = f + 1 := ⟨fuel - 1, by omega⟩
  have htok1 := readToken_word_delim (f + 1) [] "NCHAR".data '=' (nd.data ++ ';' :: next)
    (by intro x hx; simp at hx) (by simp) (by decide) (by decide) (by decide)
  rw [skipDefinition_cont (show readToken (f + 1)
      ("NCHAR=".data ++ (nd.data ++ ';' :: next))
      = (String.mk "NCHAR".data, '=', some (nd.data ++ ';' :: next)) from htok1)
    (by decide)]
  obtain ⟨g, rfl⟩ : ∃ g, f = g + 1 := ⟨f - 1, by omega⟩
  have htok2 := readToken_word_delim (g + 1) [] nd.data ';' next
    (by intro x hx; simp at hx) (by simp) hw hne (by decide)
  exact skipDefinition_fin (show readToken (g + 1) (nd.data ++ ';' :: next)
    = (String.mk nd.data, ';', some next) from htok2)

/-- `skipDefinition` over the writer's FORMAT directive. -/
theorem format_skip : ∀ (fuel : Nat), 10 < fuel → ∀ (next : List Char),
    skipDefinition fuel
      (("DATATYPE = STANDARD RESPECTCASE GAP = - MISSING = ? SYMBOLS = \"0 1 2 3 4 5 6 7 8 9 A B C D E F\";").data ++ next)
      = some next := by
  intro fuel hf next
  obtain ⟨f1, rfl⟩ : ∃ f, fuel = f + 1 := ⟨fuel - 1, by omega⟩
  have ht1 := readToken_word_ws_delim (f1 + 1) [] "DATATYPE".data ' ' [] '='
    ((" STANDARD RESPECTCASE GAP = - MISSING = ? SYMBOLS = \"0 1 2 3 4 5 6 7 8 9 A B C D E F\";").data ++ next)
    (by intro x hx; simp at hx) (by simp) (by decide) (by decide) (by decide)
    (by intro x hx; simp at hx) (by simp) (by decide)
  rw [skipDefinition_cont (show readToken (f1 + 1)
      (("DATATYPE = STANDARD RESPECTCASE GAP = - MISSING = ? SYMBOLS = \"0 1 2 3 4 5 6 7 8 9 A B C D E F\";").data ++ next)
      = (String.mk "DATATYPE".data, '=', some
        ((" STANDARD RESPECTCASE GAP = - MISSING = ? SYMBOLS = \"0 1 2 3 4 5 6 7 8 9 A B C D E F\";").data ++ next))
    from ht1) (by decide)]
  obtain ⟨f2, rfl⟩ : ∃ f, f1 = f + 1 := ⟨f1 - 1, by omega⟩
  have ht2 := readToken_word_ws_word (f2 + 1) [' '] "STANDARD".data ' ' [] 'R'
    (("ESPECTCASE GAP = - MISSING = ? SYMBOLS = \"0 1 2 3 4 5 6 7 8 9 A B C D E F\";").data ++ next)
    (by intro x hx; simp at hx; rw [hx]; decide) (by simp; omega) (by decide) (by decide)
    (by decide) (by intro x hx; simp at hx) (by simp) (by decide) (by decide) (by decide)
  rw [skipDefinition_cont (show readToken (f2 + 1)
      ((" STANDARD RESPECTCASE GAP = - MISSING = ? SYMBOLS = \"0 1 2 3 4 5 6 7 8 9 A B C D E F\";").data ++ next)
      = (String.mk "STANDARD".data, ' ', some
        (("RESPECTCASE GAP = - MISSING = ? SYMBOLS = \"0 1 2 3 4 5 6 7 8 9 A B C D E F\";").data ++ next))
    from ht2) (by decide)]
  obtain ⟨f3, rfl⟩ : ∃ f, f2 = f + 1 := ⟨f2 - 1, by omega⟩
  have ht3 := readToken_word_ws_word (f3 + 1) [] "RESPECTCASE".data ' ' [] 'G'
    (("AP = - MISSING = ? SYMBOLS = \"0 1 2 3 4 5 6 7 8 9 A B C D E F\";").data ++ next)
    (by intro x hx; simp at hx) (by simp) (by decide) (by decide)
    (by decide) (by intro x hx; simp at hx) (by simp) (by decide) (by decide) (by decide)
  rw [skipDefinition_cont (show readToken (f3 + 1)
      (("RESPECTCASE GAP = - MISSING = ? SYMBOLS = \"0 1 2 3 4 5 6 7 8 9 A B C D E F\";").data ++ next)
      = (String.mk "RESPECTCASE".data, ' ', some
        (("GAP = - MISSING = ? SYMBOLS = \"0 1 2 3 4 5 6 7 8 9 A B C D E F\";").data ++ next))
    from ht3) (by decide)]
  obtain ⟨f4, rfl⟩ : ∃ f, f3 = f + 1 := ⟨f3 - 1, by omega⟩
  have ht4 := readToken_word_ws_delim (f4 + 1) [] "GAP".data ' ' [] '='
    ((" - MISSING = ? SYMBOLS = \"0 1 2 3 4 5 6 7 8 9 A B C D E F\";").data ++ next)
    (by intro x hx; simp at hx) (by simp) (by decide) (by decide) (by decide)
    (by intro x hx; simp at hx) (by simp) (by decide)
  rw [skipDefinition_cont (show readToken (f4 + 1)
      (("GAP = - MISSING = ? SYMBOLS = \"0 1 2 3 4 5 6 7 8 9 A B C D E F\";").data ++ next)
      = (String.mk "GAP".data, '=', some
        ((" - MISSING = ? SYMBOLS = \"0 1 2 3 4 5 6 7 8 9 A B C D E F\";").data ++ next))
    from ht4) (by decide)]
  obtain ⟨f5, rfl⟩ : ∃ f, f4 = f + 1 := ⟨f4 - 1, by omega⟩
  have ht5 := readToken_word_ws_word (f5 + 1) [' '] ['-'] ' ' [] 'M'
    (("ISSING = ? SYMBOLS = \"0 1 2 3 4 5 6 7 8 9 A B C D E F\";").data ++ next)
    (by intro x hx; simp at hx; rw [hx]; decide) (by simp; omega) (by decide) (by decide)
    (by decide) (by intro x hx; simp at hx) (by simp) (by decide) (by decide) (by decide)
  rw [skipDefinition_cont (show readToken (f5 + 1)
      ((" - MISSING = ? SYMBOLS = \"0 1 2 3 4 5 6 7 8 9 A B C D E F\";").data ++ next)
      = (String.mk ['-'], ' ', some
        (("MISSING = ? SYMBOLS = \"0 1 2 3 4 5 6 7 8 9 A B C D E F\";").data ++ next))
    from ht5) (by decide)]
  obtain ⟨f6, rfl⟩ : ∃ f, f5 = f + 1 := ⟨f5 - 1, by omega⟩
  have ht6 := readToken_word_ws_delim (f6 + 1) [] "MISSING".data ' ' [] '='
    ((" ? SYMBOLS = \"0 1 2 3 4 5 6 7 8 9 A B C D E F\";").data ++ next)
    (by intro x hx; simp at hx) (by simp) (by decide) (by decide) (by decide)
    (by intro x hx; simp at hx) (by simp) (by decide)
  rw [skipDefinition_cont (show readToken (f6 + 1)
      (("MISSING = ? SYMBOLS = \"0 1 2 3 4 5 6 7 8 9 A B C D E F\";").data ++ next)
      = (String.mk "MISSING".data, '=', some
        ((" ? SYMBOLS = \"0 1 2 3 4 5 6 7 8 9 A B C D E F\";").data ++ next))
    from ht6) (by decide)]
  obtain ⟨f7, rfl⟩ : ∃ f, f6 = f + 1 := ⟨f6 - 1, by omega⟩
  have ht7 := readToken_word_ws_word (f7 + 1) [' '] ['?'] ' ' [] 'S'
    (("YMBOLS = \"0 1 2 3 4 5 6 7 8 9 A B C D E F\";").data ++ next)
    (by intro x hx; simp at hx; rw [hx]; decide) (by simp; omega) (by decide) (by decide)
    (by decide) (by intro x hx; simp at hx) (by simp) (by decide) (by decide) (by decide)
  rw [skipDefinition_cont (show readToken (f7 + 1)
      ((" ? SYMBOLS = \"0 1 2 3 4 5 6 7 8 9 A B C D E F\";").data ++ next)
      = (String.mk ['?'], ' ', some
        (("SYMBOLS = \"0 1 2 3 4 5 6 7 8 9 A B C D E F\";").data ++ next))
    from ht7) (by decide)]
  obtain ⟨f8, rfl⟩ : ∃ f, f7 = f + 1 := ⟨f7 - 1, by omega⟩
  have ht8 := readToken_word_ws_delim (f8 + 1) [] "SYMBOLS".data ' ' [] '='
    ((" \"0 1 2 3 4 5 6 7 8 9 A B C D E F\";").data ++ next)
    (by intro x hx; simp at hx) (by simp) (by decide) (by decide) (by decide)
    (by intro x hx; simp at hx) (by simp) (by decide)
  rw [skipDefinition_cont (show readToken (f8 + 1)
      (("SYMBOLS = \"0 1 2 3 4 5 6 7 8 9 A B C D E F\";").data ++ next)
      = (String.mk "SYMBOLS".data, '=', some
        ((" \"0 1 2 3 4 5 6 7 8 9 A B C D E F\";").data ++ next))
    from ht8) (by decide)]
  obtain ⟨f9, rfl⟩ : ∃ f, f8 = f + 1 := ⟨f8 - 1, by omega⟩
  have ht9 := readToken_quoted_delim (f9 + 1) [' '] '"'
    ("0 1 2 3 4 5 6 7 8 9 A B C D E F").data ';' next
    (by intro x hx; simp at hx; rw [hx]; decide) (by simp; omega) (Or.inr rfl) (by decide)
    (by decide) (by decide)
  exact skipDefinition_fin (show readToken (f9 + 1)
    ((" \"0 1 2 3 4 5 6 7 8 9 A B C D E F\";").data ++ next)
    = (String.mk ("0 1 2 3 4 5 6 7 8 9 A B C D E F").data, ';', some next) from ht9)

theorem taxaTail_head {t : String} (ts : List String) (hg : GoodTaxonName t) :
    ∃ u R, (taxaTailText (t :: ts)).data = u :: R ∧ isWordChar u = true := by
  obtain ⟨u, ur, hu, huw⟩ := uname_head hg
  refine ⟨u, ur ++ ("\n" ++ String.join (ts.map taxaLine)).data, ?_, huw⟩
  rw [taxaTailText]
  simp only [String.data_append, hu]
  simp

theorem rowsTail_head {m : Matrix} {t : String} (ts : List String) (hg : GoodTaxonName t) :
    ∃ u R, (rowsTailText m (t :: ts)).data = u :: R ∧ isWordChar u = true := by
  obtain ⟨u, ur, hu, huw⟩ := uname_head hg
  refine ⟨u, ur ++ ("\t" ++ String.join (m.Chars.map (fun c =>
    cellText m (m.States c) (m.TaxSpec t) c)) ++ "\n" ++
    String.join (ts.map (fun n => matrixRowText m n m.Chars))).data, ?_, huw⟩
  rw [rowsTailText]
  simp only [String.data_append, hu]
  simp

/-- One `readNexusBlockLoop` iteration over the written TAXA block:
its definitions and labels are skipped. -/
theorem taxa_block_step {mm : Matrix} {ref : String} (taxa : List String) (fuel : Nat)
    (next : List Char) (hne : taxa ≠ []) (hgood : ∀ t ∈ taxa, GoodTaxonName t)
    (hfuel : taxa.length + 12 < fuel) :
    readNexusBlockLoop (fuel + 1) mm ref ((taxaBlockText taxa).data ++ next)
      = readNexusBlockLoop fuel mm ref ('\n' :: '\n' :: next) := by
  obtain ⟨t0, ts0, rfl⟩ := List.exists_cons_of_ne_nil hne
  obtain ⟨u0, R0, hrt, hu0w⟩ := taxaTail_head ts0 (hgood t0 (List.mem_cons_self _ _))
  have hshape : (taxaBlockText (t0 :: ts0)).data ++ next
      = "BEGIN TAXA;\n\tTITLE Taxa;\n\tDIMENSIONS NTAX=".data
        ++ ((natDecimal (t0 :: ts0).length).data
          ++ (";\n\tTAXLABELS\n\t\t".data
            ++ (u0 :: (R0 ++ ("\t;\nEND;\n\n".data ++ next))))) := by
    rw [taxaBlockText]
    simp only [String.data_append, List.append_assoc]
    rw [taxaText_data, hrt]
    simp
  rw [hshape]
  have htokA := readToken_word_ws_word (fuel + 1) [] "BEGIN".data ' ' [] 'T'
    ("AXA;\n\tTITLE Taxa;\n\tDIMENSIONS NTAX=".data
      ++ ((natDecimal (t0 :: ts0).length).data
        ++ (";\n\tTAXLABELS\n\t\t".data ++ (u0 :: (R0 ++ ("\t;\nEND;\n\n".data ++ next))))))
    (by intro x hx; simp at hx) (by simp) (by decide) (by decide) (by decide)
    (by intro x hx; simp at hx) (by simp) (by decide) (by decide) (by decide)
  have htokA2 : readToken (fuel + 1)
      ("BEGIN TAXA;\n\tTITLE Taxa;\n\tDIMENSIONS NTAX=".data
        ++ ((natDecimal (t0 :: ts0).length).data
          ++ (";\n\tTAXLABELS\n\t\t".data
            ++ (u0 :: (R0 ++ ("\t;\nEND;\n\n".data ++ next))))))
      = ("BEGIN", ' ', some ('T' :: ("AXA;\n\tTITLE Taxa;\n\tDIMENSIONS NTAX=".data
        ++ ((natDecimal (t0 :: ts0).length).data
          ++ (";\n\tTAXLABELS\n\t\t".data
            ++ (u0 :: (R0 ++ ("\t;\nEND;\n\n".data ++ next)))))))) := htokA
  have htokB := readToken_word_delim (fuel + 1) [] "TAXA".data ';'
    ("\n\tTITLE Taxa;\n\tDIMENSIONS NTAX=".data
      ++ ((natDecimal (t0 :: ts0).length).data
        ++ (";\n\tTAXLABELS\n\t\t".data ++ (u0 :: (R0 ++ ("\t;\nEND;\n\n".data ++ next))))))
    (by intro x hx; simp at hx) (by simp) (by decide) (by decide) (by decide)
  have htokB2 : readToken (fuel + 1)
      ('T' :: ("AXA;\n\tTITLE Taxa;\n\tDIMENSIONS NTAX=".data
        ++ ((natDecimal (t0 :: ts0).length).data
          ++ (";\n\tTAXLABELS\n\t\t".data
            ++ (u0 :: (R0 ++ ("\t;\nEND;\n\n".data ++ next)))))))
      = ("TAXA", ';', some ("\n\tTITLE Taxa;\n\tDIMENSIONS NTAX=".data
        ++ ((natDecimal (t0 :: ts0).length).data
          ++ (";\n\tTAXLABELS\n\t\t".data
            ++ (u0 :: (R0 ++ ("\t;\nEND;\n\n".data ++ next))))))) := htokB
  have hsb : skipBlock (fuel + 1)
      ("\n\tTITLE Taxa;\n\tDIMENSIONS NTAX=".data
        ++ ((natDecimal (t0 :: ts0).length).data
          ++ (";\n\tTAXLABELS\n\t\t".data
            ++ (u0 :: (R0 ++ ("\t;\nEND;\n\n".data ++ next))))))
      = some ('\n' :: '\n' :: next) := by
    have ht1 := readToken_word_ws_word (fuel + 1) ['\n', '\t'] "TITLE".data ' ' [] 'T'
      ("axa;\n\tDIMENSIONS NTAX=".data
        ++ ((natDecimal (t0 :: ts0).length).data
          ++ (";\n\tTAXLABELS\n\t\t".data ++ (u0 :: (R0 ++ ("\t;\nEND;\n\n".data ++ next))))))
      (by decide) (by simp; omega) (by decide) (by decide) (by decide)
      (by intro x hx; simp at hx) (by simp) (by decide) (by decide) (by decide)
    rw [skipBlock_cont (show readToken (fuel + 1)
        ("\n\tTITLE Taxa;\n\tDIMENSIONS NTAX=".data
          ++ ((natDecimal (t0 :: ts0).length).data
            ++ (";\n\tTAXLABELS\n\t\t".data
              ++ (u0 :: (R0 ++ ("\t;\nEND;\n\n".data ++ next))))))
        = (String.mk "TITLE".data, ' ', some ('T' :: ("axa;\n\tDIMENSIONS NTAX=".data
          ++ ((natDecimal (t0 :: ts0).length).data
            ++ (";\n\tTAXLABELS\n\t\t".data
              ++ (u0 :: (R0 ++ ("\t;\nEND;\n\n".data ++ next))))))))
      from ht1) (by decide) (by decide)]
    obtain ⟨g2, rfl⟩ : ∃ g, fuel = g + 1 := ⟨fuel - 1, by omega⟩
    have ht2 := readToken_word_delim (g2 + 1) [] "Taxa".data ';'
      ("\n\tDIMENSIONS NTAX=".data
        ++ ((natDecimal (t0 :: ts0).length).data
          ++ (";\n\tTAXLABELS\n\t\t".data ++ (u0 :: (R0 ++ ("\t;\nEND;\n\n".data ++ next))))))
      (by intro x hx; simp at hx) (by simp) (by decide) (by decide) (by decide)
    rw [skipBlock_cont (show readToken (g2 + 1)
        ('T' :: ("axa;\n\tDIMENSIONS NTAX=".data
          ++ ((natDecimal (t0 :: ts0).length).data
            ++ (";\n\tTAXLABELS\n\t\t".data
              ++ (u0 :: (R0 ++ ("\t;\nEND;\n\n".data ++ next)))))))
        = (String.mk "Taxa".data, ';', some ("\n\tDIMENSIONS NTAX=".data
          ++ ((natDecimal (t0 :: ts0).length).data
            ++ (";\n\tTAXLABELS\n\t\t".data
              ++ (u0 :: (R0 ++ ("\t;\nEND;\n\n".data ++ next)))))))
      from ht2) (by decide) (by decide)]
    obtain ⟨g3, rfl⟩ : ∃ g, g2 = g + 1 := ⟨g2 - 1, by omega⟩
    have ht3 := readToken_word_ws_word (g3 + 1) ['\n', '\t'] "DIMENSIONS".data ' ' [] 'N'
      ("TAX=".data
        ++ ((natDecimal (t0 :: ts0).length).data
          ++ (";\n\tTAXLABELS\n\t\t".data ++ (u0 :: (R0 ++ ("\t;\nEND;\n\n".data ++ next))))))
      (by decide) (by simp; omega) (by decide) (by decide) (by decide)
      (by intro x hx; simp at hx) (by simp) (by decide) (by decide) (by decide)
    rw [skipBlock_cont (show readToken (g3 + 1)
        ("\n\tDIMENSIONS NTAX=".data
          ++ ((natDecimal (t0 :: ts0).length).data
            ++ (";\n\tTAXLABELS\n\t\t".data
              ++ (u0 :: (R0 ++ ("\t;\nEND;\n\n".data ++ next))))))
        = (String.mk "DIMENSIONS".data, ' ', some ('N' :: ("TAX=".data
          ++ ((natDecimal (t0 :: ts0).length).data
            ++ (";\n\tTAXLABELS\n\t\t".data
              ++ (u0 :: (R0 ++ ("\t;\nEND;\n\n".data ++ next))))))))
      from ht3) (by decide) (by decide)]
    obtain ⟨g4, rfl⟩ : ∃ g, g3 = g + 1 := ⟨g3 - 1, by omega⟩
    have ht4 := readToken_word_delim (g4 + 1) [] "NTAX".data '='
      ((natDecimal (t0 :: ts0).length).data
        ++ (";\n\tTAXLABELS\n\t\t".data ++ (u0 :: (R0 ++ ("\t;\nEND;\n\n".data ++ next)))))
      (by intro x hx; simp at hx) (by simp) (by decide) (by decide) (by decide)
    rw [skipBlock_cont (show readToken (g4 + 1)
        ('N' :: ("TAX=".data
          ++ ((natDecimal (t0 :: ts0).length).data
            ++ (";\n\tTAXLABELS\n\t\t".data
              ++ (u0 :: (R0 ++ ("\t;\nEND;\n\n".data ++ next)))))))
        = (String.mk "NTAX".data, '=', some ((natDecimal (t0 :: ts0).length).data
          ++ (";\n\tTAXLABELS\n\t\t".data
            ++ (u0 :: (R0 ++ ("\t;\nEND;\n\n".data ++ next))))))
      from ht4) (by decide) (by decide)]
    obtain ⟨g5, rfl⟩ : ∃ g, g4 = g + 1 := ⟨g4 - 1, by omega⟩
    have ht5 := readToken_word_delim (g5 + 1) [] (natDecimal (t0 :: ts0).length).data ';'
      ("\n\tTAXLABELS\n\t\t".data ++ (u0 :: (R0 ++ ("\t;\nEND;\n\n".data ++ next))))
      (by intro x hx; simp at hx) (by simp) natDecimal_wordChars
      (natDecimal_ne_nil _) (by decide)
    have hmknd : String.mk (natDecimal (t0 :: ts0).length).data
        = natDecimal (t0 :: ts0).length := string_ext rfl
    rw [skipBlock_cont (show readToken (g5 + 1)
        ((natDecimal (t0 :: ts0).length).data
          ++ (";\n\tTAXLABELS\n\t\t".data
            ++ (u0 :: (R0 ++ ("\t;\nEND;\n\n".data ++ next)))))
        = (natDecimal (t0 :: ts0).length, ';', some ("\n\tTAXLABELS\n\t\t".data
          ++ (u0 :: (R0 ++ ("\t;\nEND;\n\n".data ++ next)))))
      from by rw [← hmknd]; exact ht5)
      (natDecimal_lower_ne _).1 (natDecimal_lower_ne _).2]
    obtain ⟨g6, rfl⟩ : ∃ g, g5 = g + 1 := ⟨g5 - 1, by omega⟩
    have ht6 := readToken_word_ws_word (g6 + 1) ['\n', '\t'] "TAXLABELS".data '\n'
      ['\t', '\t'] u0 (R0 ++ ("\t;\nEND;\n\n".data ++ next))
      (by decide) (by simp; omega) (by decide) (by decide) (by decide)
      (by decide) (by simp; omega)
      (wordChar_props hu0w).1
      (by
        obtain ⟨_, _, _, _, _, _, _, h8⟩ := wordChar_props hu0w
        exact h8)
      (by
        obtain ⟨_, h2, h3, h4, h5, _, _, _⟩ := wordChar_props hu0w
        simp [isDelimChar, h2, h3, h4, h5])
    rw [skipBlock_cont (show readToken (g6 + 1)
        ("\n\tTAXLABELS\n\t\t".data
          ++ (u0 :: (R0 ++ ("\t;\nEND;\n\n".data ++ next))))
        = (String.mk "TAXLABELS".data, ' ', some (u0 :: (R0
          ++ ("\t;\nEND;\n\n".data ++ next))))
      from ht6) (by decide) (by decide)]
    rw [show u0 :: (R0 ++ ("\t;\nEND;\n\n".data ++ next))
      = (taxaTailText (t0 :: ts0)).data
        ++ '\t' :: ';' :: ('\n' :: ('E' :: 'N' :: 'D' :: ';' :: ('\n' :: '\n' :: next)))
      from by rw [hrt]; simp]
    exact taxa_labels_skip (t0 :: ts0) g6 ('\n' :: '\n' :: next) (by simp) hgood
      (by simp only [List.length_cons] at hfuel ⊢; omega)
  rw [blockloop_skip htokA2 (by decide) htokB2 (by decide) hsb]

/-- The CHARACTERS block of the written text: the directive loop skips
the title, dimensions and format, reads the state labels and the matrix
rows, and finishes at `END;`. -/
theorem chars_block_run {ref : String} {m : Matrix} (hwf : NexusWF ref m) :
    ∀ (fuel : Nat), m.Taxa.length + m.Chars.length + 40 < fuel →
    readNexusBlockLoop fuel Matrix.New ref
      ('\n' :: '\n' :: ("BEGIN CHARACTERS;\n\tTITLE 'Phylogenetic data matrix';\n\tDIMENSIONS NCHAR=".data
        ++ ((natDecimal m.Chars.length).data
          ++ (";\n\tFORMAT DATATYPE = STANDARD RESPECTCASE GAP = - MISSING = ? SYMBOLS = \"0 1 2 3 4 5 6 7 8 9 A B C D E F\";\n\tCHARSTATELABELS\n\t\t".data
            ++ ((cslTailFrom m m.Chars 0).data
              ++ ("\tMATRIX\n\t".data
                ++ ((rowsTailText m m.Taxa).data ++ "\t;\nEND;\n\n".data)))))))
      = some (Matrix.mk (readChars m) (expSpecs m ref)) := by
  intro fuel hfuel
  obtain ⟨t0, ts0, htax⟩ := List.exists_cons_of_ne_nil (wf_Taxa_ne_nil hwf)
  obtain ⟨c0, cs0, hch⟩ := List.exists_cons_of_ne_nil (wf_Chars_ne_nil hwf)
  rw [htax] at hfuel
  obtain ⟨f1, rfl⟩ : ∃ f, fuel = f + 1 := ⟨fuel - 1, by omega⟩
  have htokA := readToken_word_ws_word (f1 + 1) ['\n', '\n'] "BEGIN".data ' ' [] 'C'
    ("HARACTERS;\n\tTITLE 'Phylogenetic data matrix';\n\tDIMENSIONS NCHAR=".data
      ++ ((natDecimal m.Chars.length).data
        ++ (";\n\tFORMAT DATATYPE = STANDARD RESPECTCASE GAP = - MISSING = ? SYMBOLS = \"0 1 2 3 4 5 6 7 8 9 A B C D E F\";\n\tCHARSTATELABELS\n\t\t".data
          ++ ((cslTailFrom m m.Chars 0).data
            ++ ("\tMATRIX\n\t".data
              ++ ((rowsTailText m m.Taxa).data ++ "\t;\nEND;\n\n".data))))))
    (by decide) (by simp; omega) (by decide) (by decide) (by decide)
    (by intro x hx; simp at hx) (by simp) (by decide) (by decide) (by decide)
  have htokB := readToken_word_delim (f1 + 1) [] "CHARACTERS".data ';'
    ("\n\tTITLE 'Phylogenetic data matrix';\n\tDIMENSIONS NCHAR=".data
      ++ ((natDecimal m.Chars.length).data
        ++ (";\n\tFORMAT DATATYPE = STANDARD RESPECTCASE GAP = - MISSING = ? SYMBOLS = \"0 1 2 3 4 5 6 7 8 9 A B C D E F\";\n\tCHARSTATELABELS\n\t\t".data
          ++ ((cslTailFrom m m.Chars 0).data
            ++ ("\tMATRIX\n\t".data
              ++ ((rowsTailText m m.Taxa).data ++ "\t;\nEND;\n\n".data))))))
    (by intro x hx; simp at hx) (by simp) (by decide) (by decide) (by decide)
  rw [blockloop_chars
    (show readToken (f1 + 1)
      ('\n' :: '\n' :: ("BEGIN CHARACTERS;\n\tTITLE 'Phylogenetic data matrix';\n\tDIMENSIONS NCHAR=".data
        ++ ((natDecimal m.Chars.length).data
          ++ (";\n\tFORMAT DATATYPE = STANDARD RESPECTCASE GAP = - MISSING = ? SYMBOLS = \"0 1 2 3 4 5 6 7 8 9 A B C D E F\";\n\tCHARSTATELABELS\n\t\t".data
            ++ ((cslTailFrom m m.Chars 0).data
              ++ ("\tMATRIX\n\t".data
                ++ ((rowsTailText m m.Taxa).data ++ "\t;\nEND;\n\n".data)))))))
      = ("BEGIN", ' ', some ('C' ::
        ("HARACTERS;\n\tTITLE 'Phylogenetic data matrix';\n\tDIMENSIONS NCHAR=".data
          ++ ((natDecimal m.Chars.length).data
            ++ (";\n\tFORMAT DATATYPE = STANDARD RESPECTCASE GAP = - MISSING = ? SYMBOLS = \"0 1 2 3 4 5 6 7 8 9 A B C D E F\";\n\tCHARSTATELABELS\n\t\t".data
              ++ ((cslTailFrom m m.Chars 0).data
                ++ ("\tMATRIX\n\t".data
                  ++ ((rowsTailText m m.Taxa).data ++ "\t;\nEND;\n\n".data)))))))) from htokA)
    (by decide)
    (show readToken (f1 + 1)
      ('C' :: ("HARACTERS;\n\tTITLE 'Phylogenetic data matrix';\n\tDIMENSIONS NCHAR=".data
        ++ ((natDecimal m.Chars.length).data
          ++ (";\n\tFORMAT DATATYPE = STANDARD RESPECTCASE GAP = - MISSING = ? SYMBOLS = \"0 1 2 3 4 5 6 7 8 9 A B C D E F\";\n\tCHARSTATELABELS\n\t\t".data
            ++ ((cslTailFrom m m.Chars 0).data
              ++ ("\tMATRIX\n\t".data
                ++ ((rowsTailText m m.Taxa).data ++ "\t;\nEND;\n\n".data)))))))
      = ("CHARACTERS", ';', some
        ("\n\tTITLE 'Phylogenetic data matrix';\n\tDIMENSIONS NCHAR=".data
          ++ ((natDecimal m.Chars.length).data
            ++ (";\n\tFORMAT DATATYPE = STANDARD RESPECTCASE GAP = - MISSING = ? SYMBOLS = \"0 1 2 3 4 5 6 7 8 9 A B C D E F\";\n\tCHARSTATELABELS\n\t\t".data
              ++ ((cslTailFrom m m.Chars 0).data
                ++ ("\tMATRIX\n\t".data
                  ++ ((rowsTailText m m.Taxa).data ++ "\t;\nEND;\n\n".data))))))) from htokB)
    (by decide)]
  have htokT := readToken_word_ws_word (f1 + 1) ['\n', '\t'] "TITLE".data ' ' [] '\''
    ("Phylogenetic data matrix".data ++ '\'' :: ';' ::
      ("\n\tDIMENSIONS NCHAR=".data
        ++ ((natDecimal m.Chars.length).data
          ++ (";\n\tFORMAT DATATYPE = STANDARD RESPECTCASE GAP = - MISSING = ? SYMBOLS = \"0 1 2 3 4 5 6 7 8 9 A B C D E F\";\n\tCHARSTATELABELS\n\t\t".data
            ++ ((cslTailFrom m m.Chars 0).data
              ++ ("\tMATRIX\n\t".data
                ++ ((rowsTailText m m.Taxa).data ++ "\t;\nEND;\n\n".data)))))))
    (by decide) (by simp; omega) (by decide) (by decide) (by decide)
    (by intro x hx; simp at hx) (by simp) (by decide) (by decide) (by decide)
  rw [dirloop_skip
    (show readToken (f1 + 1)
      ("\n\tTITLE 'Phylogenetic data matrix';\n\tDIMENSIONS NCHAR=".data
        ++ ((natDecimal m.Chars.length).data
          ++ (";\n\tFORMAT DATATYPE = STANDARD RESPECTCASE GAP = - MISSING = ? SYMBOLS = \"0 1 2 3 4 5 6 7 8 9 A B C D E F\";\n\tCHARSTATELABELS\n\t\t".data
            ++ ((cslTailFrom m m.Chars 0).data
              ++ ("\tMATRIX\n\t".data
                ++ ((rowsTailText m m.Taxa).data ++ "\t;\nEND;\n\n".data))))))
      = ("TITLE", ' ', some ('\'' :: ("Phylogenetic data matrix".data ++ '\'' :: ';' ::
        ("\n\tDIMENSIONS NCHAR=".data
          ++ ((natDecimal m.Chars.length).data
            ++ (";\n\tFORMAT DATATYPE = STANDARD RESPECTCASE GAP = - MISSING = ? SYMBOLS = \"0 1 2 3 4 5 6 7 8 9 A B C D E F\";\n\tCHARSTATELABELS\n\t\t".data
              ++ ((cslTailFrom m m.Chars 0).data
                ++ ("\tMATRIX\n\t".data
                  ++ ((rowsTailText m m.Taxa).data ++ "\t;\nEND;\n\n".data))))))))) from htokT)
    (by decide) (by decide) (by decide) (by decide) (by decide) (by decide)
    (title_skip (f1 + 1) (by omega) _)]
  obtain ⟨f2, rfl⟩ : ∃ f, f1 = f + 1 := ⟨f1 - 1, by omega⟩
  have htokD := readToken_word_ws_word (f2 + 1) ['\n', '\t'] "DIMENSIONS".data ' ' [] 'N'
    ("CHAR=".data
      ++ ((natDecimal m.Chars.length).data
        ++ (";\n\tFORMAT DATATYPE = STANDARD RESPECTCASE GAP = - MISSING = ? SYMBOLS = \"0 1 2 3 4 5 6 7 8 9 A B C D E F\";\n\tCHARSTATELABELS\n\t\t".data
          ++ ((cslTailFrom m m.Chars 0).data
            ++ ("\tMATRIX\n\t".data
              ++ ((rowsTailText m m.Taxa).data ++ "\t;\nEND;\n\n".data))))))
    (by decide) (by simp; omega) (by decide) (by decide) (by decide)
    (by intro x hx; simp at hx) (by simp) (by decide) (by decide) (by decide)
  rw [dirloop_skip
    (show readToken (f2 + 1)
      ("\n\tDIMENSIONS NCHAR=".data
        ++ ((natDecimal m.Chars.length).data
          ++ (";\n\tFORMAT DATATYPE = STANDARD RESPECTCASE GAP = - MISSING = ? SYMBOLS = \"0 1 2 3 4 5 6 7 8 9 A B C D E F\";\n\tCHARSTATELABELS\n\t\t".data
            ++ ((cslTailFrom m m.Chars 0).data
              ++ ("\tMATRIX\n\t".data
                ++ ((rowsTailText m m.Taxa).data ++ "\t;\nEND;\n\n".data))))))
      = ("DIMENSIONS", ' ', some ('N' :: ("CHAR=".data
        ++ ((natDecimal m.Chars.length).data
          ++ (";\n\tFORMAT DATATYPE = STANDARD RESPECTCASE GAP = - MISSING = ? SYMBOLS = \"0 1 2 3 4 5 6 7 8 9 A B C D E F\";\n\tCHARSTATELABELS\n\t\t".data
            ++ ((cslTailFrom m m.Chars 0).data
              ++ ("\tMATRIX\n\t".data
                ++ ((rowsTailText m m.Taxa).data ++ "\t;\nEND;\n\n".data)))))))) from htokD)
    (by decide) (by decide) (by decide) (by decide) (by decide) (by decide)
    (show skipDefinition (f2 + 1) ('N' :: ("CHAR=".data
        ++ ((natDecimal m.Chars.length).data
          ++ (";\n\tFORMAT DATATYPE = STANDARD RESPECTCASE GAP = - MISSING = ? SYMBOLS = \"0 1 2 3 4 5 6 7 8 9 A B C D E F\";\n\tCHARSTATELABELS\n\t\t".data
            ++ ((cslTailFrom m m.Chars 0).data
              ++ ("\tMATRIX\n\t".data
                ++ ((rowsTailText m m.Taxa).data ++ "\t;\nEND;\n\n".data)))))))
      = some ("\n\tFORMAT DATATYPE = STANDARD RESPECTCASE GAP = - MISSING = ? SYMBOLS = \"0 1 2 3 4 5 6 7 8 9 A B C D E F\";\n\tCHARSTATELABELS\n\t\t".data
          ++ ((cslTailFrom m m.Chars 0).data
            ++ ("\tMATRIX\n\t".data
              ++ ((rowsTailText m m.Taxa).data ++ "\t;\nEND;\n\n".data))))
      from nchar_skip (natDecimal m.Chars.length) natDecimal_wordChars
        (natDecimal_ne_nil _) (f2 + 1) (by omega) _)]
  obtain ⟨f3, rfl⟩ : ∃ f, f2 = f + 1 := ⟨f2 - 1, by omega⟩
  have htokF := readToken_word_ws_word (f3 + 1) ['\n', '\t'] "FORMAT".data ' ' [] 'D'
    ("ATATYPE = STANDARD RESPECTCASE GAP = - MISSING = ? SYMBOLS = \"0 1 2 3 4 5 6 7 8 9 A B C D E F\";\n\tCHARSTATELABELS\n\t\t".data
      ++ ((cslTailFrom m m.Chars 0).data
        ++ ("\tMATRIX\n\t".data
          ++ ((rowsTailText m m.Taxa).data ++ "\t;\nEND;\n\n".data))))
    (by decide) (by simp; omega) (by decide) (by decide) (by decide)
    (by intro x hx; simp at hx) (by simp) (by decide) (by decide) (by decide)
  rw [dirloop_skip
    (show readToken (f3 + 1)
      ("\n\tFORMAT DATATYPE = STANDARD RESPECTCASE GAP = - MISSING = ? SYMBOLS = \"0 1 2 3 4 5 6 7 8 9 A B C D E F\";\n\tCHARSTATELABELS\n\t\t".data
        ++ ((cslTailFrom m m.Chars 0).data
          ++ ("\tMATRIX\n\t".data
            ++ ((rowsTailText m m.Taxa).data ++ "\t;\nEND;\n\n".data))))
      = ("FORMAT", ' ', some ('D' ::
        ("ATATYPE = STANDARD RESPECTCASE GAP = - MISSING = ? SYMBOLS = \"0 1 2 3 4 5 6 7 8 9 A B C D E F\";\n\tCHARSTATELABELS\n\t\t".data
          ++ ((cslTailFrom m m.Chars 0).data
            ++ ("\tMATRIX\n\t".data
              ++ ((rowsTailText m m.Taxa).data ++ "\t;\nEND;\n\n".data)))))) from htokF)
    (by decide) (by decide) (by decide) (by decide) (by decide) (by decide)
    (show skipDefinition (f3 + 1) ('D' ::
        ("ATATYPE = STANDARD RESPECTCASE GAP = - MISSING = ? SYMBOLS = \"0 1 2 3 4 5 6 7 8 9 A B C D E F\";\n\tCHARSTATELABELS\n\t\t".data
          ++ ((cslTailFrom m m.Chars 0).data
            ++ ("\tMATRIX\n\t".data
              ++ ((rowsTailText m m.Taxa).data ++ "\t;\nEND;\n\n".data)))))
      = some ("\n\tCHARSTATELABELS\n\t\t".data
          ++ ((cslTailFrom m m.Chars 0).data
            ++ ("\tMATRIX\n\t".data
              ++ ((rowsTailText m m.Taxa).data ++ "\t;\nEND;\n\n".data))))
      from format_skip (f3 + 1) (by omega) _)]
  obtain ⟨f4, rfl⟩ : ∃ f, f3 = f + 1 := ⟨f3 - 1, by omega⟩
  have hcsl0 : ∃ u R, (cslTailFrom m m.Chars 0).data = u :: R ∧ isWordChar u = true := by
    rw [hch]
    exact cslTail_head m c0 cs0
  obtain ⟨u, R, hcsl, huw⟩ := hcsl0
  rw [hcsl]
  have htokC := readToken_word_ws_word (f4 + 1) ['\n', '\t'] "CHARSTATELABELS".data '\n'
    ['\t', '\t'] u
    (R ++ ("\tMATRIX\n\t".data
      ++ ((rowsTailText m m.Taxa).data ++ "\t;\nEND;\n\n".data)))
    (by decide) (by simp; omega) (by decide) (by decide) (by decide)
    (by decide) (by simp; omega)
    (wordChar_props huw).1
    (by obtain ⟨_, _, _, _, _, _, _, h8⟩ := wordChar_props huw; exact h8)
    (by obtain ⟨_, h2, h3, h4, h5, _, _, _⟩ := wordChar_props huw
        simp [isDelimChar, h2, h3, h4, h5])
  have hcslrun : readNexusCharStateLabels (f4 + 1) 0
      (u :: (R ++ ("\tMATRIX\n\t".data
        ++ ((rowsTailText m m.Taxa).data ++ "\t;\nEND;\n\n".data))))
      = some (nexusCharsOf m, '\n' :: ("\tMATRIX\n\t".data
        ++ ((rowsTailText m m.Taxa).data ++ "\t;\nEND;\n\n".data))) := by
    rw [show u :: (R ++ ("\tMATRIX\n\t".data
        ++ ((rowsTailText m m.Taxa).data ++ "\t;\nEND;\n\n".data)))
      = ([] : List Char) ++ (cslTailFrom m m.Chars 0).data
        ++ ("\tMATRIX\n\t".data
          ++ ((rowsTailText m m.Taxa).data ++ "\t;\nEND;\n\n".data))
      from by rw [hcsl]; simp]
    rw [csl_run hwf m.Chars 0 (f4 + 1) []
      ("\tMATRIX\n\t".data ++ ((rowsTailText m m.Taxa).data ++ "\t;\nEND;\n\n".data))
      rfl (wf_Chars_ne_nil hwf) (by intro x hx; simp at hx) (by simp) (by omega)]
    rfl
  rw [dirloop_csl
    (show readToken (f4 + 1)
      ("\n\tCHARSTATELABELS\n\t\t".data
        ++ ((u :: R) ++ ("\tMATRIX\n\t".data
          ++ ((rowsTailText m m.Taxa).data ++ "\t;\nEND;\n\n".data))))
      = ("CHARSTATELABELS", ' ', some (u :: (R ++ ("\tMATRIX\n\t".data
        ++ ((rowsTailText m m.Taxa).data ++ "\t;\nEND;\n\n".data))))) from htokC)
    (by decide) hcslrun]
  obtain ⟨f5, rfl⟩ : ∃ f, f4 = f + 1 := ⟨f4 - 1, by omega⟩
  rw [htax]
  obtain ⟨u2, R2, hrh, hu2w⟩ := rowsTail_head ts0
    (wf_GoodTaxonName hwf (by rw [htax]; exact List.mem_cons_self _ _))
  rw [hrh]
  have htokM := readToken_word_ws_word (f5 + 1) ['\n', '\t'] "MATRIX".data '\n'
    ['\t'] u2 (R2 ++ "\t;\nEND;\n\n".data)
    (by decide) (by simp; omega) (by decide) (by decide) (by decide)
    (by decide) (by simp; omega)
    (wordChar_props hu2w).1
    (by obtain ⟨_, _, _, _, _, _, _, h8⟩ := wordChar_props hu2w; exact h8)
    (by obtain ⟨_, h2, h3, h4, h5, _, _, _⟩ := wordChar_props hu2w
        simp [isDelimChar, h2, h3, h4, h5])
  have hrows : readNexusMatrixRows (f5 + 1) Matrix.New ref (nexusCharsOf m)
      (u2 :: (R2 ++ "\t;\nEND;\n\n".data))
      = some (Matrix.mk (readChars m) (expSpecs m ref),
          '\n' :: ('E' :: 'N' :: 'D' :: ';' :: ('\n' :: '\n' :: []))) := by
    rw [show u2 :: (R2 ++ "\t;\nEND;\n\n".data)
      = (rowsTailText m (t0 :: ts0)).data
        ++ '\t' :: ';' :: ('\n' :: ('E' :: 'N' :: 'D' :: ';' :: ('\n' :: '\n' :: [])))
      from by rw [hrh]; simp]
    rw [rows_run hwf (t0 :: ts0) (f5 + 1) Matrix.New
      ('\n' :: ('E' :: 'N' :: 'D' :: ';' :: ('\n' :: '\n' :: [])))
      (by simp) (fun t ht => by rw [htax]; exact ht) (by omega)]
    rw [show rowsFold ref ((t0 :: ts0).map (fun t => (t, colsOf m t))) Matrix.New
      = Matrix.mk (readChars m) (expSpecs m ref) from by
        rw [← htax]; exact wf_readSpecs hwf]
  rw [dirloop_matrix
    (show readToken (f5 + 1)
      ('\n' :: ("\tMATRIX\n\t".data ++ ((u2 :: R2) ++ "\t;\nEND;\n\n".data)))
      = ("MATRIX", ' ', some (u2 :: (R2 ++ "\t;\nEND;\n\n".data))) from htokM)
    (by decide) hrows]
  obtain ⟨f6, rfl⟩ : ∃ f, f5 = f + 1 := ⟨f5 - 1, by omega⟩
  have htokE := readToken_word_delim (f6 + 1) ['\n'] ['E', 'N', 'D'] ';' ['\n', '\n']
    (by intro x hx; simp at hx; rw [hx]; decide) (by simp; omega)
    (by decide) (by decide) (by decide)
  rw [dirloop_end
    (show readToken (f6 + 1) ('\n' :: ('E' :: 'N' :: 'D' :: ';' :: ('\n' :: '\n' :: [])))
      = ("END", ';', some ['\n', '\n']) from htokE)
    (Or.inl (by decide))]

/-- Reading back the full written NEXUS text of a well-formed matrix
yields exactly the expected character table and specimen table. -/
theorem nexus_read_run {ref : String} {m : Matrix} (hwf : NexusWF ref m) (ts : String)
    (hts : ']' ∉ ts.data) (fuel : Nat)
    (hfuel : m.Taxa.length + m.Chars.length + 60 < fuel) :
    Matrix.ReadNexus Matrix.New ref fuel (nexusText ts m).data
      = some (Matrix.mk (readChars m) (expSpecs m ref)) := by
  obtain ⟨f0, rfl⟩ : ∃ f, fuel = f + 1 := ⟨fuel - 1, by omega⟩
  have hrows_data : (String.join (m.Taxa.map (fun n => matrixRowText m n m.Chars))).data
      = '\t' :: (rowsTailText m m.Taxa).data := by
    obtain ⟨t0, ts0, htax⟩ := List.exists_cons_of_ne_nil (wf_Taxa_ne_nil hwf)
    rw [htax]
    exact rowsText_data m t0 ts0
  rw [show (nexusText ts m).data
    = "#NEXUS\n[written ".data ++ (ts.data ++ (']' :: ('\n' :: ('\n' ::
        ("BEGIN TAXA;\n\tTITLE Taxa;\n\tDIMENSIONS NTAX=".data
          ++ ((natDecimal m.Taxa.length).data
            ++ (";\n\tTAXLABELS\n".data
              ++ ((String.join (m.Taxa.map taxaLine)).data
                ++ ("\t;\nEND;\n\n".data
                  ++ ("BEGIN CHARACTERS;\n\tTITLE 'Phylogenetic data matrix';\n\tDIMENSIONS NCHAR=".data
                    ++ ((natDecimal m.Chars.length).data
                      ++ (";\n\tFORMAT DATATYPE = STANDARD RESPECTCASE GAP = - MISSING = ? SYMBOLS = \"0 1 2 3 4 5 6 7 8 9 A B C D E F\";\n\tCHARSTATELABELS\n\t\t".data
                        ++ ((cslTailFrom m m.Chars 0).data
                          ++ ("\tMATRIX\n\t".data
                            ++ ((rowsTailText m m.Taxa).data
                              ++ "\t;\nEND;\n\n".data)))))))))))))))
    from by
      rw [nexusText, headerText, taxaBlockText, charsBlockHead,
        charStateLabelsText_eq m m.Chars 0 (wf_Chars_ne_nil hwf)]
      simp only [String.data_append, List.append_assoc]
      rw [hrows_data]
      simp]
  have htokH := readToken_word_ws_comment (f0 + 1) [] "#NEXUS".data '\n' []
    ("written ".data ++ ts.data) ['\n', '\n'] 'B'
    ("EGIN TAXA;\n\tTITLE Taxa;\n\tDIMENSIONS NTAX=".data
      ++ ((natDecimal m.Taxa.length).data
        ++ (";\n\tTAXLABELS\n".data
          ++ ((String.join (m.Taxa.map taxaLine)).data
            ++ ("\t;\nEND;\n\n".data
              ++ ("BEGIN CHARACTERS;\n\tTITLE 'Phylogenetic data matrix';\n\tDIMENSIONS NCHAR=".data
                ++ ((natDecimal m.Chars.length).data
                  ++ (";\n\tFORMAT DATATYPE = STANDARD RESPECTCASE GAP = - MISSING = ? SYMBOLS = \"0 1 2 3 4 5 6 7 8 9 A B C D E F\";\n\tCHARSTATELABELS\n\t\t".data
                    ++ ((cslTailFrom m m.Chars 0).data
                      ++ ("\tMATRIX\n\t".data
                        ++ ((rowsTailText m m.Taxa).data
                          ++ "\t;\nEND;\n\n".data)))))))))))
    (by intro x hx; simp at hx) (by simp) (by decide) (by decide) (by decide)
    (by intro x hx; simp at hx)
    (by
      intro hx
      rcases List.mem_append.1 hx with h | h
      · revert h; decide
      · exact hts h)
    (by decide) (by simp; omega) (by decide) (by decide) (by decide)
  have htokH2 : readToken (f0 + 1)
      ("#NEXUS\n[written ".data ++ (ts.data ++ (']' :: ('\n' :: ('\n' ::
        ("BEGIN TAXA;\n\tTITLE Taxa;\n\tDIMENSIONS NTAX=".data
          ++ ((natDecimal m.Taxa.length).data
            ++ (";\n\tTAXLABELS\n".data
              ++ ((String.join (m.Taxa.map taxaLine)).data
                ++ ("\t;\nEND;\n\n".data
                  ++ ("BEGIN CHARACTERS;\n\tTITLE 'Phylogenetic data matrix';\n\tDIMENSIONS NCHAR=".data
                    ++ ((natDecimal m.Chars.length).data
                      ++ (";\n\tFORMAT DATATYPE = STANDARD RESPECTCASE GAP = - MISSING = ? SYMBOLS = \"0 1 2 3 4 5 6 7 8 9 A B C D E F\";\n\tCHARSTATELABELS\n\t\t".data
                        ++ ((cslTailFrom m m.Chars 0).data
                          ++ ("\tMATRIX\n\t".data
                            ++ ((rowsTailText m m.Taxa).data
                              ++ "\t;\nEND;\n\n".data))))))))))))))))
      = ("#NEXUS", ' ', some ('B' ::
        ("EGIN TAXA;\n\tTITLE Taxa;\n\tDIMENSIONS NTAX=".data
          ++ ((natDecimal m.Taxa.length).data
            ++ (";\n\tTAXLABELS\n".data
              ++ ((String.join (m.Taxa.map taxaLine)).data
                ++ ("\t;\nEND;\n\n".data
                  ++ ("BEGIN CHARACTERS;\n\tTITLE 'Phylogenetic data matrix';\n\tDIMENSIONS NCHAR=".data
                    ++ ((natDecimal m.Chars.length).data
                      ++ (";\n\tFORMAT DATATYPE = STANDARD RESPECTCASE GAP = - MISSING = ? SYMBOLS = \"0 1 2 3 4 5 6 7 8 9 A B C D E F\";\n\tCHARSTATELABELS\n\t\t".data
                        ++ ((cslTailFrom m m.Chars 0).data
                          ++ ("\tMATRIX\n\t".data
                            ++ ((rowsTailText m m.Taxa).data
                              ++ "\t;\nEND;\n\n".data))))))))))))) := htokH
  simp only [Matrix.ReadNexus, htokH2]
  rw [if_neg (by decide)]
  rw [show ('B' ::
      ("EGIN TAXA;\n\tTITLE Taxa;\n\tDIMENSIONS NTAX=".data
        ++ ((natDecimal m.Taxa.length).data
          ++ (";\n\tTAXLABELS\n".data
            ++ ((String.join (m.Taxa.map taxaLine)).data
              ++ ("\t;\nEND;\n\n".data
                ++ ("BEGIN CHARACTERS;\n\tTITLE 'Phylogenetic data matrix';\n\tDIMENSIONS NCHAR=".data
                  ++ ((natDecimal m.Chars.length).data
                    ++ (";\n\tFORMAT DATATYPE = STANDARD RESPECTCASE GAP = - MISSING = ? SYMBOLS = \"0 1 2 3 4 5 6 7 8 9 A B C D E F\";\n\tCHARSTATELABELS\n\t\t".data
                      ++ ((cslTailFrom m m.Chars 0).data
                        ++ ("\tMATRIX\n\t".data
                          ++ ((rowsTailText m m.Taxa).data
                            ++ "\t;\nEND;\n\n".data))))))))))))
    = (taxaBlockText m.Taxa).data
      ++ ("BEGIN CHARACTERS;\n\tTITLE 'Phylogenetic data matrix';\n\tDIMENSIONS NCHAR=".data
        ++ ((natDecimal m.Chars.length).data
          ++ (";\n\tFORMAT DATATYPE = STANDARD RESPECTCASE GAP = - MISSING = ? SYMBOLS = \"0 1 2 3 4 5 6 7 8 9 A B C D E F\";\n\tCHARSTATELABELS\n\t\t".data
            ++ ((cslTailFrom m m.Chars 0).data
              ++ ("\tMATRIX\n\t".data
                ++ ((rowsTailText m m.Taxa).data ++ "\t;\nEND;\n\n".data))))))
    from by
      rw [taxaBlockText]
      simp only [String.data_append, List.append_assoc]
      rfl]
  rw [taxa_block_step m.Taxa f0 _ (wf_Taxa_ne_nil hwf)
    (fun t ht => wf_GoodTaxonName hwf ht) (by omega)]
  exact chars_block_run hwf f0 (by omega)

/-! ## Claim C1: the NEXUS round-trip -/

/-- C1 counterexample matrix: a well-formed-looking matrix whose one
specimen is named `sp` rather than the reader's `specID(ref:taxon)`
key, so the read-back matrix files its observations under a different
specimen name. -/
def nexusCexMatrix : Matrix := Matrix.mk
  [("char a", Character.mk "char a" ["s0"])]
  [("sp", Specimen.mk "Taxa1" "sp" [("char a", [("s0", Observation.mk "s0" "" "" "")])])]

/-- C1 witness matrix: one taxon, one specimen named by the reader's
rule for reference id `r`, one character with one observed state. -/
def nexusWitnessMatrix : Matrix := Matrix.mk
  [("char a", Character.mk "char a" ["s0"])]
  [("r:taxa1", Specimen.mk "Taxa1" "r:taxa1"
      [("char a", [("s0", Observation.mk "s0" "r" "" "")])])]

/-- C1 counterexample: the round-trip does not hold for every matrix.
Writing `nexusCexMatrix` and reading the text back succeeds, but the
read-back matrix answers `Obs("sp", "char a")` with `["<unknown>"]`
while the original answers `["s0"]`: the reader names specimens
`specID(ref:taxon)`, not by their stored names. -/
theorem nexus_roundtrip_cex :
    Matrix.ReadNexus Matrix.New "r" 200 (nexusText "ts" nexusCexMatrix).data
      = some (Matrix.mk (readChars nexusCexMatrix) (expSpecs nexusCexMatrix "r")) ∧
    (Matrix.mk (readChars nexusCexMatrix) (expSpecs nexusCexMatrix "r")).Obs "sp" "char a"
      = [Unknown] ∧
    nexusCexMatrix.Obs "sp" "char a" = ["s0"] := by
  refine ⟨by decide, by decide, by decide⟩

/-- C1 (amended): for every matrix in the canonical round-trip class
`NexusWF ref m` — every specimen is named `specID(ref:taxon)` and is the
sole specimen of its canonically named taxon, every (specimen,
character) pair carries an observation, no observation is `<unknown>`,
`<na>` only occurs alone, each character has between 1 and 16 concrete
states all in normalized tokenizer-safe form — writing `m` to NEXUS text
with `Nexus` (any timestamp free of `]`) and reading it back with
`ReadNexus` under the same reference id and sufficient fuel yields a
matrix `m2` with `Taxa(m2) = Taxa(m)`, `Chars(m2) = Chars(m)`,
`States(m2, c) = States(m, c)` for every string `c`, and
`Obs(m2, spec, c) = Obs(m, spec, c)` for every pair of strings.  As
stated over every matrix the claim fails (`nexus_roundtrip_cex`): a
specimen stored under a name other than `specID(ref:taxon)` reads back
under the reader's synthesized name, and an unobserved pair would pollute
the read-back state set with `<unknown>`. -/
theorem nexus_roundtrip {ref : String} {m : Matrix} (hwf : NexusWF ref m) (ts : String)
    (hts : ']' ∉ ts.data) (fuel : Nat)
    (hfuel : m.Taxa.length + m.Chars.length + 60 < fuel) :
    ∃ m2, Matrix.ReadNexus Matrix.New ref fuel (nexusText ts m).data = some m2 ∧
      m2.Taxa = m.Taxa ∧ m2.Chars = m.Chars ∧
      (∀ c, m2.States c = m.States c) ∧
      (∀ spec c, m2.Obs spec c = m.Obs spec c) :=
  ⟨Matrix.mk (readChars m) (expSpecs m ref), nexus_read_run hwf ts hts fuel hfuel,
    read_Taxa_eq hwf, read_Chars_eq hwf, read_States_eq hwf, read_Obs_eq hwf⟩

/-- Witness for C1 (amended): the concrete one-taxon, one-character
matrix `nexusWitnessMatrix` is in the class and round-trips. -/
theorem nexus_roundtrip_witness :
    ∃ m2, Matrix.ReadNexus Matrix.New "r" 100 (nexusText "ts" nexusWitnessMatrix).data
        = some m2 ∧
      m2.Taxa = nexusWitnessMatrix.Taxa ∧ m2.Chars = nexusWitnessMatrix.Chars ∧
      (∀ c, m2.States c = nexusWitnessMatrix.States c) ∧
      (∀ spec c, m2.Obs spec c = nexusWitnessMatrix.Obs spec c) :=
  nexus_roundtrip (by decide) "ts" (by decide) 100 (by decide)

end Phydata
